import Mathlib

/-!
# sweep: whitelist matcher and asset-usage detector

A shallow embedding of `src/lib/checker.js` (class `ComprehensiveCleanupChecker`).

JavaScript strings are sequences of UTF-16 code units; here a string is a
`List Char`, and a `Char` is a Unicode code point.  For a character of the
Basic Multilingual Plane the code point is its one code unit, and the
embedding reads such text unit by unit as the program does.  A character
outside the plane is one `Char` here and two code units in the program: a
single-unit wildcard of a regex (`[^/]` for the glob `?`) and the length
limit of `validateRegexSafety` count it once here and twice there; the
statement about what a glob's regex accepts is therefore made for strings
that satisfy `IsBmp`.
Host functions the checker calls
(`String.prototype.trim`, `RegExp`, Node's POSIX `path` module) are embedded
as ordinary functions next to the checker's own methods.
-/

namespace Sweep

/-! ## JavaScript string primitives -/

/-- A string of the program: the list of its code points (for text of the
Basic Multilingual Plane, the list of its UTF-16 code units). -/
abbrev Str := List Char

/-- Every character of the string lies in the Basic Multilingual Plane, so
that it is one UTF-16 code unit of the program's string. -/
def IsBmp (s : Str) : Prop := ∀ c ∈ s, c.toNat < 0x10000

instance (s : Str) : Decidable (IsBmp s) :=
  inferInstanceAs (Decidable (∀ c ∈ s, c.toNat < 0x10000))

/-- ECMAScript `LineTerminator`: LF, CR, LS, PS. -/
def isLineTerminator (c : Char) : Bool :=
  c.toNat == 0x0A || c.toNat == 0x0D || c.toNat == 0x2028 || c.toNat == 0x2029

/-- ECMAScript `WhiteSpace` or `LineTerminator`: what `trim` strips and what the
regex class `\s` matches. -/
def isJsSpace (c : Char) : Bool :=
  let n := c.toNat
  n == 0x09 || n == 0x0A || n == 0x0B || n == 0x0C || n == 0x0D || n == 0x20 ||
  n == 0xA0 || n == 0x1680 || (0x2000 ≤ n && n ≤ 0x200A) || n == 0x2028 ||
  n == 0x2029 || n == 0x202F || n == 0x205F || n == 0x3000 || n == 0xFEFF

/-- The regex class `\d`. -/
def isJsDigit (c : Char) : Bool :=
  0x30 ≤ c.toNat && c.toNat ≤ 0x39

/-- The regex class `\w`: ASCII letters, digits and underscore. -/
def isJsWord (c : Char) : Bool :=
  let n := c.toNat
  (0x41 ≤ n && n ≤ 0x5A) || (0x61 ≤ n && n ≤ 0x7A) || (0x30 ≤ n && n ≤ 0x39) || n == 0x5F

/-- `String.prototype.trimStart`. -/
def trimStart (s : Str) : Str := s.dropWhile isJsSpace

/-- `String.prototype.trimEnd`. -/
def trimEnd (s : Str) : Str := (s.reverse.dropWhile isJsSpace).reverse

/-- `String.prototype.trim`. -/
def trim (s : Str) : Str := trimEnd (trimStart s)

/-- `s.startsWith(p)`. -/
def startsWith (s p : Str) : Bool := p.isPrefixOf s

/-- `s.endsWith(p)`. -/
def endsWith (s p : Str) : Bool := p.reverse.isPrefixOf s.reverse

/-- `s.includes(p)`: `p` occurs in `s` as a contiguous substring. -/
def includes : Str → Str → Bool
  | [], p => p.isEmpty
  | c :: s, p => p.isPrefixOf (c :: s) || includes s p

/-- `s.replace(/\\/g, "/")`: every backslash becomes a forward slash. -/
def backslashesToSlashes (s : Str) : Str :=
  s.map (fun c => if c = '\\' then '/' else c)

/-! ## Regular expressions

The fragment of ECMAScript regular expressions without back-references and
look-around, evaluated by a backtracking matcher written in
continuation-passing style.  Only `RegExp.prototype.test` is used by the
checker, so greedy/lazy priorities and capture contents are not represented.
-/

/-- One member of a character class `[...]`. -/
inductive ClassItem where
  | single (c : Char)
  | range (lo hi : Char)
  | digit (neg : Bool)
  | word (neg : Bool)
  | space (neg : Bool)
  deriving DecidableEq, Repr

/-- Whether a code unit belongs to a class member. -/
def ClassItem.test : ClassItem → Char → Bool
  | .single c, d => d == c
  | .range lo hi, d => lo.toNat ≤ d.toNat && d.toNat ≤ hi.toNat
  | .digit neg, d => isJsDigit d != neg
  | .word neg, d => isJsWord d != neg
  | .space neg, d => isJsSpace d != neg

/-- Regular expression syntax trees. `any dotAll` is `.`; `bol multiline` and
`eol multiline` are `^` and `$`; groups are transparent for `test`. -/
inductive Re where
  | empty
  | chr (c : Char)
  | any (dotAll : Bool)
  | cls (neg : Bool) (items : List ClassItem)
  | bol (multiline : Bool)
  | eol (multiline : Bool)
  | seq (a b : Re)
  | alt (a b : Re)
  | star (a : Re)
  deriving DecidableEq, Repr

/-- The quantifier `+`. -/
def Re.plus (a : Re) : Re := .seq a (.star a)

/-- The quantifier `?`. -/
def Re.opt (a : Re) : Re := .alt a .empty

/-- Concatenation of a list of terms. -/
def Re.cat : List Re → Re
  | [] => .empty
  | [a] => a
  | a :: rest => .seq a (Re.cat rest)

/-- The literal string `s` as a regular expression. -/
def Re.lit (s : Str) : Re := Re.cat (s.map Re.chr)

/-- Whether the class `[items]` (negated when `neg`) accepts `c`. -/
def classTest (neg : Bool) (items : List ClassItem) (c : Char) : Bool :=
  items.any (fun it => it.test c) != neg

/-- The assertion `^` with the reversed left context `pre`. -/
def atLineStart (multiline : Bool) (pre : Str) : Bool :=
  match pre with
  | [] => true
  | p :: _ => multiline && isLineTerminator p

/-- The assertion `$` with the right context `suf`. -/
def atLineEnd (multiline : Bool) (suf : Str) : Bool :=
  match suf with
  | [] => true
  | c :: _ => multiline && isLineTerminator c

/-- A continuation of the matcher: receives the reversed text consumed so far
and the remaining input. -/
abbrev Cont := Str → Str → Bool

/-- The loop of `*`: after each iteration that consumed input, either stop or
iterate again.  Iterations that consume nothing are cut, as in ECMAScript's
`RepeatMatcher`. -/
def starLoop (step : Str → Str → Cont → Bool) : Nat → Str → Str → Cont → Bool
  | 0, pre, inp, k => k pre inp
  | fuel + 1, pre, inp, k =>
    k pre inp ||
      step pre inp (fun pre2 inp2 => decide (inp2.length < inp.length) && starLoop step fuel pre2 inp2 k)

/-- The backtracking matcher: `r.run pre inp k` holds when `r` matches a prefix
of `inp` (with `pre` the reversed text to the left) such that `k` accepts what
follows. -/
def Re.run : Re → Str → Str → Cont → Bool
  | .empty, pre, inp, k => k pre inp
  | .chr c, pre, inp, k =>
    match inp with
    | [] => false
    | d :: t => d == c && k (d :: pre) t
  | .any dotAll, pre, inp, k =>
    match inp with
    | [] => false
    | d :: t => (dotAll || !isLineTerminator d) && k (d :: pre) t
  | .cls neg items, pre, inp, k =>
    match inp with
    | [] => false
    | d :: t => classTest neg items d && k (d :: pre) t
  | .bol ml, pre, inp, k => atLineStart ml pre && k pre inp
  | .eol ml, pre, inp, k => atLineEnd ml inp && k pre inp
  | .seq a b, pre, inp, k => a.run pre inp (fun pre2 inp2 => b.run pre2 inp2 k)
  | .alt a b, pre, inp, k => a.run pre inp k || b.run pre inp k
  | .star a, pre, inp, k => starLoop a.run (inp.length + 1) pre inp k

/-- Try a match at the current position, then at every later one. -/
def Re.searchFrom (r : Re) : Str → Str → Bool
  | pre, [] => r.run pre [] (fun _ _ => true)
  | pre, c :: t => r.run pre (c :: t) (fun _ _ => true) || Re.searchFrom r (c :: pre) t

/-- `RegExp.prototype.test` for a regex without the `g` and `y` flags: does
the regex match somewhere in `s`. -/
def Re.test (r : Re) (s : Str) : Bool := r.searchFrom [] s

/-- Denotation of a regex: `r.Matches pre w suf` says that `r` matches exactly
the word `w` when `pre` is the reversed text to its left and `suf` the text to
its right. -/
inductive Re.Matches : Re → Str → Str → Str → Prop
  | empty (pre suf : Str) : Re.Matches .empty pre [] suf
  | chr (c : Char) (pre suf : Str) : Re.Matches (.chr c) pre [c] suf
  | any (dotAll : Bool) (c : Char) (pre suf : Str) :
      (dotAll || !isLineTerminator c) = true → Re.Matches (.any dotAll) pre [c] suf
  | cls (neg : Bool) (items : List ClassItem) (c : Char) (pre suf : Str) :
      classTest neg items c = true → Re.Matches (.cls neg items) pre [c] suf
  | bol (ml : Bool) (pre suf : Str) : atLineStart ml pre = true → Re.Matches (.bol ml) pre [] suf
  | eol (ml : Bool) (pre suf : Str) : atLineEnd ml suf = true → Re.Matches (.eol ml) pre [] suf
  | seq {a b : Re} {pre w1 w2 suf : Str} :
      Re.Matches a pre w1 (w2 ++ suf) → Re.Matches b (w1.reverse ++ pre) w2 suf →
      Re.Matches (.seq a b) pre (w1 ++ w2) suf
  | altL {a b : Re} {pre w suf : Str} : Re.Matches a pre w suf → Re.Matches (.alt a b) pre w suf
  | altR {a b : Re} {pre w suf : Str} : Re.Matches b pre w suf → Re.Matches (.alt a b) pre w suf
  | starNil (a : Re) (pre suf : Str) : Re.Matches (.star a) pre [] suf
  | starCons {a : Re} {pre w1 w2 suf : Str} :
      Re.Matches a pre w1 (w2 ++ suf) → Re.Matches (.star a) (w1.reverse ++ pre) w2 suf →
      Re.Matches (.star a) pre (w1 ++ w2) suf

/-! ### Parsing regex source text (`new RegExp(source, flags)`)

A character-by-character parser for the non-Unicode pattern grammar:
disjunction, concatenation, the quantifiers `*`, `+`, `?` (optionally lazy),
capturing and `(?:...)` groups, `.`, `^`, `$`, character classes with ranges,
class escapes `\d \D \w \W \s \S`, control escapes `\t \n \r \f \v` and
identity escapes of non-word characters.  Source text that is ill-formed is
a `syntaxError`; well-formed source outside this fragment (back-references,
look-around, braced quantifiers, `\b`, Unicode escapes, the flags
`g i u v y`) is `unsupported`, and the embedding makes no statement about
how such an expression matches.
-/

deriving instance DecidableEq for Except

/-- Why `new RegExp` did not produce a regex of the embedded fragment. -/
inductive RegExpError where
  | syntaxError
  | unsupported
  deriving DecidableEq, Repr

/-- The flags that change how the fragment matches. -/
structure Flags where
  dotAll : Bool := false
  multiline : Bool := false
  deriving DecidableEq, Repr

/-- Read the flags string of `new RegExp(source, flags)`. -/
def parseFlags (fl : Str) : Except RegExpError Flags :=
  if ¬ fl.all (fun c => c ∈ ['d', 'g', 'i', 'm', 's', 'u', 'v', 'y']) then .error .syntaxError
  else if ¬ fl.Nodup then .error .syntaxError
  else if fl.any (fun c => c ∈ ['g', 'i', 'u', 'v', 'y']) then .error .unsupported
  else .ok { dotAll := fl.contains 's', multiline := fl.contains 'm' }

/-- Alternation of a list of alternatives. -/
def Re.alts : List Re → Re
  | [] => .empty
  | [a] => a
  | a :: rest => .alt a (Re.alts rest)

/-- What has been read of a character class. -/
inductive ClassAtom where
  | chr (c : Char)
  | dash
  | esc (it : ClassItem)
  deriving DecidableEq, Repr

/-- Turn the atoms of a class into its members, resolving `a-z` ranges. A
dash that is first, last or directly after a range stands for itself. -/
def buildClass : List ClassAtom → Except RegExpError (List ClassItem)
  | [] => .ok []
  | .chr lo :: .dash :: .chr hi :: rest =>
    if lo.toNat ≤ hi.toNat then (buildClass rest).map (fun is => .range lo hi :: is)
    else .error .syntaxError
  | .dash :: .dash :: .chr hi :: rest =>
    if '-'.toNat ≤ hi.toNat then (buildClass rest).map (fun is => .range '-' hi :: is)
    else .error .syntaxError
  | .chr lo :: .dash :: .dash :: rest =>
    if lo.toNat ≤ '-'.toNat then (buildClass rest).map (fun is => .range lo '-' :: is)
    else .error .syntaxError
  | .esc _ :: .dash :: .chr _ :: _ => .error .unsupported
  | .esc _ :: .dash :: .esc _ :: _ => .error .unsupported
  | .esc _ :: .dash :: .dash :: _ => .error .unsupported
  | .chr _ :: .dash :: .esc _ :: _ => .error .unsupported
  | .dash :: .dash :: .esc _ :: _ => .error .unsupported
  | .dash :: .dash :: .dash :: rest => (buildClass rest).map (fun is => .range '-' '-' :: is)
  | .chr c :: rest => (buildClass rest).map (fun is => .single c :: is)
  | .dash :: rest => (buildClass rest).map (fun is => .single '-' :: is)
  | .esc it :: rest => (buildClass rest).map (fun is => it :: is)

/-- A group being read: its finished alternatives and the terms of the
alternative in progress, both most recent first. -/
structure Frame where
  alts : List Re := []
  terms : List Re := []
  deriving DecidableEq, Repr

/-- The regex a finished group (or the whole pattern) stands for. -/
def Frame.close (f : Frame) : Re :=
  Re.alts ((Re.cat f.terms.reverse :: f.alts).reverse)

/-- Where the parser is inside the source text. -/
inductive Mode where
  | normal
  | escape
  | groupOpen
  | groupQuestion
  | cls (neg : Bool) (atoms : List ClassAtom)
  | clsStart
  | clsEscape (neg : Bool) (atoms : List ClassAtom)
  deriving DecidableEq, Repr

/-- Parser state. `quantifiable` says the last term is an atom a quantifier
may follow, `lazyOk` that it was just quantified (a `?` makes it lazy). -/
structure PState where
  stack : List Frame := []
  cur : Frame := {}
  mode : Mode := .normal
  quantifiable : Bool := false
  lazyOk : Bool := false
  deriving DecidableEq, Repr

/-- Append an atom to the alternative in progress. -/
def PState.pushAtom (st : PState) (r : Re) : PState :=
  { st with cur := { st.cur with terms := r :: st.cur.terms }, mode := .normal,
            quantifiable := true, lazyOk := false }

/-- Append an assertion (`^`, `$`): not quantifiable. -/
def PState.pushAssertion (st : PState) (r : Re) : PState :=
  { st with cur := { st.cur with terms := r :: st.cur.terms }, mode := .normal,
            quantifiable := false, lazyOk := false }

/-- Apply a quantifier to the last atom. -/
def PState.quantify (st : PState) (q : Re → Re) : Except RegExpError PState :=
  if st.quantifiable then
    match st.cur.terms with
    | [] => .error .syntaxError
    | t :: ts => .ok { st with cur := { st.cur with terms := q t :: ts },
                               quantifiable := false, lazyOk := true }
  else .error .syntaxError

/-- The class member an escape `\c` inside or outside a class stands for, when
it is a class escape or a single escaped character. -/
def escapeItem (c : Char) : Except RegExpError ClassItem :=
  if c = 'd' then .ok (.digit false)
  else if c = 'D' then .ok (.digit true)
  else if c = 'w' then .ok (.word false)
  else if c = 'W' then .ok (.word true)
  else if c = 's' then .ok (.space false)
  else if c = 'S' then .ok (.space true)
  else if c = 't' then .ok (.single (Char.ofNat 0x09))
  else if c = 'n' then .ok (.single (Char.ofNat 0x0A))
  else if c = 'v' then .ok (.single (Char.ofNat 0x0B))
  else if c = 'f' then .ok (.single (Char.ofNat 0x0C))
  else if c = 'r' then .ok (.single (Char.ofNat 0x0D))
  else if isJsWord c then .error .unsupported
  else .ok (.single c)

/-- The atom an escape outside a class stands for. -/
def escapeAtom (c : Char) : Except RegExpError Re :=
  match escapeItem c with
  | .ok (.single d) => .ok (.chr d)
  | .ok it => .ok (.cls false [it])
  | .error e => .error e

/-- Consume one character outside a class, at a place where a term may start. -/
def pstepNormal (fl : Flags) (st : PState) (c : Char) : Except RegExpError PState :=
  if c = '\\' then .ok { st with mode := .escape }
  else if c = '(' then
    .ok { st with stack := st.cur :: st.stack, cur := {}, mode := .groupOpen,
                  quantifiable := false, lazyOk := false }
  else if c = ')' then
    match st.stack with
    | [] => .error .syntaxError
    | f :: fs => .ok { stack := fs, cur := { f with terms := st.cur.close :: f.terms },
                       mode := .normal, quantifiable := true, lazyOk := false }
  else if c = '|' then
    .ok { st with cur := { alts := Re.cat st.cur.terms.reverse :: st.cur.alts, terms := [] },
                  mode := .normal, quantifiable := false, lazyOk := false }
  else if c = '[' then .ok { st with mode := .clsStart }
  else if c = '*' then st.quantify Re.star
  else if c = '+' then st.quantify Re.plus
  else if c = '?' then
    if st.lazyOk then .ok { st with lazyOk := false } else st.quantify Re.opt
  else if c = '{' then .error .unsupported
  else if c = '.' then .ok (st.pushAtom (.any fl.dotAll))
  else if c = '^' then .ok (st.pushAssertion (.bol fl.multiline))
  else if c = '$' then .ok (st.pushAssertion (.eol fl.multiline))
  else .ok (st.pushAtom (.chr c))

/-- Consume one character inside a class `[...]`. -/
def pstepClass (st : PState) (neg : Bool) (atoms : List ClassAtom) (c : Char) :
    Except RegExpError PState :=
  if c = ']' then (buildClass atoms.reverse).map (fun is => st.pushAtom (.cls neg is))
  else if c = '\\' then .ok { st with mode := .clsEscape neg atoms }
  else if c = '-' then .ok { st with mode := .cls neg (.dash :: atoms) }
  else .ok { st with mode := .cls neg (.chr c :: atoms) }

/-- Consume one character of the source text. -/
def pstep (fl : Flags) (st : PState) (c : Char) : Except RegExpError PState :=
  match st.mode with
  | .normal => pstepNormal fl st c
  | .escape => (escapeAtom c).map st.pushAtom
  | .groupOpen =>
    if c = '?' then .ok { st with mode := .groupQuestion }
    else pstepNormal fl { st with mode := .normal } c
  | .groupQuestion =>
    if c = ':' then .ok { st with mode := .normal } else .error .unsupported
  | .clsStart =>
    if c = '^' then .ok { st with mode := .cls true [] }
    else pstepClass st false [] c
  | .cls neg atoms => pstepClass st neg atoms c
  | .clsEscape neg atoms =>
    if c = 'b' then .ok { st with mode := .cls neg (.chr (Char.ofNat 0x08) :: atoms) }
    else if c = '-' then .ok { st with mode := .cls neg (.esc (.single '-') :: atoms) }
    else (escapeItem c).map (fun it =>
      { st with mode := .cls neg ((match it with | .single d => ClassAtom.chr d | _ => .esc it) :: atoms) })

/-- Consume the source text from a parser state. -/
def pfold (fl : Flags) : PState → Str → Except RegExpError PState
  | st, [] => .ok st
  | st, c :: cs =>
    match pstep fl st c with
    | .ok st2 => pfold fl st2 cs
    | .error e => .error e

/-- The regex at the end of the source text. -/
def pfinish (st : PState) : Except RegExpError Re :=
  match st.mode, st.stack with
  | .normal, [] => .ok st.cur.close
  | _, _ => .error .syntaxError

/-- `new RegExp(source, flags)` for the embedded fragment. -/
def RegExp.compile (source flags : Str) : Except RegExpError Re :=
  match parseFlags flags with
  | .error e => .error e
  | .ok fl =>
    match pfold fl {} source with
    | .error e => .error e
    | .ok st => pfinish st

/-- What it means for a matcher step to implement the denotation of `a`. -/
def StepSpec (a : Re) (step : Str → Str → Cont → Bool) : Prop :=
  ∀ pre inp k, step pre inp k = true ↔
    ∃ w suf, inp = w ++ suf ∧ a.Matches pre w suf ∧ k (w.reverse ++ pre) suf = true

/-! ## Node's `path` module, POSIX flavour -/

/-- `path.isAbsolute(p)`: the path starts with a slash. -/
def Path.isAbsolute (p : Str) : Bool :=
  match p with
  | [] => false
  | c :: _ => c == '/'

/-- Cut a string at every slash (empty pieces included). -/
def splitSlash : Str → List Str
  | [] => [[]]
  | c :: s =>
    if c = '/' then [] :: splitSlash s
    else
      match splitSlash s with
      | [] => [[c]]
      | seg :: rest => (c :: seg) :: rest

/-- Join path segments with slashes. -/
def joinSlash : List Str → Str
  | [] => []
  | [seg] => seg
  | seg :: rest => seg ++ '/' :: joinSlash rest

/-- Resolve `.` and `..` segments against the segments collected so far (most
recent first); `..` at the root is dropped. -/
def normalizeSegs : List Str → List Str → List Str
  | acc, [] => acc.reverse
  | acc, seg :: rest =>
    if seg = [] ∨ seg = ['.'] then normalizeSegs acc rest
    else if seg = ['.', '.'] then normalizeSegs acc.tail rest
    else normalizeSegs (seg :: acc) rest

/-- The segments of `path.resolve(p)` below the root, with `cwd` the absolute
working directory. -/
def Path.resolveSegs (cwd p : Str) : List Str :=
  if Path.isAbsolute p then normalizeSegs [] (splitSlash p)
  else normalizeSegs [] (splitSlash cwd ++ splitSlash p)

/-- Strip the longest common prefix of two segment lists. -/
def dropCommon : List Str → List Str → List Str × List Str
  | a :: as, b :: bs => if a = b then dropCommon as bs else (a :: as, b :: bs)
  | as, bs => (as, bs)

/-- `path.relative(fromPath, toPath)`: one `..` for every segment of the
resolved `fromPath` past the common prefix, then the rest of the resolved `toPath`. -/
def Path.relative (cwd fromPath toPath : Str) : Str :=
  if fromPath = toPath then []
  else
    let d := dropCommon (Path.resolveSegs cwd fromPath) (Path.resolveSegs cwd toPath)
    joinSlash (d.1.map (fun _ => ['.', '.']) ++ d.2)

/-- `path.basename(p)`: the last segment, trailing slashes ignored. -/
def Path.basename (p : Str) : Str :=
  ((p.reverse.dropWhile (fun c => c == '/')).takeWhile (fun c => c != '/')).reverse

/-- The trailing slashes of a path. -/
def trailingSlashes (p : Str) : Str :=
  p.reverse.takeWhile (fun c => c == '/')

/-- `path.extname(p)`: from the last dot of the last segment to its end; empty
when there is no dot, when the dot starts the segment, or for `..`. -/
def Path.extname (p : Str) : Str :=
  let comp := Path.basename p
  let afterDot := comp.reverse.takeWhile (fun c => c != '.')
  if afterDot.length = comp.length then []
  else if comp.length - afterDot.length - 1 = 0 then []
  else if comp = ['.', '.'] then []
  else comp.drop (comp.length - afterDot.length - 1)

/-- `path.basename(p, suffix)`: the last segment with `suffix` removed from its
end, unless the suffix is the whole segment; when the segment is itself a
proper tail of the suffix Node returns it with the path's trailing slashes. -/
def Path.basenameExt (p suffix : Str) : Str :=
  if suffix ≠ [] ∧ suffix.length ≤ p.length then
    if suffix = p then []
    else
      let comp := Path.basename p
      if endsWith comp suffix then
        if comp = suffix then comp else comp.take (comp.length - suffix.length)
      else if endsWith suffix comp then comp ++ trailingSlashes p
      else comp
  else Path.basename p

/-! ## The checker -/

/-- An entry of `whitelistMatchers.regexMatchers`. -/
structure RegexMatcher where
  sourcePattern : Str
  regex : Re
  deriving DecidableEq, Repr

/-- An entry of `invalidWhitelistPatterns`. -/
structure InvalidPattern where
  pattern : Str
  reason : Str
  deriving DecidableEq, Repr

/-- The `whitelist` section of the configuration: global patterns and the
patterns of each app (`products`). -/
structure WhitelistConfig where
  patterns : List Str := []
  products : List (Str × List Str) := []
  deriving DecidableEq, Repr

/-- `Set.prototype.add`. -/
def setAdd (s : List Str) (x : Str) : List Str :=
  if x ∈ s then s else s ++ [x]

/-- `Map.prototype.get` (with `has` as `isSome`). -/
def mapGet (m : List (Str × Bool)) (k : Str) : Option Bool :=
  (m.find? (fun e => e.1 == k)).map (fun e => e.2)

/-- `Map.prototype.set`. -/
def mapSet : List (Str × Bool) → Str → Bool → List (Str × Bool)
  | [], k, v => [(k, v)]
  | e :: m, k, v => if e.1 = k then (k, v) :: m else e :: mapSet m k v

/-- The fields of a `ComprehensiveCleanupChecker` the whitelist matcher and the
usage detector read or write. `cwd` is the process working directory,
`warnLog` the out-of-app warnings passed to `console.warn`, `sourceContents`
the texts of the readable source files (the values of
`getSourceFileContents()`). -/
structure Checker where
  whitelist : WhitelistConfig := {}
  cwd : Str := ['/']
  appName : Str := []
  appDir : Str := ['/']
  srcDir : Str := ['/']
  exactPaths : List Str := []
  exactBasenames : List Str := []
  regexMatchers : List RegexMatcher := []
  whitelistResultCache : List (Str × Bool) := []
  invalidWhitelistPatterns : List InvalidPattern := []
  pathNormalizationWarnings : List Str := []
  warnLog : List Str := []
  sourceContents : List Str := []
  deriving DecidableEq, Repr

/-- The five `dangerousPatterns` of `validateRegexSafety`, as source text. -/
def dangerousSources : List Str :=
  [ "\\((?:[^)(]|\\([^)(]*\\))*[+*](?:[^)(]|\\([^)(]*\\))*\\)[+*]".toList,
    "\\(\\.\\*\\)\\+|\\(\\.\\+\\)\\+".toList,
    "\\([^)]*\\|[^)]*\\)[+*]\\+".toList,
    "\\\\\\d+".toList,
    "\\(\\?<=[^)]+\\)|\\(\\?<![^)]+\\)".toList ]

/-- `[^)(]` -/
def noParen : Re := .cls true [.single ')', .single '(']

/-- `[^)]` -/
def noClose : Re := .cls true [.single ')']

/-- `[+*]` -/
def plusOrStar : Re := .cls false [.single '+', .single '*']

/-- `(?:[^)(]|\([^)(]*\))*`: group content with at most one level of nesting. -/
def groupBody : Re := .star (.alt noParen (Re.cat [.chr '(', .star noParen, .chr ')']))

/-- `/\((?:[^)(]|\([^)(]*\))*[+*](?:[^)(]|\([^)(]*\))*\)[+*]/`: a group that
contains `+` or `*` and is itself followed by `+` or `*`. -/
def nestedQuantifier : Re :=
  Re.cat [.chr '(', groupBody, plusOrStar, groupBody, .chr ')', plusOrStar]

/-- `/\(\.\*\)\+|\(\.\+\)\+/` -/
def dotStarPlus : Re :=
  .alt (Re.lit "(.*)+".toList) (Re.lit "(.+)+".toList)

/-- `/\([^)]*\|[^)]*\)[+*]\+/` -/
def quantifiedAlternation : Re :=
  Re.cat [.chr '(', .star noClose, .chr '|', .star noClose, .chr ')', plusOrStar, .chr '+']

/-- `/\\\d+/` -/
def backreference : Re :=
  Re.cat [.chr '\\', Re.plus (.cls false [.digit false])]

/-- `/\(\?<=[^)]+\)|\(\?<![^)]+\)/` -/
def lookbehind : Re :=
  .alt (Re.cat [.chr '(', .chr '?', .chr '<', .chr '=', Re.plus noClose, .chr ')'])
       (Re.cat [.chr '(', .chr '?', .chr '<', .chr '!', Re.plus noClose, .chr ')'])

/-- The compiled `dangerousPatterns`, in source order. -/
def dangerousPatterns : List Re :=
  [nestedQuantifier, dotStarPlus, quantifiedAlternation, backreference, lookbehind]

/-- Message of the first `throw` of `validateRegexSafety`. -/
def msgEmptyOrTooLong : Str := "Regex pattern is empty or too long (>300 characters)".toList

/-- Message of the second `throw` of `validateRegexSafety`. -/
def msgBacktracking : Str := "Regex pattern rejected: potential catastrophic backtracking".toList

/-- `validateRegexSafety(regexBody)`: `error msg` is `throw new Error(msg)`. -/
def validateRegexSafety (regexBody : Str) : Except Str Unit :=
  if regexBody = [] ∨ regexBody.length > 300 then .error msgEmptyOrTooLong
  else if dangerousPatterns.any (fun p => p.test regexBody) then .error msgBacktracking
  else .ok ()

/-- The flag letters of the regex-literal form. -/
def flagChars : List Char := ['d', 'g', 'i', 'm', 's', 'u', 'v', 'y']

/-- `pattern.match(/^\/(.*)\/([dgimsuvy]*)$/)`: the body and flags of a pattern
written as a regex literal. The body runs from the first slash to the last
one, may not contain a line terminator, and only flag letters may follow. -/
def regexLiteralMatch (pattern : Str) : Option (Str × Str) :=
  match pattern with
  | [] => none
  | c :: rest =>
    if c ≠ '/' then none
    else
      let flagsRev := rest.reverse.takeWhile (fun d => d != '/')
      if flagsRev.length = rest.length then none
      else
        let body := rest.take (rest.length - flagsRev.length - 1)
        if flagsRev.all (fun d => d ∈ flagChars) ∧ body.all (fun d => !isLineTerminator d) then
          some (body, flagsRev.reverse)
        else none

/-- The regex `/^\/(.*)\/([dgimsuvy]*)$/` with which `processWhitelistPattern`
and `buildWhitelistRegex` recognise a pattern written as a regex literal. -/
def regexLiteralRe : Re :=
  Re.cat [.bol false, .chr '/', .star (.any false), .chr '/',
    .star (.cls false [.single 'd', .single 'g', .single 'i', .single 'm', .single 's',
      .single 'u', .single 'v', .single 'y']), .eol false]

/-- The source text of `regexLiteralRe`. -/
def regexLiteralSource : Str := "^\\/(.*)\\/([dgimsuvy]*)$".toList

/-- The message of a `SyntaxError` thrown by `new RegExp`. -/
def RegExpError.message : RegExpError → Str
  | .syntaxError => "Invalid regular expression".toList
  | .unsupported => "Invalid regular expression (outside the embedded fragment)".toList

/-- `new RegExp(source, flags)` with its exception. -/
def newRegExp (source flags : Str) : Except Str Re :=
  match RegExp.compile source flags with
  | .ok r => .ok r
  | .error e => .error e.message

/-- `escapeRegexChar(char)`: the characters of `/[|\\{}()[\]^$+*?.-]/` get a backslash. -/
def escapeRegexChar (c : Char) : Str :=
  if c ∈ ['|', '\\', '{', '}', '(', ')', '[', ']', '^', '$', '+', '*', '?', '.', '-'] then ['\\', c]
  else [c]

/-- `globToRegex(globPattern)`. -/
def globToRegex : Str → Str
  | [] => []
  | '*' :: '*' :: rest => '.' :: '*' :: globToRegex rest
  | '*' :: rest => '[' :: '^' :: '/' :: ']' :: '*' :: globToRegex rest
  | '?' :: rest => '[' :: '^' :: '/' :: ']' :: globToRegex rest
  | c :: rest => escapeRegexChar c ++ globToRegex rest

/-- `buildWhitelistRegex(pattern)`: `ok none` is the `null` return, `error msg`
an exception. -/
def buildWhitelistRegex (pattern : Str) : Except Str (Option Re) :=
  let trimmedPattern := trim pattern
  if trimmedPattern = [] then .ok none
  else if startsWith trimmedPattern "regex:".toList then
    let regexBody := trimmedPattern.drop 6
    match validateRegexSafety regexBody with
    | .error e => .error e
    | .ok () => (newRegExp regexBody []).map some
  else
    match regexLiteralMatch trimmedPattern with
    | some (regexBody, regexFlags) =>
      match validateRegexSafety regexBody with
      | .error e => .error e
      | .ok () => (newRegExp regexBody regexFlags).map some
    | none =>
      let folderAwarePattern :=
        if endsWith trimmedPattern ['/'] then trimmedPattern ++ ['*', '*'] else trimmedPattern
      (newRegExp ('^' :: globToRegex folderAwarePattern ++ ['$']) []).map some

/-- `getAllWhitelistPatterns()`: the global patterns followed by the app's.
The per-app table is read by its own keys; an app name that is also a member
of `Object.prototype` (such as `constructor`) is outside the embedding. -/
def Checker.getAllWhitelistPatterns (ck : Checker) : List Str :=
  ck.whitelist.patterns ++
    ((ck.whitelist.products.find? (fun e => e.1 == ck.appName)).map (fun e => e.2)).getD []

/-- `resetWhitelistMatchers()`. -/
def Checker.resetWhitelistMatchers (ck : Checker) : Checker :=
  { ck with exactPaths := [], exactBasenames := [], regexMatchers := [],
            whitelistResultCache := [], invalidWhitelistPatterns := [] }

/-- `processWhitelistPattern(normalizedPattern)`. -/
def Checker.processWhitelistPattern (ck : Checker) (normalizedPattern : Str) : Checker :=
  let isRegexPattern :=
    startsWith normalizedPattern "regex:".toList || (regexLiteralMatch normalizedPattern).isSome
  let hasGlobChars := normalizedPattern.any (fun c => c == '*' || c == '?')
  let isFolderPattern := endsWith normalizedPattern ['/']
  let hasPathSeparator := normalizedPattern.contains '/'
  if !isRegexPattern && !hasGlobChars && !isFolderPattern then
    if hasPathSeparator then { ck with exactPaths := setAdd ck.exactPaths normalizedPattern }
    else { ck with exactBasenames := setAdd ck.exactBasenames normalizedPattern }
  else
    match buildWhitelistRegex normalizedPattern with
    | .ok none => ck
    | .ok (some compiledRegex) =>
      { ck with regexMatchers :=
          ck.regexMatchers ++ [{ sourcePattern := normalizedPattern, regex := compiledRegex }] }
    | .error message =>
      { ck with invalidWhitelistPatterns :=
          ck.invalidWhitelistPatterns ++ [{ pattern := normalizedPattern, reason := message }] }

/-- The body of the loop of `compileWhitelistMatchers`: empty patterns and
`//` comments are skipped, the others trimmed and slash-normalized. -/
def Checker.compileStep (ck : Checker) (pattern : Str) : Checker :=
  if pattern = [] ∨ startsWith (trim pattern) ['/', '/'] then ck
  else ck.processWhitelistPattern (backslashesToSlashes (trim pattern))

/-- `compileWhitelistMatchers()`. -/
def Checker.compileWhitelistMatchers (ck : Checker) : Checker :=
  ck.getAllWhitelistPatterns.foldl Checker.compileStep ck.resetWhitelistMatchers

/-- The text of the out-of-app warning, colour codes left out. -/
def outsideWarning (filePath : Str) : Str :=
  "Warning: Ignoring path outside app: ".toList ++ filePath

/-- `normalizePathForWhitelist(filePath)`: the normalized path (empty for "no
match") and the checker with the warning bookkeeping updated. -/
def Checker.normalizePathForWhitelist (ck : Checker) (filePath : Str) : Str × Checker :=
  if filePath = [] then ([], ck)
  else
    let normalizedInputPath := backslashesToSlashes filePath
    if Path.isAbsolute filePath then
      let relativePath := backslashesToSlashes (Path.relative ck.cwd ck.appDir filePath)
      let isOutsideApp :=
        startsWith relativePath ['.', '.', '/'] || relativePath == ['.', '.'] ||
          Path.isAbsolute relativePath
      if isOutsideApp then
        if filePath ∈ ck.pathNormalizationWarnings then ([], ck)
        else
          ([], { ck with pathNormalizationWarnings := setAdd ck.pathNormalizationWarnings filePath,
                         warnLog := ck.warnLog ++ [outsideWarning filePath] })
      else (relativePath, ck)
    else if startsWith normalizedInputPath ['.', '/'] then (normalizedInputPath.drop 2, ck)
    else (normalizedInputPath, ck)

/-- `isWhitelisted(filePath)`: the verdict and the checker afterwards. -/
def Checker.isWhitelisted (ck : Checker) (filePath : Str) : Bool × Checker :=
  if ck.exactPaths.length = 0 ∧ ck.exactBasenames.length = 0 ∧ ck.regexMatchers.length = 0 then
    (false, ck)
  else
    let (normalizedPath, ck1) := ck.normalizePathForWhitelist filePath
    if normalizedPath = [] then (false, ck1)
    else
      match mapGet ck1.whitelistResultCache normalizedPath with
      | some verdict => (verdict, ck1)
      | none =>
        let basename := Path.basename filePath
        if normalizedPath ∈ ck1.exactPaths then
          (true, { ck1 with whitelistResultCache := mapSet ck1.whitelistResultCache normalizedPath true })
        else if basename ∈ ck1.exactBasenames then
          (true, { ck1 with whitelistResultCache := mapSet ck1.whitelistResultCache normalizedPath true })
        else if ck1.regexMatchers.any (fun m => m.regex.test normalizedPath || m.regex.test basename) then
          (true, { ck1 with whitelistResultCache := mapSet ck1.whitelistResultCache normalizedPath true })
        else
          (false, { ck1 with whitelistResultCache := mapSet ck1.whitelistResultCache normalizedPath false })

/-- The characters `isAssetUsed` escapes, those of `/[.*+?^${}()|[\]\\]/`. -/
def regexSpecialChars : List Char :=
  ['.', '*', '+', '?', '^', '$', '{', '}', '(', ')', '|', '[', ']', '\\']

/-- `s.replace(/[.*+?^${}()|[\]\\]/g, "\\$&")`: a backslash before every
special character. -/
def escapeForRegex (s : Str) : Str :=
  s.flatMap (fun c => if c ∈ regexSpecialChars then ['\\', c] else [c])

/-- The source text of `dynamicImportRegex`: the escaped name between
`\$\{[^}]*` and `[^}]*\}`. -/
def dynamicImportSource (escaped : Str) : Str :=
  ['\\', '$', '\\', '{', '[', '^', '}', ']', '*'] ++ escaped ++ ['[', '^', '}', ']', '*', '\\', '}']

/-- The list `searchPatterns` of `isAssetUsed`. -/
def Checker.searchPatterns (ck : Checker) (assetPath : Str) : List Str :=
  let assetName := Path.basename assetPath
  let assetNameWithoutExt := Path.basenameExt assetPath (Path.extname assetPath)
  let relativePath := Path.relative ck.cwd ck.srcDir assetPath
  let normalizedRelativePath := backslashesToSlashes relativePath
  [ assetName, assetNameWithoutExt, relativePath, normalizedRelativePath,
    "src/".toList ++ normalizedRelativePath, "assets/".toList ++ normalizedRelativePath,
    "./assets/".toList ++ normalizedRelativePath, "/assets/".toList ++ normalizedRelativePath ]

/-- `isAssetUsed(assetPath)`, `error` being an exception out of `new RegExp`.
The source creates the regex with the `g` flag, which makes `test` start at
`lastIndex`; that index is 0 at every call here, because the regex is created
afresh and the function returns at the first successful `test`, so the regex
is compiled without the flag. -/
def Checker.isAssetUsed (ck : Checker) (assetPath : Str) : Except Str Bool :=
  let assetNameWithoutExt := Path.basenameExt assetPath (Path.extname assetPath)
  let searchPatterns := ck.searchPatterns assetPath
  let escapedForRegex := escapeForRegex assetNameWithoutExt
  match newRegExp (dynamicImportSource escapedForRegex) [] with
  | .error e => .error e
  | .ok dynamicImportRegex =>
    .ok (ck.sourceContents.any (fun content =>
      searchPatterns.any (fun pattern => includes content pattern) ||
        dynamicImportRegex.test content))

/-- The resolved path does not lie at or below the resolved app directory. -/
def Checker.IsOutsideApp (ck : Checker) (p : Str) : Prop :=
  ¬ (Path.resolveSegs ck.cwd ck.appDir <+: Path.resolveSegs ck.cwd p)

instance (ck : Checker) (p : Str) : Decidable (ck.IsOutsideApp p) :=
  inferInstanceAs (Decidable (¬ (Path.resolveSegs ck.cwd ck.appDir <+: Path.resolveSegs ck.cwd p)))

/-- At least one matcher was compiled: the fast exit of `isWhitelisted` is not taken. -/
def Checker.HasMatchers (ck : Checker) : Prop :=
  ¬ (ck.exactPaths.length = 0 ∧ ck.exactBasenames.length = 0 ∧ ck.regexMatchers.length = 0)

instance (ck : Checker) : Decidable ck.HasMatchers :=
  inferInstanceAs (Decidable (¬ (ck.exactPaths.length = 0 ∧ ck.exactBasenames.length = 0 ∧
    ck.regexMatchers.length = 0)))

/-- Call `isWhitelisted(p)` `n` times in a row: the verdicts in order and the
checker afterwards. -/
def Checker.queryRepeatedly (ck : Checker) (p : Str) : Nat → List Bool × Checker
  | 0 => ([], ck)
  | n + 1 =>
    let r := ck.isWhitelisted p
    let rs := Checker.queryRepeatedly r.2 p n
    (r.1 :: rs.1, rs.2)

/-- Call `isWhitelisted` on each path of a list in turn: the checker afterwards. -/
def Checker.afterQueries (ck : Checker) (qs : List Str) : Checker :=
  qs.foldl (fun c q => (c.isWhitelisted q).2) ck

/-- A small checker used to evaluate the code on concrete inputs: app
directory `/app`, one global basename pattern `logo.png`. -/
def sampleChecker : Checker :=
  { cwd := "/app".toList, appDir := "/app".toList, srcDir := "/app/src".toList,
    whitelist := { patterns := ["logo.png".toList] } }

/-- Two checkers with the same directories and the same compiled matchers:
queries change only the result cache and the warning bookkeeping. -/
def Checker.SameMatchers (a b : Checker) : Prop :=
  a.cwd = b.cwd ∧ a.appDir = b.appDir ∧ a.exactPaths = b.exactPaths ∧
    a.exactBasenames = b.exactBasenames ∧ a.regexMatchers = b.regexMatchers

/-- A slash-normalized pattern that `processWhitelistPattern` files as an exact
basename: no slash, no `*` or `?`, not `regex:` syntax. -/
def IsBasenameLiteral (np : Str) : Prop :=
  (∀ c ∈ np, c ≠ '/' ∧ c ≠ '*' ∧ c ≠ '?') ∧ startsWith np "regex:".toList = false

instance (np : Str) : Decidable (IsBasenameLiteral np) :=
  inferInstanceAs (Decidable ((∀ c ∈ np, c ≠ '/' ∧ c ≠ '*' ∧ c ≠ '?') ∧
    startsWith np "regex:".toList = false))

/-- Text without parentheses. -/
def ParenFree (z : Str) : Prop := ∀ c ∈ z, c ≠ '(' ∧ c ≠ ')'

/-- What may stand inside a group that nests at most one level deep: a run of
pieces, each a single non-parenthesis character or a parenthesised run of
such characters. -/
def FlatGroupText (x : Str) : Prop :=
  ∃ pieces : List Str, x = pieces.flatten ∧
    ∀ pc ∈ pieces, (∃ c, pc = [c] ∧ c ≠ '(' ∧ c ≠ ')') ∨ (∃ z, pc = '(' :: z ++ [')'] ∧ ParenFree z)

/-- The shape the first deny pattern of `validateRegexSafety` looks for: the
body contains a group `(x q1 y)` directly followed by `q2`, where `q1` and
`q2` are each `+` or `*`, the quantifier `q1` stands directly in the group
(outside every inner pair of parentheses), and `x` and `y` are runs of
non-parenthesis characters and of parenthesised runs of such characters.
So `(a+)+` and `((b)a*c)+` have the shape; `(a(b+)c)*` and `((a+))+`, whose
inner quantifier stands inside inner parentheses, do not. -/
def HasNestedQuantifier (body : Str) : Prop :=
  ∃ l x y r : Str, ∃ q1 q2 : Char,
    body = l ++ ('(' :: x ++ q1 :: y ++ [')', q2]) ++ r ∧
      (q1 = '+' ∨ q1 = '*') ∧ (q2 = '+' ∨ q2 = '*') ∧ FlatGroupText x ∧ FlatGroupText y

/-- The slash-normalized pattern `np` is written in regex syntax with the
given body: `regex:<body>`, or `/<body>/<flags>` with flag letters only after
the last slash and no line terminator in the body. -/
def IsRegexPatternWithBody (np body : Str) : Prop :=
  np = "regex:".toList ++ body ∨
    ∃ flags : Str, np = '/' :: body ++ '/' :: flags ∧ (∀ c ∈ flags, c ∈ flagChars) ∧
      ∀ c ∈ body, isLineTerminator c = false

/-- The tokens `globToRegex` reads off a glob pattern, left to right. -/
inductive GlobTok where
  | globstar
  | star
  | qmark
  | lit (c : Char)
  deriving DecidableEq, Repr

/-- The token view of the loop of `globToRegex`. -/
def globTokens : Str → List GlobTok
  | [] => []
  | '*' :: '*' :: rest => .globstar :: globTokens rest
  | '*' :: rest => .star :: globTokens rest
  | '?' :: rest => .qmark :: globTokens rest
  | c :: rest => .lit c :: globTokens rest

/-- The regex source text `globToRegex` emits for a token. -/
def GlobTok.source : GlobTok → Str
  | .globstar => ['.', '*']
  | .star => ['[', '^', '/', ']', '*']
  | .qmark => ['[', '^', '/', ']']
  | .lit c => escapeRegexChar c

/-- The glob text a token was read from. -/
def GlobTok.text : GlobTok → Str
  | .globstar => ['*', '*']
  | .star => ['*']
  | .qmark => ['?']
  | .lit c => [c]

/-- The regex a token's source text parses to. -/
def GlobTok.re : GlobTok → Re
  | .globstar => .star (.any false)
  | .star => .star (.cls true [.single '/'])
  | .qmark => .cls true [.single '/']
  | .lit c => .chr c

/-- The regex `buildWhitelistRegex` compiles for a glob pattern: `^`, the
tokens in order, `$`. -/
def globRe (g : Str) : Re :=
  Re.cat (.bol false :: (globTokens g).map GlobTok.re ++ [.eol false])

/-- The cache never holds `false` for a key that the exact-path set or some
compiled regex accepts. -/
def Checker.CacheSound (ck : Checker) : Prop :=
  ∀ k v, mapGet ck.whitelistResultCache k = some v →
    (k ∈ ck.exactPaths ∨ ∃ m ∈ ck.regexMatchers, m.regex.test k = true) → v = true

/-- A slash-normalized folder pattern: it ends in `/`, is not in regex syntax
and is a relative path that does not start with `./`. -/
def IsFolderPattern (np : Str) : Prop :=
  endsWith np ['/'] = true ∧ startsWith np "regex:".toList = false ∧
    regexLiteralMatch np = none ∧ Path.isAbsolute np = false ∧ startsWith np ['.', '/'] = false

instance (np : Str) : Decidable (IsFolderPattern np) :=
  inferInstanceAs (Decidable (endsWith np ['/'] = true ∧ startsWith np "regex:".toList = false ∧
    regexLiteralMatch np = none ∧ Path.isAbsolute np = false ∧ startsWith np ['.', '/'] = false))

/-- A checker whose only pattern is the folder pattern `assets/`. -/
def folderChecker : Checker :=
  { cwd := "/app".toList, appDir := "/app".toList, srcDir := "/app/src".toList,
    whitelist := { patterns := ["assets/".toList] } }

/-- Path segments in normal form: non-empty names other than `.` and `..`,
without a slash. -/
def IsNormalSegs (segs : List Str) : Prop :=
  ∀ s ∈ segs, s ≠ [] ∧ s ≠ ['.'] ∧ s ≠ ['.', '.'] ∧ ∀ c ∈ s, c ≠ '/'

instance (segs : List Str) : Decidable (IsNormalSegs segs) :=
  inferInstanceAs (Decidable (∀ s ∈ segs, s ≠ [] ∧ s ≠ ['.'] ∧ s ≠ ['.', '.'] ∧ ∀ c ∈ s, c ≠ '/'))

/-- The absolute path with the given segments. -/
def absPath (segs : List Str) : Str := '/' :: joinSlash segs

/-- An asset file as the directory walk reports it: an absolute path in normal
form that is neither the source directory nor one of its ancestors, and whose
file name holds no backslash. -/
def Checker.IsAssetFile (ck : Checker) (assetPath : Str) : Prop :=
  ∃ segs : List Str, assetPath = absPath segs ∧ IsNormalSegs segs ∧
    ¬ (segs <+: Path.resolveSegs ck.cwd ck.srcDir) ∧ ∀ c ∈ Path.basename assetPath, c ≠ '\\'

/-- The regex `dynamicImportRegex` for an extension-less name: `${`, any
characters but `}`, the name, any characters but `}`, `}`. -/
def dynamicImportRe (name : Str) : Re :=
  Re.cat ([.chr '$', .chr '{', .star (.cls true [.single '}'])] ++ name.map Re.chr ++
    [.star (.cls true [.single '}']), .chr '}'])

/-- The `for` loop over `regexMatchers` in `isWhitelisted` with the calls of
`regex.test` counted: whether a matcher accepted, and how many calls ran.
`||` does not test the basename when the normalized path is accepted. -/
def regexLoopCounting (normalizedPath basename : Str) : List RegexMatcher → Bool × Nat
  | [] => (false, 0)
  | m :: ms =>
    if m.regex.test normalizedPath then (true, 1)
    else if m.regex.test basename then (true, 2)
    else
      ((regexLoopCounting normalizedPath basename ms).1,
        (regexLoopCounting normalizedPath basename ms).2 + 2)

/-- `isWhitelisted(filePath)` with a call counter on `regex.test`: the verdict
and the checker afterwards, and the number of calls of `test` it made. -/
def Checker.isWhitelistedCounting (ck : Checker) (filePath : Str) : (Bool × Checker) × Nat :=
  if ck.exactPaths.length = 0 ∧ ck.exactBasenames.length = 0 ∧ ck.regexMatchers.length = 0 then
    ((false, ck), 0)
  else
    let (normalizedPath, ck1) := ck.normalizePathForWhitelist filePath
    if normalizedPath = [] then ((false, ck1), 0)
    else
      match mapGet ck1.whitelistResultCache normalizedPath with
      | some verdict => ((verdict, ck1), 0)
      | none =>
        let basename := Path.basename filePath
        if normalizedPath ∈ ck1.exactPaths then
          ((true, { ck1 with whitelistResultCache := mapSet ck1.whitelistResultCache normalizedPath true }), 0)
        else if basename ∈ ck1.exactBasenames then
          ((true, { ck1 with whitelistResultCache := mapSet ck1.whitelistResultCache normalizedPath true }), 0)
        else
          let loop := regexLoopCounting normalizedPath basename ck1.regexMatchers
          if loop.1 then
            ((true, { ck1 with whitelistResultCache := mapSet ck1.whitelistResultCache normalizedPath true }),
              loop.2)
          else
            ((false, { ck1 with whitelistResultCache := mapSet ck1.whitelistResultCache normalizedPath false }),
              loop.2)

/-- What one token of a glob pattern matches, in the words of the
specification: `**` any string (with `anyString`; without it any string free
of line terminators, which is what `.*` accepts), a lone `*` any run of
characters other than `/`, `?` one character other than `/`, any other
character itself. -/
def GlobTok.Accepts (anyString : Bool) : GlobTok → Str → Prop
  | .globstar, w => anyString = true ∨ ∀ c ∈ w, isLineTerminator c = false
  | .star, w => ∀ c ∈ w, c ≠ '/'
  | .qmark, w => ∃ c, w = [c] ∧ c ≠ '/'
  | .lit a, w => w = [a]

/-- Glob semantics: the whole of `s` splits into pieces, one for each token of
`g` in order, each accepted by its token. -/
def GlobMatches (anyString : Bool) (g s : Str) : Prop :=
  ∃ pieces : List Str,
    List.Forall₂ (GlobTok.Accepts anyString) (globTokens g) pieces ∧ s = pieces.flatten

/-- The verdict the exact-path set and the compiled regexes give on a
normalized path alone. -/
def Checker.pathVerdict (ck : Checker) (k : Str) : Bool :=
  decide (k ∈ ck.exactPaths) || ck.regexMatchers.any (fun m => m.regex.test k)

/-- Every cached verdict is the one the exact-path set and the regexes give on
its key. -/
def Checker.CacheExact (ck : Checker) : Prop :=
  ∀ k v, mapGet ck.whitelistResultCache k = some v → v = ck.pathVerdict k

/-- No matcher can accept a file name: there is no basename pattern and no
compiled regex accepts a text without a slash. -/
def Checker.NoBasenameMatch (ck : Checker) : Prop :=
  ck.exactBasenames = [] ∧
    ∀ m ∈ ck.regexMatchers, ∀ b : Str, (∀ c ∈ b, c ≠ '/') → m.regex.test b = false

/-- A trimmed, slash-normalized literal pattern with a path separator that is
not skipped as a `//` comment: no `*` or `?`, not ending in `/`, not in regex
syntax. -/
def IsPathLiteral (np : Str) : Prop :=
  trim np = np ∧ (∀ c ∈ np, c ≠ '\\') ∧ startsWith np ['/', '/'] = false ∧
    np.contains '/' = true ∧ np.any (fun c => c == '*' || c == '?') = false ∧
    endsWith np ['/'] = false ∧ startsWith np "regex:".toList = false ∧
    regexLiteralMatch np = none

instance (np : Str) : Decidable (IsPathLiteral np) :=
  inferInstanceAs (Decidable (trim np = np ∧ (∀ c ∈ np, c ≠ '\\') ∧ startsWith np ['/', '/'] = false ∧
    np.contains '/' = true ∧ np.any (fun c => c == '*' || c == '?') = false ∧
    endsWith np ['/'] = false ∧ startsWith np "regex:".toList = false ∧
    regexLiteralMatch np = none))

/-- A checker whose only pattern is the path literal `src/assets/logo.png`. -/
def literalChecker : Checker :=
  { cwd := "/app".toList, appDir := "/app".toList, srcDir := "/app/src".toList,
    whitelist := { patterns := ["src/assets/logo.png".toList] } }

/-- A checker of the app directory `/app` whose only pattern is `P`, as
written in the configuration. -/
def onlyPatternChecker (P : Str) : Checker :=
  { cwd := "/app".toList, appDir := "/app".toList, srcDir := "/app/src".toList,
    whitelist := { patterns := [P] } }

/-- A checker whose only pattern is `regex:x(?<=a)b`. -/
def lookbehindChecker : Checker :=
  { whitelist := { patterns := ["regex:x(?<=a)b".toList] } }

/-- The glob pattern `D/**` for a directory prefix `D`. -/
def dirGlob (D : Str) : Str := D ++ ['/', '*', '*']

/-- A directory prefix made of literal path characters, for which `D/**` is a
glob pattern in the form the compiler receives it: no `*`, `?` or backslash
in `D`, and the pattern is trimmed, relative, does not start with `./` and is
not in `regex:` syntax. -/
def IsLiteralDir (D : Str) : Prop :=
  (∀ c ∈ D, c ≠ '*' ∧ c ≠ '?' ∧ c ≠ '\\') ∧ trim (dirGlob D) = dirGlob D ∧
    Path.isAbsolute (dirGlob D) = false ∧ startsWith (dirGlob D) ['.', '/'] = false ∧
    startsWith (dirGlob D) "regex:".toList = false

instance (D : Str) : Decidable (IsLiteralDir D) :=
  inferInstanceAs (Decidable ((∀ c ∈ D, c ≠ '*' ∧ c ≠ '?' ∧ c ≠ '\\') ∧ trim (dirGlob D) = dirGlob D ∧
    Path.isAbsolute (dirGlob D) = false ∧ startsWith (dirGlob D) ['.', '/'] = false ∧
    startsWith (dirGlob D) "regex:".toList = false))

/-- A checker whose only pattern is `src/assets/icons/**`. -/
def iconsChecker : Checker :=
  { cwd := "/app".toList, appDir := "/app".toList, srcDir := "/app/src".toList,
    whitelist := { patterns := ["src/assets/icons/**".toList] } }

/-! ## JavaScript values

The values `JSON.parse` and a configuration file can hold.  Numbers are
integers: only their truthiness is read. -/

/-- A JavaScript value of the JSON kind, with `undefined` for a missing property. -/
inductive JsVal where
  | undefined
  | null
  | bool (b : Bool)
  | num (n : Int)
  | str (s : Str)
  | arr (items : List JsVal)
  | obj (fields : List (Str × JsVal))
  deriving Repr

mutual
/-- Equality of JavaScript values is decidable. -/
def JsVal.decEq : (a b : JsVal) → Decidable (a = b)
  | .undefined, b =>
    match b with
    | .undefined => isTrue rfl
    | .null | .bool _ | .num _ | .str _ | .arr _ | .obj _ => isFalse nofun
  | .null, b =>
    match b with
    | .null => isTrue rfl
    | .undefined | .bool _ | .num _ | .str _ | .arr _ | .obj _ => isFalse nofun
  | .bool x, b =>
    match b with
    | .bool y =>
      if h : x = y then isTrue (congrArg JsVal.bool h) else isFalse (fun e => h (JsVal.bool.inj e))
    | .undefined | .null | .num _ | .str _ | .arr _ | .obj _ => isFalse nofun
  | .num x, b =>
    match b with
    | .num y =>
      if h : x = y then isTrue (congrArg JsVal.num h) else isFalse (fun e => h (JsVal.num.inj e))
    | .undefined | .null | .bool _ | .str _ | .arr _ | .obj _ => isFalse nofun
  | .str x, b =>
    match b with
    | .str y =>
      if h : x = y then isTrue (congrArg JsVal.str h) else isFalse (fun e => h (JsVal.str.inj e))
    | .undefined | .null | .bool _ | .num _ | .arr _ | .obj _ => isFalse nofun
  | .arr x, b =>
    match b with
    | .arr y =>
      match JsVal.decEqList x y with
      | isTrue h => isTrue (congrArg JsVal.arr h)
      | isFalse h => isFalse (fun e => h (JsVal.arr.inj e))
    | .undefined | .null | .bool _ | .num _ | .str _ | .obj _ => isFalse nofun
  | .obj x, b =>
    match b with
    | .obj y =>
      match JsVal.decEqFields x y with
      | isTrue h => isTrue (congrArg JsVal.obj h)
      | isFalse h => isFalse (fun e => h (JsVal.obj.inj e))
    | .undefined | .null | .bool _ | .num _ | .str _ | .arr _ => isFalse nofun
termination_by structural a => a
/-- Equality of lists of JavaScript values is decidable. -/
def JsVal.decEqList : (a b : List JsVal) → Decidable (a = b)
  | [], [] => isTrue rfl
  | [], _ :: _ => isFalse nofun
  | _ :: _, [] => isFalse nofun
  | x :: xs, y :: ys =>
    match JsVal.decEq x y, JsVal.decEqList xs ys with
    | isTrue h1, isTrue h2 => isTrue (by rw [h1, h2])
    | isFalse h1, _ => isFalse (fun e => h1 (List.cons.inj e).1)
    | _, isFalse h2 => isFalse (fun e => h2 (List.cons.inj e).2)
termination_by structural a => a
/-- Equality of property lists is decidable. -/
def JsVal.decEqFields : (a b : List (Str × JsVal)) → Decidable (a = b)
  | [], [] => isTrue rfl
  | [], _ :: _ => isFalse nofun
  | _ :: _, [] => isFalse nofun
  | (k, x) :: xs, (l, y) :: ys =>
    if hk : k = l then
      match JsVal.decEq x y, JsVal.decEqFields xs ys with
      | isTrue h1, isTrue h2 => isTrue (by rw [hk, h1, h2])
      | isFalse h1, _ => isFalse (fun e => h1 (Prod.mk.inj (List.cons.inj e).1).2)
      | _, isFalse h2 => isFalse (fun e => h2 (List.cons.inj e).2)
    else isFalse (fun e => hk (Prod.mk.inj (List.cons.inj e).1).1)
termination_by structural a => a
end

instance : DecidableEq JsVal := JsVal.decEq

/-- JavaScript truthiness. -/
def JsVal.truthy : JsVal → Bool
  | .undefined => false
  | .null => false
  | .bool b => b
  | .num n => n != 0
  | .str s => s != []
  | .arr _ => true
  | .obj _ => true

/-- The own property `k` of an object given by its property list. -/
def objGet (fields : List (Str × JsVal)) (k : Str) : JsVal :=
  match fields.find? (fun e => e.1 == k) with
  | some e => e.2
  | none => .undefined

/-- The assignment `o[k] = v` on a property list. -/
def objSet : List (Str × JsVal) → Str → JsVal → List (Str × JsVal)
  | [], k, v => [(k, v)]
  | e :: m, k, v => if e.1 = k then (k, v) :: m else e :: objSet m k v

/-- The property read `v.k` for the names the checker reads (`file`, `files`,
`dependencies`, `devDependencies`, `exports`, `types`): an own property of an
object, `undefined` on an array or a primitive. -/
def JsVal.get (v : JsVal) (k : Str) : JsVal :=
  match v with
  | .obj fields => objGet fields k
  | _ => .undefined

/-- The expression `v || []`. -/
def JsVal.orEmptyArray (v : JsVal) : JsVal :=
  if v.truthy then v else .arr []

/-- `s.split("\n")`. -/
def splitLines : Str → List Str
  | [] => [[]]
  | c :: s =>
    if c = '\n' then [] :: splitLines s
    else
      match splitLines s with
      | [] => [[c]]
      | line :: rest => (c :: line) :: rest

/-- `lines.join("\n")`. -/
def joinLines : List Str → Str
  | [] => []
  | [line] => line
  | line :: rest => line ++ '\n' :: joinLines rest

/-! ## More of Node's `path` module -/

/-- Resolve `.` and `..` segments of a relative path against the segments
collected so far (most recent first); a `..` with nothing to cancel is kept. -/
def normalizeSegsRel : List Str → List Str → List Str
  | acc, [] => acc.reverse
  | acc, seg :: rest =>
    if seg = [] ∨ seg = ['.'] then normalizeSegsRel acc rest
    else if seg = ['.', '.'] then
      match acc with
      | [] => normalizeSegsRel [seg] rest
      | top :: below =>
        if top = ['.', '.'] then normalizeSegsRel (seg :: acc) rest
        else normalizeSegsRel below rest
    else normalizeSegsRel (seg :: acc) rest

/-- `path.normalize(p)`. -/
def Path.normalize (p : Str) : Str :=
  if p = [] then ['.']
  else
    let body :=
      joinSlash (if Path.isAbsolute p then normalizeSegs [] (splitSlash p)
        else normalizeSegsRel [] (splitSlash p))
    if body = [] then
      if Path.isAbsolute p then ['/'] else if endsWith p ['/'] then ['.', '/'] else ['.']
    else
      (if Path.isAbsolute p then ['/'] else []) ++ body ++ (if endsWith p ['/'] then ['/'] else [])

/-- `path.join(...parts)`. -/
def Path.join (parts : List Str) : Str :=
  if parts.filter (fun p => p != []) = [] then ['.']
  else Path.normalize (joinSlash (parts.filter (fun p => p != [])))

/-- The path `path.resolve` normalizes: the parts from the last absolute one
on, below `base` when none is absolute. -/
def Path.resolveParts : Str → List Str → Str
  | base, [] => base
  | base, p :: rest =>
    if Path.isAbsolute p then Path.resolveParts p rest
    else if p = [] then Path.resolveParts base rest
    else Path.resolveParts (base ++ '/' :: p) rest

/-- `path.resolve(...parts)` with `cwd` the absolute working directory. -/
def Path.resolve (cwd : Str) (parts : List Str) : Str :=
  '/' :: joinSlash (normalizeSegs [] (splitSlash (Path.resolveParts cwd parts)))

/-! ## A run of the checker

The file system, the child processes and the host functions the checker
calls are inputs: a `World` answers them.  Console output is not modelled. -/

/-- What the checker reads from outside: `fs.existsSync`, the result of the
directory walk `getAllFiles(directory, extensions)`, `fs.readFileSync(path,
"utf8")` and `fs.statSync(path).size` (`none` when they throw), the promise of
`execAsync(command, { cwd })` (`none` when it rejects, else standard output
and standard error), `JSON.parse` (`none` when it throws), the text
`formatFileSize` computes for a non-zero size with floating-point `Math.log`
and `toFixed`, the outcome of `v > 0` for a string, an array or an object,
and `new Date().toISOString()`. -/
structure World where
  existsSync : Str → Bool
  getAllFiles : Str → List Str → List Str
  readFileSync : Str → Option Str
  statSize : Str → Option Nat
  execAsync : Str → Str → Option (Str × Str)
  jsonParse : Str → Option JsVal
  formatNonZero : Nat → Str
  greaterThanZero : JsVal → Bool
  now : Str

/-- An entry of `unusedAssets`. -/
structure UnusedAsset where
  path : Str
  fullPath : Str
  size : Nat
  formattedSize : Str
  deriving DecidableEq, Repr

/-- The object `knipResults`. `files`, `exports` and `types` are arrays in
every state the checker reaches; `dependencies` and `devDependencies` are
whatever truthy value the analyzer reported. -/
structure KnipResults where
  files : List JsVal := []
  dependencies : JsVal := .arr []
  devDependencies : JsVal := .arr []
  exports : List JsVal := []
  types : List JsVal := []
  error : Option Str := none
  deriving DecidableEq, Repr

/-- The `knip` section of the configuration: `enabled` as written (or
`undefined`), `cwd` and `commands` when present. -/
structure KnipConfig where
  enabled : JsVal := .undefined
  cwd : Option Str := none
  commands : Option (List Str) := none
  deriving DecidableEq, Repr

/-- An entry of `unused_assets.files` in a report. -/
structure ReportFile where
  path : Str
  size_bytes : Nat
  size_formatted : Str
  deriving DecidableEq, Repr

/-- The `unused_assets` part of a report. -/
structure ReportAssets where
  count : Nat
  total_size_bytes : Nat
  total_size_formatted : Str
  files : List ReportFile
  deriving DecidableEq, Repr

/-- The report `storeAppData` keeps for an app. The lists of external findings
are stored as they are; their `count` fields, sums of `length` properties,
are left out. -/
structure AppReport where
  timestamp : Str
  unused_assets : ReportAssets
  unused_files : List JsVal
  dependencies : JsVal
  devDependencies : JsVal
  unused_exports : List JsVal
  unused_types : List JsVal
  knip_analysis_status : Str
  knip_error : Option Str
  deriving DecidableEq, Repr

/-- The checker with the fields a run reads or writes besides those of the
whitelist matcher. `sourceContentsLoaded` tells whether `_sourceContents` is
set, `sourceContents` then holding its values; `configAssetsDir` and
`configSrcDir` are `config.assetsDir` and `config.srcDir`. -/
structure AppRun extends Checker where
  rootDir : Str := ['/']
  appsDir : Str := "/apps".toList
  assetsDir : Str := ['/']
  scanDir : Str := ['/']
  configAssetsDir : Option Str := none
  configSrcDir : Option Str := none
  assetExtensions : List Str := []
  sourceExtensions : List Str := []
  knip : KnipConfig := {}
  outputJson : Bool := false
  assetFiles : List Str := []
  sourceFiles : List Str := []
  sourceContentsLoaded : Bool := false
  unusedAssets : List UnusedAsset := []
  knipResults : KnipResults := {}
  aggregatedUnusedData : List (Str × AppReport) := []
  deriving DecidableEq, Repr

/-- The expression `s || d` for an optional string setting. -/
def orDefault (s : Option Str) (d : Str) : Str :=
  match s with
  | some v => if v = [] then d else v
  | none => d

/-- Whether `knipResults.error` is truthy. -/
def KnipResults.hasError (k : KnipResults) : Bool :=
  match k.error with
  | some e => e != []
  | none => false

/-- `formatFileSize(bytes)`. -/
def formatFileSize (w : World) (bytes : Nat) : Str :=
  if bytes = 0 then "0 B".toList else w.formatNonZero bytes

/-- `getFileSize(filePath)`. -/
def getFileSize (w : World) (filePath : Str) : Nat :=
  (w.statSize filePath).getD 0

/-- `validateApp()`. -/
def AppRun.validateApp (w : World) (r : AppRun) : Bool :=
  if !w.existsSync r.appDir then false
  else if !w.existsSync r.srcDir then false
  else if r.invalidWhitelistPatterns.length > 0 then false
  else true

/-- `collectAssetFiles()`. -/
def AppRun.collectAssetFiles (w : World) (r : AppRun) : AppRun :=
  { r with assetFiles := w.getAllFiles r.scanDir r.assetExtensions }

/-- `collectSourceFiles()`. -/
def AppRun.collectSourceFiles (w : World) (r : AppRun) : AppRun :=
  { r with sourceFiles := w.getAllFiles r.srcDir r.sourceExtensions }

/-- `getSourceFileContents()`: the texts of the readable source files are
read once and kept. -/
def AppRun.getSourceFileContents (w : World) (r : AppRun) : AppRun :=
  if r.sourceContentsLoaded then r
  else
    { r with sourceContents := r.sourceFiles.filterMap w.readFileSync,
             sourceContentsLoaded := true }

/-- `isAssetUsed(assetPath)` on a run: the regex is built before the source
texts are fetched. -/
def AppRun.isAssetUsed (w : World) (r : AppRun) (assetPath : Str) : Except Str Bool × AppRun :=
  match newRegExp (dynamicImportSource
      (escapeForRegex (Path.basenameExt assetPath (Path.extname assetPath)))) [] with
  | .error e => (.error e, r)
  | .ok _ => ((r.getSourceFileContents w).toChecker.isAssetUsed assetPath, r.getSourceFileContents w)

/-- The record `checkUnusedAssets` pushes for an asset file. -/
def AppRun.unusedAssetRecord (w : World) (r : AppRun) (assetFile : Str) : UnusedAsset :=
  { path := Path.relative r.cwd r.rootDir assetFile,
    fullPath := assetFile,
    size := getFileSize w assetFile,
    formattedSize := formatFileSize w (getFileSize w assetFile) }

/-- The loop of `checkUnusedAssets()` over the asset files left: the message
of an exception that ended it, if any, and the run afterwards. -/
def AppRun.checkUnusedAssetsLoop (w : World) : List Str → AppRun → Option Str × AppRun
  | [], r => (none, r)
  | assetFile :: rest, r =>
    let v := r.toChecker.isWhitelisted assetFile
    let r1 : AppRun := { r with toChecker := v.2 }
    if v.1 then AppRun.checkUnusedAssetsLoop w rest r1
    else
      match r1.isAssetUsed w assetFile with
      | (.error e, r2) => (some e, r2)
      | (.ok true, r2) => AppRun.checkUnusedAssetsLoop w rest r2
      | (.ok false, r2) =>
        AppRun.checkUnusedAssetsLoop w rest
          { r2 with unusedAssets := r2.unusedAssets ++ [r2.unusedAssetRecord w assetFile] }

/-- `checkUnusedAssets()`. -/
def AppRun.checkUnusedAssets (w : World) (r : AppRun) : Option Str × AppRun :=
  AppRun.checkUnusedAssetsLoop w r.assetFiles r

/-- `isWhitelisted(v)` for an arbitrary value: a value that is not a string
is not whitelisted and leaves the checker as it is. -/
def Checker.isWhitelistedVal (ck : Checker) (v : JsVal) : Bool × Checker :=
  match v with
  | .str s => ck.isWhitelisted s
  | _ => (false, ck)

/-- The callback of `filterKnipPathItems`: whether the item is kept, and the
checker afterwards. -/
def Checker.keepKnipItem (ck : Checker) (item : JsVal) : Bool × Checker :=
  match item with
  | .str s => (!(ck.isWhitelisted s).1, (ck.isWhitelisted s).2)
  | .obj fields =>
    if (objGet fields "file".toList).truthy then
      (!(ck.isWhitelistedVal (objGet fields "file".toList)).1,
        (ck.isWhitelistedVal (objGet fields "file".toList)).2)
    else (true, ck)
  | _ => (true, ck)

/-- `filterKnipPathItems(items)` for an array: the items kept, in order, and
the checker afterwards. -/
def Checker.filterKnipPathItems : Checker → List JsVal → List JsVal × Checker
  | ck, [] => ([], ck)
  | ck, item :: rest =>
    let k := ck.keepKnipItem item
    let out := Checker.filterKnipPathItems k.2 rest
    (if k.1 then item :: out.1 else out.1, out.2)

/-- `applyWhitelistToKnipResults()`. -/
def AppRun.applyWhitelistToKnipResults (r : AppRun) : AppRun :=
  if r.knipResults.hasError then r
  else
    let f := r.toChecker.filterKnipPathItems r.knipResults.files
    let e := f.2.filterKnipPathItems r.knipResults.exports
    let t := e.2.filterKnipPathItems r.knipResults.types
    { r with toChecker := t.2,
             knipResults := { r.knipResults with files := f.1, exports := e.1, types := t.1 } }

/-- The callback of `filterSrcFiles`: whether the item is kept, `none` when it
throws (reading `file` of `null`, or calling `startsWith` on a `file` that is
not a string). -/
def filterSrcItem (item : JsVal) : Option Bool :=
  match item with
  | .str s => some (startsWith s "src/".toList || includes s "/src/".toList)
  | .null => none
  | .undefined => none
  | .obj fields =>
    match objGet fields "file".toList with
    | .str f =>
      if f = [] then some true
      else some (startsWith f "src/".toList || includes f "/src/".toList)
    | v => if v.truthy then none else some true
  | _ => some true

/-- The `filter` call of `filterSrcFiles` on an array. -/
def filterSrcList : List JsVal → Option (List JsVal)
  | [] => some []
  | item :: rest =>
    match filterSrcItem item with
    | none => none
    | some keep =>
      match filterSrcList rest with
      | none => none
      | some kept => some (if keep then item :: kept else kept)

/-- `filterSrcFiles(items)`, `none` when it throws. -/
def filterSrcFiles (items : JsVal) : Option (List JsVal) :=
  match items with
  | .arr l => filterSrcList l
  | _ => some []

/-- `findJsonStartIndex(lines)`, `none` for `-1`. -/
def findJsonStartIndex : List Str → Option Nat
  | [] => none
  | line :: rest =>
    if startsWith (trim line) ['{'] || startsWith (trim line) ['['] then some 0
    else (findJsonStartIndex rest).map (fun i => i + 1)

/-- Whether `typeof v === "object"`. -/
def JsVal.isObjectType : JsVal → Bool
  | .null => true
  | .arr _ => true
  | .obj _ => true
  | _ => false

/-- `parseKnipOutput(stdout)`, `none` for `null`. -/
def parseKnipOutput (w : World) (stdout : Str) : Option KnipResults :=
  if stdout = [] then none
  else
    match findJsonStartIndex (splitLines stdout) with
    | none => none
    | some jsonStart =>
      match w.jsonParse (trim (joinLines ((splitLines stdout).drop jsonStart))) with
      | none => none
      | some knipData =>
        if !knipData.truthy || !knipData.isObjectType then none
        else
          match filterSrcFiles (knipData.get "files".toList).orEmptyArray,
            filterSrcFiles (knipData.get "exports".toList).orEmptyArray,
            filterSrcFiles (knipData.get "types".toList).orEmptyArray with
          | some files, some exports, some types =>
            some { files := files,
                   dependencies := (knipData.get "dependencies".toList).orEmptyArray,
                   devDependencies := (knipData.get "devDependencies".toList).orEmptyArray,
                   exports := exports, types := types, error := none }
          | _, _, _ => none

/-- The commands `runKnipAnalysis` tries when the configuration names none. -/
def defaultKnipCommands : List Str :=
  ["pnpm dlx knip --reporter json --no-exit-code".toList,
   "npx knip --reporter json --no-exit-code".toList]

/-- The directory `runKnipAnalysis` runs the commands in. -/
def AppRun.knipCwd (r : AppRun) : Str :=
  match r.knip.cwd with
  | some c => if c = [] then r.appDir else Path.resolve r.cwd [r.appDir, c]
  | none => r.appDir

/-- The commands `runKnipAnalysis` tries. -/
def AppRun.knipCommands (r : AppRun) : List Str :=
  r.knip.commands.getD defaultKnipCommands

/-- The loop of `runKnipAnalysis()` over the commands left: a command that
fails is skipped; the first one that succeeds ends the analysis, its output
parsed and filtered when it can be parsed; when all fail the error is set. -/
def AppRun.tryKnipCommands (w : World) (knipCwd : Str) : List Str → AppRun → AppRun
  | [], r =>
    { r with knipResults :=
        { r.knipResults with error := some "All Knip execution attempts failed".toList } }
  | command :: rest, r =>
    match w.execAsync command knipCwd with
    | none => AppRun.tryKnipCommands w knipCwd rest r
    | some out =>
      if trim out.1 = [] then r
      else
        match parseKnipOutput w out.1 with
        | some result => AppRun.applyWhitelistToKnipResults { r with knipResults := result }
        | none => r

/-- `runKnipAnalysis()`. -/
def AppRun.runKnipAnalysis (w : World) (r : AppRun) : AppRun :=
  if r.knip.enabled = .bool false then r
  else if !w.existsSync (Path.join [r.appDir, "package.json".toList]) then
    { r with knipResults := { error := some "No package.json found".toList } }
  else
    AppRun.tryKnipCommands w r.knipCwd r.knipCommands { r with knipResults := {} }

/-- `reports[appName] = report`. -/
def reportSet : List (Str × AppReport) → Str → AppReport → List (Str × AppReport)
  | [], k, v => [(k, v)]
  | e :: m, k, v => if e.1 = k then (k, v) :: m else e :: reportSet m k v

/-- `reports[appName]`. -/
def reportGet (m : List (Str × AppReport)) (k : Str) : Option AppReport :=
  (m.find? (fun e => e.1 == k)).map (fun e => e.2)

/-- The entry of `unused_assets.files` for an unused asset. -/
def AppRun.reportFile (r : AppRun) (a : UnusedAsset) : ReportFile :=
  { path := Path.relative r.cwd r.appDir a.fullPath, size_bytes := a.size,
    size_formatted := a.formattedSize }

/-- The report `storeAppData` builds. -/
def AppRun.appReport (w : World) (r : AppRun) : AppReport :=
  { timestamp := w.now,
    unused_assets :=
      { count := r.unusedAssets.length,
        total_size_bytes := r.unusedAssets.foldl (fun s a => s + a.size) 0,
        total_size_formatted := formatFileSize w (r.unusedAssets.foldl (fun s a => s + a.size) 0),
        files := r.unusedAssets.map r.reportFile },
    unused_files := r.knipResults.files,
    dependencies := r.knipResults.dependencies.orEmptyArray,
    devDependencies := r.knipResults.devDependencies.orEmptyArray,
    unused_exports := r.knipResults.exports,
    unused_types := r.knipResults.types,
    knip_analysis_status :=
      if r.knip.enabled.truthy then
        (if r.knipResults.hasError then "failed".toList else "success".toList)
      else "skipped".toList,
    knip_error := if r.knipResults.hasError then r.knipResults.error else none }

/-- `storeAppData(appName)`. -/
def AppRun.storeAppData (w : World) (r : AppRun) (appName : Str) : AppRun :=
  { r with aggregatedUnusedData := reportSet r.aggregatedUnusedData appName (r.appReport w) }

/-- Insert an unused asset into a list sorted by descending size, before the
first entry that is not larger. -/
def insertBySize (a : UnusedAsset) : List UnusedAsset → List UnusedAsset
  | [] => [a]
  | b :: rest => if b.size ≤ a.size then a :: b :: rest else b :: insertBySize a rest

/-- `unusedAssets.sort((a, b) => b.size - a.size)`: by descending size, entries
of equal size keeping their order. -/
def sortBySizeDesc (l : List UnusedAsset) : List UnusedAsset :=
  l.foldr insertBySize []

/-- The comparison `v > 0`: decided here for `undefined`, `null`, booleans and
numbers, taken from the world for a string, an array or an object. -/
def jsGreaterThanZero (w : World) (v : JsVal) : Bool :=
  match v with
  | .undefined => false
  | .null => false
  | .bool b => b
  | .num n => decide (0 < n)
  | v => w.greaterThanZero v

/-- Whether `items && items.length > 0` holds in `generateKnipReport`. -/
def hasItems (w : World) (items : JsVal) : Bool :=
  match items with
  | .arr l => l != []
  | .str s => s != []
  | .obj fields => jsGreaterThanZero w (objGet fields "length".toList)
  | _ => false

/-- Whether printing the first twenty entries of `items` throws: an entry
`null` or `undefined` has no `file`, and only an array has `forEach`. -/
def printItemsThrows (w : World) (items : JsVal) : Bool :=
  hasItems w items &&
    match items with
    | .arr l => (l.take 20).any (fun item => item == .null || item == .undefined)
    | _ => true

/-- Whether `generateKnipReport()` throws: reading `dependencies.length` when
there are no files and `dependencies` is `null` or `undefined`, or printing
one of the five lists. -/
def KnipResults.reportThrows (w : World) (k : KnipResults) : Bool :=
  !k.hasError &&
    ((k.files == [] && (k.dependencies == .null || k.dependencies == .undefined)) ||
      [JsVal.arr k.files, k.dependencies, k.devDependencies, JsVal.arr k.exports,
        JsVal.arr k.types].any (printItemsThrows w))

/-- `generateReport()`: the unused assets are sorted for printing; `true` when
printing the analyzer's findings throws. -/
def AppRun.generateReport (w : World) (r : AppRun) : Bool × AppRun :=
  (r.knipResults.reportThrows w, { r with unusedAssets := sortBySizeDesc r.unusedAssets })

/-- The assignments at the start of `runForSingleApp()`. -/
def AppRun.resetRun (r : AppRun) : AppRun :=
  { r with assetFiles := [], sourceFiles := [], sourceContentsLoaded := false,
           unusedAssets := [], knipResults := {} }

/-- The steps of `runForSingleApp()` between the analyzer and the report:
collect the asset and source files, check the assets when there are any. -/
def AppRun.scanAssets (w : World) (r : AppRun) : Option Str × AppRun :=
  if ((r.collectAssetFiles w).collectSourceFiles w).assetFiles.length > 0 then
    ((r.collectAssetFiles w).collectSourceFiles w).checkUnusedAssets w
  else (none, (r.collectAssetFiles w).collectSourceFiles w)

/-- `runForSingleApp()`: its return value and the run afterwards. An exception
inside the `try` block makes it return `false`. -/
def AppRun.runForSingleApp (w : World) (r : AppRun) : Bool × AppRun :=
  if !r.resetRun.validateApp w then (false, r.resetRun)
  else
    match (r.resetRun.runKnipAnalysis w).scanAssets w with
    | (some _, r1) => (false, r1)
    | (none, r1) =>
      if r1.outputJson then (true, r1.storeAppData w r1.appName)
      else
        (!((r1.storeAppData w r1.appName).generateReport w).1,
          ((r1.storeAppData w r1.appName).generateReport w).2)

/-- The assignments `runForAllApps()` makes for the next app, up to and
including `compileWhitelistMatchers()`. -/
def AppRun.selectApp (r : AppRun) (app : Str) : AppRun :=
  let appDir := Path.join [r.appsDir, app]
  let srcDir := Path.join [appDir, orDefault r.configSrcDir "src".toList]
  let c : Checker := { r.toChecker with appName := app, appDir := appDir, srcDir := srcDir }
  { r with toChecker := c.compileWhitelistMatchers,
           assetsDir := Path.join [appDir, orDefault r.configAssetsDir "src/assets".toList],
           scanDir := srcDir }

/-- The body of the loop of `runForAllApps()` for one app: whether the run
succeeded, and the run afterwards. -/
def AppRun.runApp (w : World) (r : AppRun) (app : Str) : Bool × AppRun :=
  let out := (r.selectApp app).runForSingleApp w
  if out.1 then (true, out.2.storeAppData w app) else (false, out.2)

/-- The loop of `runForAllApps()`: the number of apps that failed and the run
afterwards. -/
def AppRun.runApps (w : World) : List Str → AppRun → Nat × AppRun
  | [], r => (0, r)
  | app :: rest, r =>
    let out := r.runApp w app
    let tail := AppRun.runApps w rest out.2
    ((if out.1 then 0 else 1) + tail.1, tail.2)

/-- A world in which every path exists, no file is found and no analyzer
command can be run. -/
def emptyWorld : World :=
  { existsSync := fun _ => true, getAllFiles := fun _ _ => [], readFileSync := fun _ => none,
    statSize := fun _ => none, execAsync := fun _ _ => none, jsonParse := fun _ => none,
    formatNonZero := fun _ => [], greaterThanZero := fun _ => false, now := [] }

/-- A run for the app `web` whose whitelist holds the nested-quantifier
pattern `regex:(a+)+`, before the app is selected. -/
def unsafePatternRun : AppRun :=
  { whitelist := { patterns := ["regex:(a+)+".toList] }, cwd := "/repo".toList,
    rootDir := "/repo".toList, appsDir := "/repo/apps".toList }

/-- The matcher state `compileWhitelistMatchers` rebuilds: the exact-path set,
the exact-basename set, the regex list, the invalid patterns and the result
cache. -/
def Checker.matcherState (ck : Checker) :
    List Str × List Str × List RegexMatcher × List InvalidPattern × List (Str × Bool) :=
  (ck.exactPaths, ck.exactBasenames, ck.regexMatchers, ck.invalidWhitelistPatterns,
    ck.whitelistResultCache)

/-- Every entry of the matcher sets and lists is the trimmed, slash-normalized
form of one of the given patterns. -/
def Checker.DerivedFrom (ck : Checker) (pats : List Str) : Prop :=
  (∀ x ∈ ck.exactPaths, ∃ p ∈ pats, x = backslashesToSlashes (trim p)) ∧
    (∀ x ∈ ck.exactBasenames, ∃ p ∈ pats, x = backslashesToSlashes (trim p)) ∧
    (∀ m ∈ ck.regexMatchers, ∃ p ∈ pats, m.sourcePattern = backslashesToSlashes (trim p)) ∧
    (∀ e ∈ ck.invalidWhitelistPatterns, ∃ p ∈ pats, e.pattern = backslashesToSlashes (trim p))

/-- A checker that has never compiled or answered anything, for a whitelist
configuration and an app name. -/
def freshChecker (whitelist : WhitelistConfig) (appName : Str) : Checker :=
  { whitelist := whitelist, appName := appName }

/-- The verdicts `isWhitelisted` returns when it is called for each entry in
turn, on the checker the previous call left; an entry `none` makes no call
and counts as not whitelisted. -/
def Checker.verdictsFor : Checker → List (Option Str) → List Bool
  | _, [] => []
  | ck, none :: rest => false :: Checker.verdictsFor ck rest
  | ck, some p :: rest =>
    (ck.isWhitelisted p).1 :: Checker.verdictsFor (ck.isWhitelisted p).2 rest

/-- What `isAssetUsed(assetPath)` returns in the run, `false` when it throws. -/
def AppRun.assetUsed (w : World) (r : AppRun) (assetPath : Str) : Bool :=
  match (r.isAssetUsed w assetPath).1 with
  | .ok b => b
  | .error _ => false

/-- Two checkers that answer whitelist queries alike: same directories, same
compiled matchers, same cache and same record of warnings given. -/
def Checker.SameAnswers (a b : Checker) : Prop :=
  a.cwd = b.cwd ∧ a.appDir = b.appDir ∧ a.exactPaths = b.exactPaths ∧
    a.exactBasenames = b.exactBasenames ∧ a.regexMatchers = b.regexMatchers ∧
    a.whitelistResultCache = b.whitelistResultCache ∧
    a.pathNormalizationWarnings = b.pathNormalizationWarnings

/-- Whether `normalizePathForWhitelist(p)` logs the out-of-app warning. -/
def Checker.warnsFor (ck : Checker) (p : Str) : Bool :=
  decide (p ≠ []) && Path.isAbsolute p &&
    (startsWith (backslashesToSlashes (Path.relative ck.cwd ck.appDir p)) ['.', '.', '/'] ||
      backslashesToSlashes (Path.relative ck.cwd ck.appDir p) == ['.', '.'] ||
      Path.isAbsolute (backslashesToSlashes (Path.relative ck.cwd ck.appDir p))) &&
    decide (p ∉ ck.pathNormalizationWarnings)

/-- What the loop of `checkUnusedAssets` keeps fixed, relative to the run `r0`
it started from: the process and source directories, the root directory and
the source files; and the source texts, once loaded, are those of the source
files. -/
def AppRun.ScanInv (w : World) (r0 r : AppRun) : Prop :=
  r.cwd = r0.cwd ∧ r.srcDir = r0.srcDir ∧ r.rootDir = r0.rootDir ∧
    r.sourceFiles = r0.sourceFiles ∧
    (r.sourceContentsLoaded = true →
      r.sourceContents = r0.sourceFiles.filterMap w.readFileSync)

/-- A world with one asset `/repo/apps/web/src/assets/logo.png` of 2048 bytes,
one asset `/repo/apps/web/src/assets/hero.png` of 10 bytes and one source
file that mentions `hero.png`. -/
def assetWorld : World :=
  { existsSync := fun _ => true,
    getAllFiles := fun _ exts =>
      if exts = [".png".toList] then
        ["/repo/apps/web/src/assets/logo.png".toList, "/repo/apps/web/src/assets/hero.png".toList]
      else ["/repo/apps/web/src/main.js".toList],
    readFileSync := fun p =>
      if p = "/repo/apps/web/src/main.js".toList then some "import x from './assets/hero.png'".toList
      else none,
    statSize := fun p =>
      if p = "/repo/apps/web/src/assets/logo.png".toList then some 2048 else some 10,
    execAsync := fun _ _ => none, jsonParse := fun _ => none,
    formatNonZero := fun _ => "2 KB".toList, greaterThanZero := fun _ => false,
    now := "2024-01-01T00:00:00.000Z".toList }

/-- A run for the app `web` under `/repo/apps/web` with the asset and source
files of `assetWorld` collected and nothing whitelisted. -/
def assetRun : AppRun :=
  { cwd := "/repo".toList, rootDir := "/repo".toList, appsDir := "/repo/apps".toList,
    appName := "web".toList, appDir := "/repo/apps/web".toList,
    srcDir := "/repo/apps/web/src".toList, scanDir := "/repo/apps/web/src".toList,
    assetsDir := "/repo/apps/web/src/assets".toList,
    assetExtensions := [".png".toList], sourceExtensions := [".js".toList],
    assetFiles :=
      ["/repo/apps/web/src/assets/logo.png".toList, "/repo/apps/web/src/assets/hero.png".toList],
    sourceFiles := ["/repo/apps/web/src/main.js".toList] }

/-- The path of an external finding: the string item itself, or the `file`
field of a record item when that is a non-empty string. -/
def knipItemPath : JsVal → Option Str
  | .str s => some s
  | .obj fields =>
    match objGet fields "file".toList with
    | .str f => if f = [] then none else some f
    | _ => none
  | _ => none

/-- The items that stay when those with a `true` verdict are removed, in the
original order. -/
def dropWhitelisted (items : List JsVal) (verdicts : List Bool) : List JsVal :=
  ((items.zip verdicts).filter (fun iv => !iv.2)).map Prod.fst

/-- A run with the basename pattern `generated.ts` compiled and analyzer
findings of each kind. -/
def knipRun : AppRun :=
  { cwd := "/repo".toList, appDir := "/repo".toList, srcDir := "/repo/src".toList,
    exactBasenames := ["generated.ts".toList],
    knipResults :=
      { files := [.str "src/generated.ts".toList, .str "src/old.ts".toList],
        exports := [.obj [("file".toList, .str "src/api/generated.ts".toList),
                          ("name".toList, .str "helper".toList)],
                    .obj [("name".toList, .str "orphan".toList)]],
        types := [.obj [("file".toList, .str "src/types.ts".toList)]],
        dependencies := .arr [.str "generated.ts".toList],
        devDependencies := .arr [.str "lodash".toList] } }

/-- Every command `runKnipAnalysis` tries fails. -/
def AppRun.KnipAllFail (w : World) (r : AppRun) : Prop :=
  ∀ c ∈ r.knipCommands, w.execAsync c r.knipCwd = none

instance (w : World) (r : AppRun) : Decidable (r.KnipAllFail w) :=
  inferInstanceAs (Decidable (∀ c ∈ r.knipCommands, w.execAsync c r.knipCwd = none))

/-- The first command that can be run prints output `parseKnipOutput` cannot
parse. -/
def AppRun.KnipUnparsable (w : World) (r : AppRun) : Prop :=
  ∃ (before : List Str) (c : Str) (later : List Str) (out : Str × Str),
    r.knipCommands = before ++ c :: later ∧
      (∀ d ∈ before, w.execAsync d r.knipCwd = none) ∧
      w.execAsync c r.knipCwd = some out ∧ parseKnipOutput w out.1 = none

/-- What a run keeps while the assets are scanned: the analyzer's results and
configuration, the app name, the stored reports and the output mode. -/
def AppRun.SameReportInputs (a b : AppRun) : Prop :=
  a.knipResults = b.knipResults ∧ a.knip = b.knip ∧ a.appName = b.appName ∧
    a.aggregatedUnusedData = b.aggregatedUnusedData ∧ a.outputJson = b.outputJson

/-- The run `assetRun` with the analyzer enabled. -/
def knipEnabledRun : AppRun :=
  { assetRun with knip := { enabled := .bool true } }

/-- The world `assetWorld` with an analyzer that prints text that is not JSON. -/
def garbledWorld : World :=
  { assetWorld with execAsync := fun _ _ => some ("knip: command output".toList, []) }

/-! ## Loading the configuration (`config.js`) -/

/-- The array entries `[v0, v1, ...]` as properties `"0"`, `"1"`, ... from
index `n` on. -/
def indexedProps (n : Nat) : List JsVal → List (Str × JsVal)
  | [] => []
  | v :: vs => ((Nat.repr n).toList, v) :: indexedProps (n + 1) vs

/-- The own enumerable properties of a value, as `{ ...v }` and
`Object.keys(v)` see them: the fields of an object, the indexed entries of an
array or of a string, none for other values. -/
def spreadProps : JsVal → List (Str × JsVal)
  | .obj fields => fields
  | .arr items => indexedProps 0 items
  | .str s => indexedProps 0 (s.map (fun c => JsVal.str [c]))
  | _ => []

/-- The properties `Object.keys(v)` ranges over, `none` when it throws (for
`null` and `undefined`). -/
def ownProps : JsVal → Option (List (Str × JsVal))
  | .null => none
  | .undefined => none
  | v => some (spreadProps v)

mutual
/-- `deepMerge(target, source)` on property lists: the loop over the keys of
`source`, starting from a copy of `target`. -/
def deepMerge : List (Str × JsVal) → List (Str × JsVal) → List (Str × JsVal)
  | target, [] => target
  | target, (key, v) :: rest => deepMerge (deepMergeKey target key v) rest
termination_by structural _ source => source
/-- One turn of the loop of `deepMerge`: an object that is not an array is
merged into `result[key] || {}`, `undefined` is skipped, any other value is
assigned. -/
def deepMergeKey : List (Str × JsVal) → Str → JsVal → List (Str × JsVal)
  | result, key, .obj sub =>
    objSet result key (.obj (deepMerge (spreadProps (objGet result key)) sub))
  | result, _, .undefined => result
  | result, key, v => objSet result key v
termination_by structural _ _ v => v
end

/-- `DEFAULT_CONFIG`. -/
def defaultConfig : List (Str × JsVal) :=
  [ ("rootDir".toList, .null),
    ("appsDir".toList, .str "apps".toList),
    ("assetsDir".toList, .str "src/assets".toList),
    ("srcDir".toList, .str "src".toList),
    ("scanDir".toList, .null),
    ("assetExtensions".toList, .arr ([".jpg", ".jpeg", ".png", ".gif", ".svg", ".webp", ".ico",
      ".bmp", ".mp4", ".webm", ".mov", ".avi", ".mp3", ".wav", ".ogg", ".pdf", ".doc", ".docx",
      ".json", ".xml", ".csv"].map (fun s => JsVal.str s.toList))),
    ("sourceExtensions".toList, .arr ([".js", ".jsx", ".ts", ".tsx"].map (fun s => JsVal.str s.toList))),
    ("excludeDirs".toList, .arr (["node_modules", ".git", "dist", "build", "coverage"].map
      (fun s => JsVal.str s.toList))),
    ("whitelist".toList, .obj [("patterns".toList, .arr []), ("products".toList, .obj [])]),
    ("knip".toList, .obj
      [ ("enabled".toList, .bool false),
        ("commands".toList, .arr (["pnpm dlx knip --reporter json --no-exit-code",
          "npx knip --reporter json --no-exit-code", "pnpm dlx knip --reporter json",
          "npx knip --reporter json"].map (fun s => JsVal.str s.toList))),
        ("cwd".toList, .null) ]),
    ("report".toList, .obj
      [ ("jsonOutput".toList, .str "unused-assets-report.json".toList),
        ("saveReport".toList, .bool true) ]) ]

/-- The expression `a || b`. -/
def JsVal.orElse (a b : JsVal) : JsVal :=
  if a.truthy then a else b

/-- `loadPackageJsonConfig(cwd)` for the parsed content `pkg` of
`package.json`, `none` when the file is missing or cannot be parsed. Reading
a property of `null` throws, which the function catches. -/
def loadPackageJsonConfig (pkg : Option JsVal) : JsVal :=
  match pkg with
  | none => .obj []
  | some .null => .obj []
  | some .undefined => .obj []
  | some p =>
    (((p.get "sweep".toList).orElse (p.get "find-unused-assets".toList)).orElse
      (p.get "findUnusedAssets".toList)).orElse (.obj [])

/-- `loadConfig(cwd)`: `procCwd` is the process working directory,
`fileConfig` what `loadConfigFile` returns for the configuration file that
`findConfigFile` found (`none` when there is none), `pkg` the parsed
`package.json`. The result is `none` when `Object.keys` throws. -/
def loadConfig (procCwd cwd : Str) (fileConfig pkg : Option JsVal) : Option (List (Str × JsVal)) :=
  let rootDir := Path.resolve procCwd [cwd]
  let merged : Option (List (Str × JsVal)) :=
    match fileConfig with
    | none => some defaultConfig
    | some fc => (ownProps fc).map (deepMerge defaultConfig)
  match merged with
  | none => none
  | some config1 =>
    match ownProps (loadPackageJsonConfig pkg) with
    | none => none
    | some pkgProps =>
      let config2 := if pkgProps.length > 0 then deepMerge config1 pkgProps else config1
      let config3 :=
        objSet config2 "rootDir".toList ((objGet config2 "rootDir".toList).orElse (.str rootDir))
      let config4 :=
        objSet config3 "scanDir".toList
          ((objGet config3 "scanDir".toList).orElse (objGet config3 "srcDir".toList))
      match objGet config4 "whitelist".toList with
      | .arr items =>
        some (objSet config4 "whitelist".toList
          (.obj [("patterns".toList, .arr items), ("products".toList, .obj [])]))
      | _ => some config4

/-- The test with which `processWhitelistPattern` files a pattern as a
literal: not in regex syntax, no `*` or `?`, no trailing `/`. -/
def isLiteralPattern (np : Str) : Bool :=
  !(startsWith np "regex:".toList || (regexLiteralMatch np).isSome) &&
    !(np.any (fun c => c == '*' || c == '?')) && !(endsWith np ['/'])

/-- Exactly one of four propositions holds. -/
def ExactlyOneOf (a b c d : Prop) : Prop :=
  (a ∧ ¬ b ∧ ¬ c ∧ ¬ d) ∨ (¬ a ∧ b ∧ ¬ c ∧ ¬ d) ∨ (¬ a ∧ ¬ b ∧ c ∧ ¬ d) ∨ (¬ a ∧ ¬ b ∧ ¬ c ∧ d)

/-- The normalized pattern is recorded somewhere in the matcher state: in the
exact-path set, in the exact-basename set, as the source pattern of a regex
matcher or as an invalid pattern. -/
def Checker.Records (ck : Checker) (np : Str) : Prop :=
  np ∈ ck.exactPaths ∨ np ∈ ck.exactBasenames ∨
    (∃ m ∈ ck.regexMatchers, m.sourcePattern = np) ∨
    (∃ e ∈ ck.invalidWhitelistPatterns, e.pattern = np)

/-- Every entry of the matcher state sits where `processWhitelistPattern`
puts a pattern of its kind: literals with a `/` in the exact-path set,
literals without one in the exact-basename set, the other patterns with the
regex `buildWhitelistRegex` returns for them or with the message it throws. -/
def Checker.WellFiled (ck : Checker) : Prop :=
  (∀ x ∈ ck.exactPaths, isLiteralPattern x = true ∧ x.contains '/' = true) ∧
    (∀ x ∈ ck.exactBasenames, isLiteralPattern x = true ∧ x.contains '/' = false) ∧
    (∀ m ∈ ck.regexMatchers, isLiteralPattern m.sourcePattern = false ∧
      buildWhitelistRegex m.sourcePattern = .ok (some m.regex)) ∧
    (∀ e ∈ ck.invalidWhitelistPatterns, isLiteralPattern e.pattern = false ∧
      buildWhitelistRegex e.pattern = .error e.reason)

/-- A checker with a pattern of each kind, a comment and an empty entry. -/
def mixedChecker : Checker :=
  { cwd := "/app".toList, appDir := "/app".toList, srcDir := "/app/src".toList,
    whitelist :=
      { patterns := ["logo.png".toList, "// icons".toList, "src/assets/logo.png".toList, [],
          " assets\\icons/ ".toList, "regex:(a+)+".toList] } }

/-! # Verification -/

/-! ## The matcher computes the denotation -/

theorem starLoop_sound {a : Re} {step : Str → Str → Cont → Bool} (hs : StepSpec a step) :
    ∀ (fuel : Nat) (pre inp : Str) (k : Cont), starLoop step fuel pre inp k = true →
      ∃ w suf, inp = w ++ suf ∧ (Re.star a).Matches pre w suf ∧ k (w.reverse ++ pre) suf = true := by
  intro fuel
  induction fuel with
  | zero =>
    intro pre inp k h
    exact ⟨[], inp, rfl, .starNil a pre inp, by simpa [starLoop] using h⟩
  | succ f ih =>
    intro pre inp k h
    simp only [starLoop, Bool.or_eq_true] at h
    rcases h with h | h
    · exact ⟨[], inp, rfl, .starNil a pre inp, by simpa using h⟩
    · obtain ⟨w1, s1, rfl, hm, hk⟩ := (hs pre inp _).1 h
      simp only [Bool.and_eq_true, decide_eq_true_eq] at hk
      obtain ⟨w2, suf, rfl, hm2, hk2⟩ := ih _ _ _ hk.2
      refine ⟨w1 ++ w2, suf, by simp, .starCons hm hm2, ?_⟩
      simpa using hk2

theorem starLoop_complete {a : Re} {step : Str → Str → Cont → Bool} (hs : StepSpec a step)
    {r : Re} {pre w suf : Str} (hm : r.Matches pre w suf) (hr : r = .star a) :
    ∀ (fuel : Nat) (k : Cont), (w ++ suf).length < fuel → k (w.reverse ++ pre) suf = true →
      starLoop step fuel pre (w ++ suf) k = true := by
  induction hm with
  | starNil a2 pre suf =>
    intro fuel k _ hk
    cases fuel with
    | zero => simpa [starLoop] using hk
    | succ f => simp only [starLoop, Bool.or_eq_true]; left; simpa using hk
  | @starCons a2 pre w1 w2 suf h1 h2 _ ih2 =>
    cases hr
    intro fuel k hf hk
    rcases w1 with _ | ⟨c, w1⟩
    · simpa using ih2 rfl fuel k (by simpa using hf) (by simpa using hk)
    · cases fuel with
      | zero => simp at hf
      | succ f =>
        simp only [starLoop, Bool.or_eq_true]
        right
        refine (hs _ _ _).2 ⟨c :: w1, w2 ++ suf, by simp, h1, ?_⟩
        simp only [Bool.and_eq_true, decide_eq_true_eq]
        refine ⟨by simp; omega, ih2 rfl f k ?_ (by simpa using hk)⟩
        simp only [List.length_append, List.length_cons] at hf ⊢
        omega
  | _ => cases hr

theorem Re.run_iff (r : Re) : StepSpec r r.run := by
  induction r with
  | empty =>
    intro pre inp k
    simp only [Re.run]
    constructor
    · intro h; exact ⟨[], inp, rfl, .empty _ _, by simpa using h⟩
    · rintro ⟨w, suf, rfl, hm, hk⟩; cases hm; simpa using hk
  | chr c =>
    intro pre inp k
    constructor
    · intro h
      cases inp with
      | nil => simp [Re.run] at h
      | cons d t =>
        simp only [Re.run, Bool.and_eq_true, beq_iff_eq] at h
        obtain ⟨rfl, hk⟩ := h
        exact ⟨[d], t, rfl, .chr _ _ _, by simpa using hk⟩
    · rintro ⟨w, suf, rfl, hm, hk⟩; cases hm; simpa [Re.run] using hk
  | any da =>
    intro pre inp k
    constructor
    · intro h
      cases inp with
      | nil => simp [Re.run] at h
      | cons d t =>
        simp only [Re.run, Bool.and_eq_true] at h
        exact ⟨[d], t, rfl, .any _ _ _ _ h.1, by simpa using h.2⟩
    · rintro ⟨w, suf, rfl, hm, hk⟩
      cases hm with
      | any _ c _ _ hc => simp only [Re.run, List.singleton_append, Bool.and_eq_true]; exact ⟨hc, by simpa using hk⟩
  | cls neg items =>
    intro pre inp k
    constructor
    · intro h
      cases inp with
      | nil => simp [Re.run] at h
      | cons d t =>
        simp only [Re.run, Bool.and_eq_true] at h
        exact ⟨[d], t, rfl, .cls _ _ _ _ _ h.1, by simpa using h.2⟩
    · rintro ⟨w, suf, rfl, hm, hk⟩
      cases hm with
      | cls _ _ c _ _ hc => simp only [Re.run, List.singleton_append, Bool.and_eq_true]; exact ⟨hc, by simpa using hk⟩
  | bol ml =>
    intro pre inp k
    simp only [Re.run, Bool.and_eq_true]
    constructor
    · rintro ⟨h1, h2⟩; exact ⟨[], inp, rfl, .bol _ _ _ h1, by simpa using h2⟩
    · rintro ⟨w, suf, rfl, hm, hk⟩
      cases hm with
      | bol _ _ _ h => exact ⟨h, by simpa using hk⟩
  | eol ml =>
    intro pre inp k
    simp only [Re.run, Bool.and_eq_true]
    constructor
    · rintro ⟨h1, h2⟩; exact ⟨[], inp, rfl, .eol _ _ _ h1, by simpa using h2⟩
    · rintro ⟨w, suf, rfl, hm, hk⟩
      cases hm with
      | eol _ _ _ h => exact ⟨by simpa using h, by simpa using hk⟩
  | seq a b iha ihb =>
    intro pre inp k
    simp only [Re.run]
    rw [iha]
    constructor
    · rintro ⟨w1, s1, rfl, hm1, hk⟩
      obtain ⟨w2, suf, rfl, hm2, hk2⟩ := (ihb _ _ _).1 hk
      exact ⟨w1 ++ w2, suf, by simp, .seq hm1 hm2, by simpa using hk2⟩
    · rintro ⟨w, suf, rfl, hm, hk⟩
      cases hm with
      | seq hm1 hm2 =>
        rename_i w1 w2
        exact ⟨w1, w2 ++ suf, by simp, hm1, (ihb _ _ _).2 ⟨w2, suf, rfl, hm2, by simpa using hk⟩⟩
  | alt a b iha ihb =>
    intro pre inp k
    simp only [Re.run, Bool.or_eq_true]
    rw [iha, ihb]
    constructor
    · rintro (⟨w, suf, rfl, hm, hk⟩ | ⟨w, suf, rfl, hm, hk⟩)
      · exact ⟨w, suf, rfl, .altL hm, hk⟩
      · exact ⟨w, suf, rfl, .altR hm, hk⟩
    · rintro ⟨w, suf, rfl, hm, hk⟩
      cases hm with
      | altL h => exact Or.inl ⟨w, suf, rfl, h, hk⟩
      | altR h => exact Or.inr ⟨w, suf, rfl, h, hk⟩
  | star a iha =>
    intro pre inp k
    simp only [Re.run]
    constructor
    · exact starLoop_sound iha _ _ _ _
    · rintro ⟨w, suf, rfl, hm, hk⟩
      exact starLoop_complete iha hm rfl _ _ (Nat.lt_succ_self _) hk

theorem Re.searchFrom_iff (r : Re) : ∀ (inp pre : Str), r.searchFrom pre inp = true ↔
    ∃ l w suf, inp = l ++ w ++ suf ∧ r.Matches (l.reverse ++ pre) w suf := by
  intro inp
  induction inp with
  | nil =>
    intro pre
    simp only [Re.searchFrom]
    rw [Re.run_iff]
    constructor
    · rintro ⟨w, suf, h, hm, -⟩
      exact ⟨[], w, suf, by simpa using h, by simpa using hm⟩
    · rintro ⟨l, w, suf, h, hm⟩
      have hl : l = [] := by
        cases l with
        | nil => rfl
        | cons _ _ => simp at h
      subst hl
      exact ⟨w, suf, by simpa using h, by simpa using hm, rfl⟩
  | cons c t ih =>
    intro pre
    simp only [Re.searchFrom, Bool.or_eq_true]
    rw [Re.run_iff, ih]
    constructor
    · rintro (⟨w, suf, h, hm, -⟩ | ⟨l, w, suf, h, hm⟩)
      · exact ⟨[], w, suf, by simpa using h, by simpa using hm⟩
      · exact ⟨c :: l, w, suf, by simp [h], by simpa using hm⟩
    · rintro ⟨l, w, suf, h, hm⟩
      cases l with
      | nil => exact Or.inl ⟨w, suf, by simpa using h, by simpa using hm, rfl⟩
      | cons d l =>
        simp only [List.cons_append, List.cons.injEq] at h
        obtain ⟨rfl, rfl⟩ := h
        exact Or.inr ⟨l, w, suf, rfl, by simpa using hm⟩

theorem Re.test_iff (r : Re) (s : Str) : r.test s = true ↔
    ∃ l w suf, s = l ++ w ++ suf ∧ r.Matches l.reverse w suf := by
  simpa [Re.test] using Re.searchFrom_iff r s []

/-! ## Building and taking apart matches -/

theorem Re.Matches.lit_any (s pre suf : Str) : (Re.lit s).Matches pre s suf := by
  induction s generalizing pre with
  | nil => exact .empty _ _
  | cons c t ih =>
    cases t with
    | nil => exact .chr _ _ _
    | cons d t =>
      have h := @Re.Matches.seq (.chr c) (Re.lit (d :: t)) pre [c] (d :: t) suf (.chr _ _ _) (ih _)
      simpa [Re.lit, Re.cat] using h

theorem Re.Matches.star_cls (neg : Bool) (items : List ClassItem) (w pre suf : Str)
    (h : ∀ c ∈ w, classTest neg items c = true) : (Re.star (.cls neg items)).Matches pre w suf := by
  induction w generalizing pre with
  | nil => exact .starNil _ _ _
  | cons c t ih =>
    have h1 : (Re.cls neg items).Matches pre [c] (t ++ suf) := .cls _ _ _ _ _ (h c (by simp))
    have h2 := ih ([c].reverse ++ pre) (fun d hd => h d (by simp [hd]))
    simpa using Re.Matches.starCons h1 h2

theorem Re.Matches.plus_cls (neg : Bool) (items : List ClassItem) (w pre suf : Str) (hne : w ≠ [])
    (h : ∀ c ∈ w, classTest neg items c = true) : (Re.plus (.cls neg items)).Matches pre w suf := by
  cases w with
  | nil => exact absurd rfl hne
  | cons c t =>
    have h1 : (Re.cls neg items).Matches pre [c] (t ++ suf) := .cls _ _ _ _ _ (h c (by simp))
    have h2 := Re.Matches.star_cls neg items t ([c].reverse ++ pre) suf (fun d hd => h d (by simp [hd]))
    simpa [Re.plus] using Re.Matches.seq h1 h2

theorem Re.Matches.seq_cons {a b : Re} {pre w suf : Str} (w1 w2 : Str)
    (h1 : a.Matches pre w1 (w2 ++ suf)) (h2 : b.Matches (w1.reverse ++ pre) w2 suf)
    (hw : w = w1 ++ w2) : (Re.seq a b).Matches pre w suf :=
  hw ▸ .seq h1 h2

theorem Re.test_of_matches {r : Re} {l w suf : Str} (h : r.Matches l.reverse w suf) :
    r.test (l ++ w ++ suf) = true :=
  (Re.test_iff r _).2 ⟨l, w, suf, rfl, h⟩

theorem Re.Matches.cat_cons {a : Re} {rest : List Re} {pre suf : Str} (w1 w2 : Str)
    (h1 : a.Matches pre w1 (w2 ++ suf)) (h2 : (Re.cat rest).Matches (w1.reverse ++ pre) w2 suf) :
    (Re.cat (a :: rest)).Matches pre (w1 ++ w2) suf := by
  cases rest with
  | nil =>
    cases h2
    simpa [Re.cat] using h1
  | cons b rs => exact .seq h1 h2

theorem Re.Matches.star_any (w pre suf : Str) (h : ∀ c ∈ w, isLineTerminator c = false) :
    (Re.star (.any false)).Matches pre w suf := by
  induction w generalizing pre with
  | nil => exact .starNil _ _ _
  | cons c t ih =>
    have h1 : (Re.any false).Matches pre [c] (t ++ suf) := .any _ _ _ _ (by simp [h c (by simp)])
    have h2 := ih ([c].reverse ++ pre) (fun d hd => h d (by simp [hd]))
    simpa using Re.Matches.starCons h1 h2

theorem Re.Matches.cat_cons_inv {a : Re} {rest : List Re} {pre w suf : Str}
    (h : (Re.cat (a :: rest)).Matches pre w suf) :
    ∃ w1 w2, w = w1 ++ w2 ∧ a.Matches pre w1 (w2 ++ suf) ∧
      (Re.cat rest).Matches (w1.reverse ++ pre) w2 suf := by
  cases rest with
  | nil => exact ⟨w, [], by simp, by simpa [Re.cat] using h, .empty _ _⟩
  | cons b rs =>
    cases h with
    | seq h1 h2 => exact ⟨_, _, rfl, h1, h2⟩

theorem Re.Matches.lit_cat_inv (name : Str) (tail : List Re) :
    ∀ {pre w suf : Str}, (Re.cat (name.map Re.chr ++ tail)).Matches pre w suf →
      ∃ w2, w = name ++ w2 := by
  induction name with
  | nil => intro pre w suf _; exact ⟨w, rfl⟩
  | cons c name ih =>
    intro pre w suf h
    obtain ⟨w1, w2, rfl, h1, h2⟩ := Re.Matches.cat_cons_inv h
    cases h1
    obtain ⟨w3, rfl⟩ := ih h2
    exact ⟨w3, rfl⟩

theorem Re.Matches.star_any_inv {r : Re} {pre w suf : Str} (h : r.Matches pre w suf)
    (hr : r = .star (.any false)) : ∀ c ∈ w, isLineTerminator c = false := by
  induction h with
  | starNil a pre suf => intro c hc; simp at hc
  | @starCons a pre w1 w2 suf h1 h2 _ ih2 =>
    cases hr
    intro c hc
    rcases List.mem_append.1 hc with hc | hc
    · cases h1 with
      | any _ d _ _ hd =>
        simp only [List.mem_singleton] at hc
        subst hc
        simpa using hd
    · exact ih2 rfl c hc
  | _ => cases hr

theorem Re.Matches.star_cls_inv {r : Re} {neg : Bool} {items : List ClassItem} {pre w suf : Str}
    (h : r.Matches pre w suf) (hr : r = .star (.cls neg items)) :
    ∀ c ∈ w, classTest neg items c = true := by
  induction h with
  | starNil a pre suf => intro c hc; simp at hc
  | @starCons a pre w1 w2 suf h1 h2 _ ih2 =>
    cases hr
    intro c hc
    rcases List.mem_append.1 hc with hc | hc
    · cases h1 with
      | cls _ _ d _ _ hd =>
        simp only [List.mem_singleton] at hc
        subst hc
        exact hd
    · exact ih2 rfl c hc
  | _ => cases hr

/-! ## Strings -/

theorem trimStart_eq_self {s : Str} (h : ∀ c, s.head? = some c → isJsSpace c = false) :
    trimStart s = s := by
  cases s with
  | nil => rfl
  | cons c t =>
    have hc := h c rfl
    simp [trimStart, List.dropWhile, hc]

theorem trimEnd_eq_self {s : Str} (h : ∀ c, s.getLast? = some c → isJsSpace c = false) :
    trimEnd s = s := by
  have h2 : trimEnd s = s.rdropWhile isJsSpace := rfl
  rw [h2, List.rdropWhile_eq_self_iff]
  intro hl
  have := h (s.getLast hl) (List.getLast?_eq_getLast s hl)
  simp [this]

theorem trim_eq_self {s : Str} (h1 : ∀ c, s.head? = some c → isJsSpace c = false)
    (h2 : ∀ c, s.getLast? = some c → isJsSpace c = false) : trim s = s := by
  unfold trim
  rw [trimStart_eq_self h1, trimEnd_eq_self h2]

theorem trim_last (p : Str) : ∀ c, (trim p).getLast? = some c → isJsSpace c = false := by
  intro c hc
  have h2 : trim p = (trimStart p).rdropWhile isJsSpace := rfl
  rw [h2] at hc
  have hne : (trimStart p).rdropWhile isJsSpace ≠ [] := by
    intro h
    rw [h] at hc
    simp at hc
  have h3 := List.rdropWhile_last_not (p := isJsSpace) (l := trimStart p) hne
  rw [List.getLast?_eq_getLast _ hne] at hc
  simp only [Option.some.injEq] at hc
  rw [hc] at h3
  simpa using h3

theorem trim_head (p : Str) : ∀ c, (trim p).head? = some c → isJsSpace c = false := by
  intro c hc
  have h2 : trim p = (trimStart p).rdropWhile isJsSpace := rfl
  have hpre : trim p <+: trimStart p := h2 ▸ List.rdropWhile_prefix isJsSpace (trimStart p)
  obtain ⟨r, hr⟩ := hpre
  have hh : (trimStart p).head? = some c := by
    rw [← hr]
    cases ht : trim p with
    | nil => rw [ht] at hc; simp at hc
    | cons d t => rw [ht] at hc; simpa using hc
  have h3 := List.head?_dropWhile_not isJsSpace p
  unfold trimStart at hh
  rw [hh] at h3
  simpa using h3

theorem isJsSpace_slash (c : Char) :
    isJsSpace (if c = '\\' then '/' else c) = isJsSpace c := by
  split
  · rename_i h
    subst h
    decide
  · rfl

theorem trim_normalized (p : Str) :
    trim (backslashesToSlashes (trim p)) = backslashesToSlashes (trim p) := by
  apply trim_eq_self
  · intro c hc
    unfold backslashesToSlashes at hc
    rw [List.head?_map] at hc
    cases hh : (trim p).head? with
    | none => rw [hh] at hc; simp at hc
    | some d =>
      rw [hh] at hc
      simp only [Option.map_some', Option.some.injEq] at hc
      rw [← hc, isJsSpace_slash]
      exact trim_head p d hh
  · intro c hc
    unfold backslashesToSlashes at hc
    rw [List.getLast?_map] at hc
    cases hh : (trim p).getLast? with
    | none => rw [hh] at hc; simp at hc
    | some d =>
      rw [hh] at hc
      simp only [Option.map_some', Option.some.injEq] at hc
      rw [← hc, isJsSpace_slash]
      exact trim_last p d hh

theorem backslashesToSlashes_id {s : Str} (h : ∀ c ∈ s, c ≠ '\\') : backslashesToSlashes s = s := by
  unfold backslashesToSlashes
  induction s with
  | nil => rfl
  | cons c t ih =>
    have hc : c ≠ '\\' := h c (by simp)
    simp only [List.map_cons, hc, if_false]
    rw [ih (fun d hd => h d (by simp [hd]))]

theorem backslashesToSlashes_append (a b : Str) :
    backslashesToSlashes (a ++ b) = backslashesToSlashes a ++ backslashesToSlashes b := by
  simp [backslashesToSlashes]

theorem backslashesToSlashes_noLT {s : Str} (h : ∀ c ∈ s, isLineTerminator c = false) :
    ∀ c ∈ backslashesToSlashes s, isLineTerminator c = false := by
  intro c hc
  simp only [backslashesToSlashes, List.mem_map] at hc
  obtain ⟨d, hd, rfl⟩ := hc
  split
  · decide
  · exact h d hd

theorem backslashesToSlashes_no_backslash (s : Str) : ∀ c ∈ backslashesToSlashes s, c ≠ '\\' := by
  intro c hc
  simp only [backslashesToSlashes, List.mem_map] at hc
  obtain ⟨d, -, rfl⟩ := hc
  split
  · decide
  · assumption

theorem not_comment_of_head {s : Str} (h : ∀ c, (backslashesToSlashes s).head? = some c → c ≠ '/') :
    startsWith s ['/', '/'] = false := by
  cases s with
  | nil => rfl
  | cons c t =>
    have hc : c ≠ '/' := by
      intro hc
      subst hc
      exact h '/' (by simp [backslashesToSlashes]) rfl
    simp [startsWith, List.isPrefixOf, hc.symm]

theorem endsWith_slash_false {s : Str} (h : ∀ c ∈ s, c ≠ '/') : endsWith s ['/'] = false := by
  unfold endsWith
  cases hr : s.reverse with
  | nil => rfl
  | cons c t =>
    have hc : c ∈ s := by
      have : c ∈ s.reverse := by rw [hr]; simp
      simpa using this
    have := h c hc
    simp [List.isPrefixOf, this.symm]

theorem endsWith_slash_iff (s : Str) : endsWith s ['/'] = true ↔ s.getLast? = some '/' := by
  unfold endsWith
  rw [List.getLast?_eq_head?_reverse]
  cases s.reverse with
  | nil => simp
  | cons c t =>
    simp only [List.reverse_cons, List.reverse_nil, List.nil_append, List.isPrefixOf,
      List.head?_cons, Option.some.injEq, Bool.and_true, beq_iff_eq]
    exact eq_comm

theorem endsWith_slash_tail {c d : Char} {r : Str} (h : endsWith (c :: d :: r) ['/'] = true) :
    endsWith (d :: r) ['/'] = true := by
  rw [endsWith_slash_iff] at h ⊢
  simpa [List.getLast?_cons_cons] using h

theorem isPrefixOf_iff (p s : Str) : p.isPrefixOf s = true ↔ p <+: s := by
  exact List.isPrefixOf_iff_prefix

theorem includes_iff (s p : Str) : includes s p = true ↔ p <:+: s := by
  induction s with
  | nil =>
    simp only [includes, List.isEmpty_iff]
    constructor
    · rintro rfl; exact List.infix_refl _
    · intro h; exact List.eq_nil_of_infix_nil h
  | cons c s ih =>
    simp only [includes, Bool.or_eq_true, isPrefixOf_iff, ih]
    rw [List.infix_cons_iff]

theorem Checker.SameMatchers.trans {a b c : Checker} (h1 : a.SameMatchers b) (h2 : b.SameMatchers c) :
    a.SameMatchers c :=
  ⟨h1.1.trans h2.1, h1.2.1.trans h2.2.1, h1.2.2.1.trans h2.2.2.1, h1.2.2.2.1.trans h2.2.2.2.1,
    h1.2.2.2.2.trans h2.2.2.2.2⟩

theorem includes_of_infix {s p q : Str} (h : includes s p = true) (hq : q <:+: p) :
    includes s q = true :=
  (includes_iff s q).2 (hq.trans ((includes_iff s p).1 h))

theorem endsWith_iff (s p : Str) : endsWith s p = true ↔ p <:+ s := by
  unfold endsWith
  rw [isPrefixOf_iff, List.reverse_prefix]

/-! ## The regex literals of the source -/

/-- The hand-written syntax trees are what the parser reads off the regex
literals of the source. -/
theorem source_regexes_parse :
    dangerousSources.map (fun s => RegExp.compile s []) = dangerousPatterns.map .ok ∧
      RegExp.compile regexLiteralSource [] = .ok regexLiteralRe := by
  decide

theorem regexLiteralMatch_of_parts (body flags : Str) (hf : ∀ c ∈ flags, c ∈ flagChars)
    (hb : ∀ c ∈ body, isLineTerminator c = false) :
    regexLiteralMatch ('/' :: body ++ '/' :: flags) = some (body, flags) := by
  have hns : ∀ c ∈ flags.reverse, (c != '/') = true := by
    intro c hc
    have h1 := hf c (by simpa using hc)
    have h2 : c ≠ '/' := by
      rintro rfl
      revert h1
      decide
    simpa using h2
  have htw : ((body ++ '/' :: flags).reverse).takeWhile (fun d => d != '/') = flags.reverse := by
    have hrev : (body ++ '/' :: flags).reverse = flags.reverse ++ '/' :: body.reverse := by simp
    rw [hrev, List.takeWhile_append_of_pos hns]
    simp [List.takeWhile]
  have hlen : (body ++ '/' :: flags).length - flags.reverse.length - 1 = body.length := by
    simp only [List.length_append, List.length_cons, List.length_reverse]
    omega
  have hne : ¬ (flags.reverse.length = (body ++ '/' :: flags).length) := by
    simp only [List.length_append, List.length_cons, List.length_reverse]
    omega
  have hall1 : (flags.reverse.all (fun d => decide (d ∈ flagChars))) = true := by
    rw [List.all_eq_true]
    intro c hc
    simpa using hf c (by simpa using hc)
  have hall2 : (body.all (fun d => !isLineTerminator d)) = true := by
    rw [List.all_eq_true]
    intro c hc
    simp [hb c hc]
  unfold regexLiteralMatch
  simp only [List.cons_append, ne_eq, not_true_eq_false, if_false, htw, hne, hlen,
    List.take_left', hall1, hall2, and_self, if_true, List.reverse_reverse]

theorem regexLiteralMatch_parts {s body flags : Str} (h : regexLiteralMatch s = some (body, flags)) :
    s = '/' :: body ++ '/' :: flags ∧ (∀ c ∈ flags, c ∈ flagChars) ∧
      ∀ c ∈ body, isLineTerminator c = false := by
  cases s with
  | nil => simp [regexLiteralMatch] at h
  | cons c rest =>
    unfold regexLiteralMatch at h
    simp only at h
    have hsplit := List.takeWhile_append_dropWhile (fun d => d != '/') rest.reverse
    have h0 := List.head?_dropWhile_not (fun d => d != '/') rest.reverse
    generalize rest.reverse.takeWhile (fun d => d != '/') = fr at h hsplit
    generalize rest.reverse.dropWhile (fun d => d != '/') = dr at h0 hsplit
    split at h
    · cases h
    · rename_i hc
      have hc2 : c = '/' := by simpa using hc
      subst hc2
      split at h
      · cases h
      · rename_i hlen
        split at h
        · rename_i hcond
          simp only [Option.some.injEq, Prod.mk.injEq] at h
          obtain ⟨hbody, hflags⟩ := h
          cases dr with
          | nil =>
            rw [List.append_nil] at hsplit
            exact absurd (by rw [hsplit, List.length_reverse]) hlen
          | cons x tl =>
            have hx : x = '/' := by simpa using h0
            subst hx
            have hrest : rest = tl.reverse ++ '/' :: fr.reverse := by
              have := congrArg List.reverse hsplit
              rw [List.reverse_reverse] at this
              rw [← this]
              simp
            subst hrest
            have hk : (tl.reverse ++ '/' :: fr.reverse).length - fr.length - 1 = tl.reverse.length := by
              simp only [List.length_append, List.length_cons, List.length_reverse]
              omega
            rw [hk, List.take_left' rfl] at hbody hcond
            subst hbody hflags
            refine ⟨by simp, ?_, ?_⟩
            · intro d hdm
              have h1 := hcond.1
              rw [List.all_eq_true] at h1
              have := h1 d (by simpa using hdm)
              simpa using this
            · intro d hdm
              have h1 := hcond.2
              rw [List.all_eq_true] at h1
              have := h1 d hdm
              simpa using this
        · cases h

/-- `regexLiteralMatch` finds exactly the decomposition `/<body>/<flags>` with
flag letters after the last slash and no line terminator in the body. -/
theorem regexLiteralMatch_iff (s body flags : Str) :
    regexLiteralMatch s = some (body, flags) ↔
      s = '/' :: body ++ '/' :: flags ∧ (∀ c ∈ flags, c ∈ flagChars) ∧
        ∀ c ∈ body, isLineTerminator c = false := by
  constructor
  · exact regexLiteralMatch_parts
  · rintro ⟨rfl, hf, hb⟩
    exact regexLiteralMatch_of_parts body flags hf hb

theorem flagClass_iff (c : Char) :
    classTest false [.single 'd', .single 'g', .single 'i', .single 'm', .single 's',
      .single 'u', .single 'v', .single 'y'] c = true ↔ c ∈ flagChars := by
  simp [classTest, ClassItem.test, flagChars]

/-- The regex literal test of the source and `regexLiteralMatch` agree: the
regex matches a pattern exactly when the decomposition exists. -/
theorem regexLiteralRe_test_iff (s : Str) :
    regexLiteralRe.test s = true ↔ (regexLiteralMatch s).isSome = true := by
  constructor
  · intro h
    obtain ⟨l, w, suf, rfl, hm⟩ := (Re.test_iff _ _).1 h
    unfold regexLiteralRe at hm
    obtain ⟨w1, w2, rfl, h1, h2⟩ := Re.Matches.cat_cons_inv hm
    obtain ⟨w3, w4, rfl, h3, h4⟩ := Re.Matches.cat_cons_inv h2
    obtain ⟨w5, w6, rfl, h5, h6⟩ := Re.Matches.cat_cons_inv h4
    obtain ⟨w7, w8, rfl, h7, h8⟩ := Re.Matches.cat_cons_inv h6
    obtain ⟨w9, w10, rfl, h9, h10⟩ := Re.Matches.cat_cons_inv h8
    cases h1 with
    | bol _ _ _ hb =>
      cases h3
      cases h7
      have hl : l = [] := by
        cases hl : l.reverse with
        | nil => simpa using hl
        | cons x t => rw [hl] at hb; simp [atLineStart] at hb
      have h10' := h10
      simp only [Re.cat] at h10'
      cases h10' with
      | eol _ _ _ he =>
        have hsuf : suf = [] := by
          cases suf with
          | nil => rfl
          | cons x t => simp [atLineEnd] at he
        subst hl hsuf
        have hbody := Re.Matches.star_any_inv h5 rfl
        have hflags := Re.Matches.star_cls_inv h9 rfl
        have := regexLiteralMatch_of_parts w5 w9 (fun c hc => (flagClass_iff c).1 (hflags c hc)) hbody
        simp only [List.nil_append, List.append_nil, List.singleton_append, List.cons_append] at this ⊢
        rw [this]
        rfl
  · intro h
    obtain ⟨⟨body, flags⟩, hsome⟩ := Option.isSome_iff_exists.1 h
    obtain ⟨rfl, hf, hb⟩ := regexLiteralMatch_parts hsome
    have hm : regexLiteralRe.Matches [] ('/' :: body ++ '/' :: flags) [] := by
      unfold regexLiteralRe
      refine Re.Matches.cat_cons [] _ (.bol _ _ _ rfl) ?_
      refine Re.Matches.cat_cons ['/'] (body ++ '/' :: flags) (.chr _ _ _) ?_
      refine Re.Matches.cat_cons body ('/' :: flags) (Re.Matches.star_any _ _ _ hb) ?_
      refine Re.Matches.cat_cons ['/'] flags (.chr _ _ _) ?_
      simp only [Re.cat]
      exact Re.Matches.seq_cons flags [] (Re.Matches.star_cls _ _ _ _ _
        (fun c hc => (flagClass_iff c).2 (hf c hc))) (.eol _ _ _ rfl) (by simp)
    have := Re.test_of_matches (l := []) (by simpa using hm)
    simpa using this

/-! ## The safety gate -/

theorem noClose_test (c : Char) (h : c ≠ ')') : classTest true [.single ')'] c = true := by
  simp [classTest, ClassItem.test, h]

theorem lookbehind_matches (q : Char) (hq : q = '=' ∨ q = '!') (x pre suf : Str) (hx : x ≠ [])
    (hnc : ')' ∉ x) : lookbehind.Matches pre ('(' :: '?' :: '<' :: q :: x ++ [')']) suf := by
  have hplus : ∀ pre2 suf2, (Re.plus noClose).Matches pre2 x suf2 := fun pre2 suf2 =>
    Re.Matches.plus_cls _ _ _ _ _ hx (fun c hc => noClose_test c (fun h => hnc (h ▸ hc)))
  have hbody : ∀ pre2, (Re.cat [.chr '(', .chr '?', .chr '<', .chr q, Re.plus noClose, .chr ')']).Matches
      pre2 ('(' :: '?' :: '<' :: q :: x ++ [')']) suf := by
    intro pre2
    simp only [Re.cat]
    refine Re.Matches.seq_cons ['('] _ (.chr _ _ _) ?_ rfl
    refine Re.Matches.seq_cons ['?'] _ (.chr _ _ _) ?_ rfl
    refine Re.Matches.seq_cons ['<'] _ (.chr _ _ _) ?_ rfl
    refine Re.Matches.seq_cons [q] _ (.chr _ _ _) ?_ rfl
    exact Re.Matches.seq_cons x [')'] (hplus _ _) (.chr _ _ _) rfl
  rcases hq with rfl | rfl
  · exact .altL (hbody pre)
  · exact .altR (hbody pre)

theorem validateRegexSafety_of_dangerous {body : Str} {p : Re} (hp : p ∈ dangerousPatterns)
    (h : p.test body = true) : ∃ msg, validateRegexSafety body = .error msg := by
  unfold validateRegexSafety
  split
  · exact ⟨_, rfl⟩
  · rw [if_pos]
    · exact ⟨_, rfl⟩
    · exact List.any_eq_true.2 ⟨p, hp, h⟩

theorem noParen_test (c : Char) (h : c ≠ '(' ∧ c ≠ ')') :
    classTest true [.single ')', .single '('] c = true := by
  simp [classTest, ClassItem.test, h.1, h.2]

theorem plusOrStar_test (q : Char) (h : q = '+' ∨ q = '*') :
    classTest false [.single '+', .single '*'] q = true := by
  rcases h with rfl | rfl <;> decide

theorem groupBody_matches_pieces (pieces : List Str)
    (h : ∀ pc ∈ pieces, (∃ c, pc = [c] ∧ c ≠ '(' ∧ c ≠ ')') ∨
      (∃ z, pc = '(' :: z ++ [')'] ∧ ParenFree z)) :
    ∀ pre suf, groupBody.Matches pre pieces.flatten suf := by
  induction pieces with
  | nil => intro pre suf; exact .starNil _ _ _
  | cons pc rest ih =>
    intro pre suf
    have hrest := ih (fun q hq => h q (by simp [hq]))
    rw [List.flatten_cons]
    refine .starCons ?_ (hrest _ _)
    rcases h pc (by simp) with ⟨c, rfl, hc⟩ | ⟨z, rfl, hz⟩
    · exact .altL (.cls _ _ _ _ _ (noParen_test c hc))
    · refine .altR ?_
      simp only [Re.cat]
      refine Re.Matches.seq_cons ['('] (z ++ [')']) (.chr _ _ _) ?_ rfl
      exact Re.Matches.seq_cons z [')'] (Re.Matches.star_cls _ _ _ _ _ (fun c hc => noParen_test c (hz c hc)))
        (.chr _ _ _) rfl

theorem groupBody_matches {x : Str} (h : FlatGroupText x) (pre suf : Str) :
    groupBody.Matches pre x suf := by
  obtain ⟨pieces, rfl, hp⟩ := h
  exact groupBody_matches_pieces pieces hp pre suf

theorem nestedQuantifier_matches (x y : Str) (q1 q2 : Char) (h1 : q1 = '+' ∨ q1 = '*')
    (h2 : q2 = '+' ∨ q2 = '*') (hx : FlatGroupText x) (hy : FlatGroupText y) (pre suf : Str) :
    nestedQuantifier.Matches pre ('(' :: x ++ q1 :: y ++ [')', q2]) suf := by
  simp only [nestedQuantifier, Re.cat]
  refine Re.Matches.seq_cons ['('] (x ++ q1 :: y ++ [')', q2]) (.chr _ _ _) ?_ (by simp)
  refine Re.Matches.seq_cons x (q1 :: y ++ [')', q2]) (groupBody_matches hx _ _) ?_ (by simp)
  refine Re.Matches.seq_cons [q1] (y ++ [')', q2]) (.cls _ _ _ _ _ (plusOrStar_test q1 h1)) ?_ (by simp)
  refine Re.Matches.seq_cons y [')', q2] (groupBody_matches hy _ _) ?_ rfl
  exact Re.Matches.seq_cons [')'] [q2] (.chr _ _ _) (.cls _ _ _ _ _ (plusOrStar_test q2 h2)) rfl

theorem validateRegexSafety_rejects_nested {body : Str} (h : HasNestedQuantifier body) :
    ∃ msg, validateRegexSafety body = .error msg := by
  obtain ⟨l, x, y, r, q1, q2, rfl, h1, h2, hx, hy⟩ := h
  exact validateRegexSafety_of_dangerous (p := nestedQuantifier) (by simp [dangerousPatterns])
    (Re.test_of_matches (nestedQuantifier_matches x y q1 q2 h1 h2 hx hy _ _))

/-! ## Parsing the regex source the checker generates -/

theorem pfold_append (fl : Flags) (a b : Str) :
    ∀ st : PState, pfold fl st (a ++ b) =
      match pfold fl st a with
      | .ok st2 => pfold fl st2 b
      | .error e => .error e := by
  induction a with
  | nil => intro st; rfl
  | cons c a ih =>
    intro st
    simp only [List.cons_append, pfold]
    cases pstep fl st c with
    | error e => rfl
    | ok st2 => exact ih st2

theorem globToRegex_eq_tokens (g : Str) :
    globToRegex g = ((globTokens g).map GlobTok.source).flatten := by
  induction g using globToRegex.induct with
  | case1 => rfl
  | case2 rest ih => simp [globToRegex, globTokens, GlobTok.source, ih]
  | case3 rest h ih =>
    rw [globToRegex, globTokens]
    · simp [GlobTok.source, ih]
    all_goals exact h
  | case4 rest ih => simp [globToRegex, globTokens, GlobTok.source, ih]
  | case5 c rest h1 h2 h3 ih =>
    rw [globToRegex, globTokens]
    · simp [GlobTok.source, ih]
    all_goals first | exact h1 | exact h2 | exact h3

theorem glob_text_eq_tokens (g : Str) : g = ((globTokens g).map GlobTok.text).flatten := by
  induction g using globToRegex.induct with
  | case1 => rfl
  | case2 rest ih =>
    rw [globTokens]
    simp only [List.map_cons, List.flatten_cons, GlobTok.text, List.cons_append, List.nil_append]
    rw [← ih]
  | case3 rest h ih =>
    rw [globTokens]
    · simp only [List.map_cons, List.flatten_cons, GlobTok.text, List.cons_append, List.nil_append]
      rw [← ih]
    all_goals exact h
  | case4 rest ih =>
    rw [globTokens]
    simp only [List.map_cons, List.flatten_cons, GlobTok.text, List.cons_append, List.nil_append]
    rw [← ih]
  | case5 c rest h1 h2 h3 ih =>
    rw [globTokens]
    · simp only [List.map_cons, List.flatten_cons, GlobTok.text, List.cons_append, List.nil_append]
      rw [← ih]
    all_goals first | exact h1 | exact h2 | exact h3

/-- A parser state between two terms of the alternative in progress. -/
theorem pfold_tok (tok : GlobTok) (st : PState) (h : st.mode = .normal) :
    ∃ q lz, pfold {} st tok.source =
      .ok { stack := st.stack, cur := { alts := st.cur.alts, terms := tok.re :: st.cur.terms },
            mode := .normal, quantifiable := q, lazyOk := lz } := by
  obtain ⟨stack, cur, mode, q0, lz0⟩ := st
  simp only at h
  subst h
  cases tok with
  | globstar => exact ⟨_, _, rfl⟩
  | star => exact ⟨_, _, rfl⟩
  | qmark => exact ⟨_, _, rfl⟩
  | lit c =>
    by_cases hc : c ∈ ['|', '\\', '{', '}', '(', ')', '[', ']', '^', '$', '+', '*', '?', '.', '-']
    · refine ⟨true, false, ?_⟩
      simp only [GlobTok.source, escapeRegexChar, hc, if_true]
      simp only [List.mem_cons, List.mem_singleton, List.not_mem_nil, or_false] at hc
      rcases hc with h | h | h | h | h | h | h | h | h | h | h | h | h | h | h <;> subst h <;> rfl
    · refine ⟨true, false, ?_⟩
      simp only [GlobTok.source, escapeRegexChar, hc, if_false]
      simp only [List.mem_cons, List.mem_singleton, List.not_mem_nil, or_false, not_or] at hc
      obtain ⟨h1, h2, h3, h4, h5, h6, h7, h8, h9, h10, h11, h12, h13, h14, h15⟩ := hc
      simp [pfold, pstep, pstepNormal, PState.pushAtom, GlobTok.re, h1, h2, h3, h4, h5, h6, h7, h8, h9,
        h10, h11, h12, h13, h14, h15]

theorem pfold_toks (toks : List GlobTok) :
    ∀ (st : PState), st.mode = .normal →
    ∃ q lz, pfold {} st (toks.map GlobTok.source).flatten =
      .ok { stack := st.stack,
            cur := { alts := st.cur.alts, terms := (toks.map GlobTok.re).reverse ++ st.cur.terms },
            mode := .normal, quantifiable := q, lazyOk := lz } := by
  induction toks with
  | nil =>
    intro st h
    obtain ⟨stack, cur, mode, q0, lz0⟩ := st
    simp only at h
    subst h
    exact ⟨q0, lz0, rfl⟩
  | cons tok toks ih =>
    intro st h
    obtain ⟨q1, lz1, h1⟩ := pfold_tok tok st h
    obtain ⟨q2, lz2, h2⟩ :=
      ih ⟨st.stack, ⟨st.cur.alts, tok.re :: st.cur.terms⟩, .normal, q1, lz1⟩ rfl
    refine ⟨q2, lz2, ?_⟩
    simp only [List.map_cons, List.flatten_cons]
    rw [pfold_append, h1]
    simp only
    rw [h2]
    simp

/-- The anchored regex source of a glob parses to `^`, the glob's tokens, `$`. -/
theorem compile_glob (g : Str) :
    RegExp.compile ('^' :: globToRegex g ++ ['$']) [] = .ok (globRe g) := by
  have hflags : parseFlags [] = .ok {} := by decide
  unfold RegExp.compile
  rw [hflags]
  simp only
  have h0 : pfold {} {} ('^' :: globToRegex g ++ ['$']) =
      match pfold {} { cur := { terms := [.bol false] } } (globToRegex g) with
      | .ok st2 => pfold {} st2 ['$']
      | .error e => .error e := by
    rw [← pfold_append]
    rfl
  rw [h0, globToRegex_eq_tokens]
  obtain ⟨q, lz, h⟩ := pfold_toks (globTokens g) { cur := { terms := [.bol false] } } rfl
  rw [h]
  simp [pfold, pstep, pstepNormal, PState.pushAssertion, pfinish, Frame.close, Re.alts, globRe]

theorem GlobTok.matches_text (tok : GlobTok) (pre suf : Str) : tok.re.Matches pre tok.text suf := by
  cases tok with
  | globstar =>
    exact Re.Matches.star_any _ _ _ (fun c hc => by
      simp only [GlobTok.text, List.mem_cons, List.mem_singleton, List.not_mem_nil, or_false, or_self] at hc
      subst hc
      decide)
  | star =>
    exact Re.Matches.star_cls _ _ _ _ _ (fun c hc => by
      simp only [GlobTok.text, List.mem_singleton] at hc
      subst hc
      decide)
  | qmark => exact .cls _ _ _ _ _ (by decide)
  | lit c => exact .chr _ _ _

theorem globTokens_match_text (toks : List GlobTok) (tail : List Re) (w suf : Str) :
    ∀ pre : Str,
      (Re.cat tail).Matches (((toks.map GlobTok.text).flatten).reverse ++ pre) w suf →
      (Re.cat (toks.map GlobTok.re ++ tail)).Matches pre ((toks.map GlobTok.text).flatten ++ w) suf := by
  induction toks with
  | nil => intro pre h; simpa using h
  | cons tok toks ih =>
    intro pre h
    simp only [List.map_cons, List.flatten_cons, List.cons_append, List.append_assoc]
    refine Re.Matches.cat_cons tok.text _ (tok.matches_text _ _) (ih _ ?_)
    simpa using h

theorem globTokens_globstar (rest : Str) :
    globTokens ('*' :: '*' :: rest) = .globstar :: globTokens rest := by
  rw [globTokens]

theorem globTokens_star (rest : Str) (h : ∀ r, rest = '*' :: r → False) :
    globTokens ('*' :: rest) = .star :: globTokens rest := by
  rw [globTokens]
  exact h

theorem globTokens_qmark (rest : Str) : globTokens ('?' :: rest) = .qmark :: globTokens rest := by
  rw [globTokens]

theorem globTokens_lit (c : Char) (rest : Str) (h1 : c ≠ '*') (h2 : c ≠ '?') :
    globTokens (c :: rest) = .lit c :: globTokens rest := by
  rw [globTokens]
  · intro r hc
    exact absurd hc h1
  · exact h1
  · exact h2

theorem globTokens_append_slash (a b : Str) (h : endsWith a ['/'] = true) :
    globTokens (a ++ b) = globTokens a ++ globTokens b := by
  induction a using globToRegex.induct with
  | case1 => simp [endsWith] at h
  | case2 rest ih =>
    cases rest with
    | nil => simp [endsWith] at h
    | cons c r =>
      have hr := endsWith_slash_tail (endsWith_slash_tail h)
      rw [List.cons_append, List.cons_append, globTokens_globstar, globTokens_globstar, ih hr]
      rfl
  | case3 rest hs ih =>
    cases rest with
    | nil => simp [endsWith] at h
    | cons c r =>
      have hr := endsWith_slash_tail h
      have hc : c ≠ '*' := fun hc => hs r (by rw [hc])
      rw [List.cons_append, globTokens_star _ hs, globTokens_star, ih hr]
      · rfl
      · intro r2 h2
        simp only [List.cons_append, List.cons.injEq] at h2
        exact hc h2.1
  | case4 rest ih =>
    cases rest with
    | nil => simp [endsWith] at h
    | cons c r =>
      have hr := endsWith_slash_tail h
      rw [List.cons_append, globTokens_qmark, globTokens_qmark, ih hr]
      rfl
  | case5 c rest h1 h2 h3 ih =>
    have hc1 : c ≠ '*' := fun hc => h2 hc
    have hc2 : c ≠ '?' := fun hc => h3 hc
    cases rest with
    | nil =>
      rw [List.cons_append, globTokens_lit c _ hc1 hc2, globTokens_lit c _ hc1 hc2]
      rfl
    | cons d r =>
      have hr := endsWith_slash_tail h
      rw [List.cons_append, globTokens_lit c _ hc1 hc2, globTokens_lit c _ hc1 hc2, ih hr]
      rfl

theorem folder_regex_accepts (f rest : Str) (hf : endsWith f ['/'] = true)
    (hrest : ∀ c ∈ rest, isLineTerminator c = false) :
    (globRe (f ++ ['*', '*'])).test (f ++ rest) = true := by
  have htok : globTokens (f ++ ['*', '*']) = globTokens f ++ [.globstar] := by
    rw [globTokens_append_slash f _ hf]
    rfl
  have hm : (globRe (f ++ ['*', '*'])).Matches [] (f ++ rest) [] := by
    unfold globRe
    rw [htok, List.map_append, List.cons_append, List.append_assoc]
    have h1 : (Re.cat ((globTokens f).map GlobTok.re ++ ([GlobTok.globstar].map GlobTok.re ++ [.eol false]))).Matches
        [] (f ++ rest) [] := by
      have h2 := globTokens_match_text (globTokens f) ([GlobTok.globstar].map GlobTok.re ++ [.eol false])
        rest [] [] ?_
      · rw [← glob_text_eq_tokens] at h2
        exact h2
      · simp only [List.map_cons, List.map_nil, List.cons_append, List.nil_append, Re.cat, GlobTok.re]
        refine Re.Matches.seq_cons rest [] (Re.Matches.star_any _ _ _ hrest) (.eol _ _ _ rfl) (by simp)
    have h3 := Re.Matches.cat_cons (a := .bol false) [] (f ++ rest) (.bol false [] _ rfl)
      (by simpa using h1)
    simpa using h3
  have := Re.test_of_matches (l := []) (by simpa using hm)
  simpa using this

theorem pfold_escaped_char (c : Char) (st : PState) (h : st.mode = .normal) :
    pfold {} st (if c ∈ regexSpecialChars then ['\\', c] else [c]) =
      .ok ⟨st.stack, ⟨st.cur.alts, .chr c :: st.cur.terms⟩, .normal, true, false⟩ := by
  obtain ⟨stack, cur, mode, q0, lz0⟩ := st
  simp only at h
  subst h
  by_cases hc : c ∈ regexSpecialChars
  · rw [if_pos hc]
    simp only [regexSpecialChars, List.mem_cons, List.mem_singleton, List.not_mem_nil, or_false] at hc
    rcases hc with h | h | h | h | h | h | h | h | h | h | h | h | h | h <;> subst h <;> rfl
  · rw [if_neg hc]
    simp only [regexSpecialChars, List.mem_cons, List.mem_singleton, List.not_mem_nil, or_false,
      not_or] at hc
    obtain ⟨h1, h2, h3, h4, h5, h6, h7, h8, h9, h10, h11, h12, h13, h14⟩ := hc
    simp [pfold, pstep, pstepNormal, PState.pushAtom, h1, h2, h3, h4, h5, h6, h7, h8, h9,
      h10, h11, h12, h13, h14]

theorem pfold_escaped (name : Str) :
    ∀ (st : PState), st.mode = .normal →
    ∃ q lz, pfold {} st (escapeForRegex name) =
      .ok ⟨st.stack, ⟨st.cur.alts, (name.map Re.chr).reverse ++ st.cur.terms⟩, .normal, q, lz⟩ := by
  induction name with
  | nil =>
    intro st h
    obtain ⟨stack, cur, mode, q0, lz0⟩ := st
    simp only at h
    subst h
    exact ⟨q0, lz0, rfl⟩
  | cons c name ih =>
    intro st h
    obtain ⟨q2, lz2, h2⟩ := ih ⟨st.stack, ⟨st.cur.alts, .chr c :: st.cur.terms⟩, .normal, true, false⟩ rfl
    refine ⟨q2, lz2, ?_⟩
    have he : escapeForRegex (c :: name) =
        (if c ∈ regexSpecialChars then ['\\', c] else [c]) ++ escapeForRegex name := by
      simp [escapeForRegex]
    rw [he, pfold_append, pfold_escaped_char c st h]
    simp only
    rw [h2]
    simp

/-- The source text built by `isAssetUsed` always compiles, to `dynamicImportRe`. -/
theorem compile_dynamicImport (name : Str) :
    RegExp.compile (dynamicImportSource (escapeForRegex name)) [] = .ok (dynamicImportRe name) := by
  have hflags : parseFlags [] = .ok {} := by decide
  unfold RegExp.compile dynamicImportSource
  rw [hflags]
  simp only
  rw [List.append_assoc, pfold_append]
  have h1 : pfold {} {} ['\\', '$', '\\', '{', '[', '^', '}', ']', '*'] =
      .ok ⟨[], ⟨[], [.star (.cls true [.single '}']), .chr '{', .chr '$']⟩, .normal, false, true⟩ := by
    rfl
  rw [h1]
  simp only
  rw [pfold_append]
  obtain ⟨q, lz, h2⟩ := pfold_escaped name
    ⟨[], ⟨[], [.star (.cls true [.single '}']), .chr '{', .chr '$']⟩, .normal, false, true⟩ rfl
  rw [h2]
  simp only
  have h3 : ∀ (ts : List Re) (q lz : Bool),
      pfold {} ⟨[], ⟨[], ts⟩, .normal, q, lz⟩ ['[', '^', '}', ']', '*', '\\', '}'] =
        .ok ⟨[], ⟨[], .chr '}' :: .star (.cls true [.single '}']) :: ts⟩, .normal, true, false⟩ := by
    intro ts q lz
    rfl
  rw [h3]
  simp [pfinish, Frame.close, Re.alts, dynamicImportRe]

theorem dynamicImportRe_contains {name pre w suf : Str} (h : (dynamicImportRe name).Matches pre w suf) :
    name <:+: w := by
  unfold dynamicImportRe at h
  simp only [List.cons_append, List.nil_append] at h
  obtain ⟨w1, w2, rfl, -, h2⟩ := Re.Matches.cat_cons_inv h
  obtain ⟨w3, w4, rfl, -, h4⟩ := Re.Matches.cat_cons_inv h2
  obtain ⟨w5, w6, rfl, -, h6⟩ := Re.Matches.cat_cons_inv h4
  obtain ⟨w7, rfl⟩ := Re.Matches.lit_cat_inv name _ h6
  exact ⟨w1 ++ w3 ++ w5, w7, by simp⟩

theorem dynamicImportRe_test {name content : Str} (h : (dynamicImportRe name).test content = true) :
    includes content name = true := by
  obtain ⟨l, w, suf, rfl, hm⟩ := (Re.test_iff _ _).1 h
  rw [includes_iff]
  exact (dynamicImportRe_contains hm).trans ⟨l, suf, rfl⟩

/-! ## Paths -/

theorem dropCommon_fst_ne_nil : ∀ (f t : List Str), ¬ (f <+: t) → (dropCommon f t).1 ≠ []
  | [], t, h => absurd (List.nil_prefix) h
  | a :: as, [], _ => by simp [dropCommon]
  | a :: as, b :: bs, h => by
    unfold dropCommon
    split
    · rename_i hab
      subst hab
      exact dropCommon_fst_ne_nil as bs (fun hp => h ((List.prefix_cons_inj a).2 hp))
    · simp

theorem dropCommon_snd_suffix : ∀ (f t : List Str), (dropCommon f t).2 <:+ t
  | [], t => by simp [dropCommon]
  | a :: as, [] => by simp [dropCommon]
  | a :: as, b :: bs => by
    unfold dropCommon
    split
    · exact (dropCommon_snd_suffix as bs).trans (List.suffix_cons b bs)
    · exact List.suffix_refl _

theorem dropCommon_snd_ne_nil : ∀ (f t : List Str), ¬ (t <+: f) → (dropCommon f t).2 ≠ []
  | f, [], h => absurd List.nil_prefix h
  | [], b :: bs, _ => by simp [dropCommon]
  | a :: as, b :: bs, h => by
    unfold dropCommon
    split
    · rename_i hab
      subst hab
      exact dropCommon_snd_ne_nil as bs (fun hp => h ((List.prefix_cons_inj a).2 hp))
    · simp

theorem joinSlash_dots (rest : List Str) :
    joinSlash (['.', '.'] :: rest) = ['.', '.'] ∨
      ∃ tl, joinSlash (['.', '.'] :: rest) = '.' :: '.' :: '/' :: tl := by
  cases rest with
  | nil => left; rfl
  | cons r rs => right; exact ⟨joinSlash (r :: rs), by simp [joinSlash]⟩

theorem joinSlash_getLast : ∀ (l : List Str) (hl : l ≠ []),
    ∃ pre, '/' :: joinSlash l = pre ++ '/' :: l.getLast hl
  | [], hl => absurd rfl hl
  | [s], _ => ⟨[], by simp [joinSlash]⟩
  | s :: r :: rest, _ => by
    obtain ⟨pre, hpre⟩ := joinSlash_getLast (r :: rest) (by simp)
    refine ⟨'/' :: s ++ pre, ?_⟩
    simp only [joinSlash, List.cons_append, List.append_assoc, List.cons.injEq, true_and]
    rw [hpre]
    simp

theorem joinSlash_suffix (l : List Str) (hl : l ≠ []) : l.getLast hl <:+ joinSlash l := by
  obtain ⟨pre, h⟩ := joinSlash_getLast l hl
  cases pre with
  | nil =>
    simp only [List.nil_append, List.cons.injEq, true_and] at h
    rw [h]
  | cons c pre =>
    simp only [List.cons_append, List.cons.injEq] at h
    rw [h.2]
    exact ⟨pre ++ ['/'], by simp⟩

theorem relative_outside (cwd a p : Str) (h : ¬ (Path.resolveSegs cwd a <+: Path.resolveSegs cwd p)) :
    Path.relative cwd a p = ['.', '.'] ∨ ∃ tl, Path.relative cwd a p = '.' :: '.' :: '/' :: tl := by
  unfold Path.relative
  have hne : a ≠ p := by
    rintro rfl
    exact h (List.prefix_refl _)
  rw [if_neg hne]
  have h1 := dropCommon_fst_ne_nil _ _ h
  simp only
  cases hd : (dropCommon (Path.resolveSegs cwd a) (Path.resolveSegs cwd p)).1 with
  | nil => exact absurd hd h1
  | cons x xs =>
    simp only [List.map_cons, List.cons_append]
    exact joinSlash_dots _

theorem splitSlash_noSlash {s : Str} (h : ∀ c ∈ s, c ≠ '/') : splitSlash s = [s] := by
  induction s with
  | nil => rfl
  | cons c t ih =>
    have hc : c ≠ '/' := h c (by simp)
    simp [splitSlash, hc, ih (fun d hd => h d (by simp [hd]))]

theorem splitSlash_append_slash {s : Str} (h : ∀ c ∈ s, c ≠ '/') (x : Str) :
    splitSlash (s ++ '/' :: x) = s :: splitSlash x := by
  induction s with
  | nil => simp [splitSlash]
  | cons c t ih =>
    have hc : c ≠ '/' := h c (by simp)
    simp [splitSlash, hc, ih (fun d hd => h d (by simp [hd]))]

theorem splitSlash_joinSlash {segs : List Str} (hne : segs ≠ []) (h : ∀ s ∈ segs, ∀ c ∈ s, c ≠ '/') :
    splitSlash (joinSlash segs) = segs := by
  induction segs with
  | nil => exact absurd rfl hne
  | cons s rest ih =>
    cases rest with
    | nil => simpa [joinSlash] using splitSlash_noSlash (h s (by simp))
    | cons r rest =>
      have h2 := ih (by simp) (fun t ht => h t (by simp [ht]))
      simp only [joinSlash]
      rw [splitSlash_append_slash (h s (by simp)), h2]

theorem normalizeSegs_normal {segs : List Str} (h : IsNormalSegs segs) :
    ∀ acc, normalizeSegs acc segs = acc.reverse ++ segs := by
  induction segs with
  | nil => intro acc; simp [normalizeSegs]
  | cons s rest ih =>
    intro acc
    have hs := h s (by simp)
    have h1 : ¬ (s = [] ∨ s = ['.']) := by
      rintro (h1 | h1)
      · exact hs.1 h1
      · exact hs.2.1 h1
    rw [normalizeSegs, if_neg h1, if_neg hs.2.2.1, ih (fun t ht => h t (by simp [ht]))]
    simp

theorem resolveSegs_absPath {segs : List Str} (h : IsNormalSegs segs) (cwd : Str) :
    Path.resolveSegs cwd (absPath segs) = segs := by
  unfold Path.resolveSegs absPath
  simp only [Path.isAbsolute, beq_self_eq_true, if_true]
  by_cases hne : segs = []
  · subst hne
    simp [joinSlash, splitSlash, normalizeSegs]
  · have h2 : splitSlash ('/' :: joinSlash segs) = [] :: segs := by
      rw [splitSlash, if_pos rfl, splitSlash_joinSlash hne (fun s hs => (h s hs).2.2.2)]
    rw [h2, normalizeSegs, if_pos (Or.inl rfl), normalizeSegs_normal h]
    simp

theorem basename_of_slash_name (pre name : Str) (hne : name ≠ []) (h : ∀ c ∈ name, c ≠ '/') :
    Path.basename (pre ++ '/' :: name) = name := by
  unfold Path.basename
  have hrev : (pre ++ '/' :: name).reverse = name.reverse ++ '/' :: pre.reverse := by simp
  rw [hrev]
  obtain ⟨c, t, hct⟩ := List.exists_cons_of_ne_nil (by simpa using hne : name.reverse ≠ [])
  have hc : c ≠ '/' := h c (by
    have : c ∈ name.reverse := by rw [hct]; simp
    simpa using this)
  have h1 : (name.reverse ++ '/' :: pre.reverse).dropWhile (fun c => c == '/') =
      name.reverse ++ '/' :: pre.reverse := by
    rw [hct]
    have hb : (c == '/') = false := by simpa using hc
    simp [List.dropWhile, hb]
  rw [h1]
  have h2 : (name.reverse ++ '/' :: pre.reverse).takeWhile (fun c => c != '/') = name.reverse := by
    rw [List.takeWhile_append_of_pos]
    · simp [List.takeWhile]
    · intro d hd
      have := h d (by simpa using hd)
      simpa using this
  rw [h2]
  simp

theorem basename_absPath {segs : List Str} (h : IsNormalSegs segs) (hne : segs ≠ []) :
    Path.basename (absPath segs) = segs.getLast hne := by
  obtain ⟨pre, hpre⟩ := joinSlash_getLast segs hne
  unfold absPath
  rw [hpre]
  have hl := h (segs.getLast hne) (List.getLast_mem hne)
  exact basename_of_slash_name pre _ hl.1 hl.2.2.2

theorem basename_length_le (p : Str) : (Path.basename p).length ≤ p.length := by
  unfold Path.basename
  rw [List.length_reverse]
  calc ((p.reverse.dropWhile (fun c => c == '/')).takeWhile (fun c => c != '/')).length
      ≤ (p.reverse.dropWhile (fun c => c == '/')).length := (List.takeWhile_sublist _).length_le
    _ ≤ p.reverse.length := (List.dropWhile_sublist _).length_le
    _ = p.length := List.length_reverse p

theorem basenameExt_extname_initial (p : Str) :
    Path.basenameExt p (Path.extname p) <+: Path.basename p := by
  have hext : Path.extname p = [] ∨ Path.extname p <:+ Path.basename p := by
    unfold Path.extname
    simp only
    split
    · exact Or.inl rfl
    · split
      · exact Or.inl rfl
      · split
        · exact Or.inl rfl
        · exact Or.inr (List.drop_suffix _ _)
  unfold Path.basenameExt
  split
  · split
    · exact List.nil_prefix
    · simp only
      rcases hext with h | h
      · rename_i h1 _
        exact absurd h h1.1
      · rw [(endsWith_iff _ _).2 h]
        simp only [if_true]
        split
        · exact List.prefix_refl _
        · exact List.take_prefix _ _
  · exact List.prefix_refl _

theorem heroBanner_name {p : Str} (h : Path.basename p = "hero-banner.jpg".toList) :
    Path.basenameExt p (Path.extname p) = "hero-banner".toList := by
  have hext : Path.extname p = ".jpg".toList := by
    unfold Path.extname
    rw [h]
    decide
  have hlen : 15 ≤ p.length := by
    have := basename_length_le p
    rw [h] at this
    simpa using this
  have hne : ".jpg".toList ≠ p := by
    intro heq
    rw [← heq] at hlen
    simp at hlen
  unfold Path.basenameExt
  rw [hext, h]
  have hcond : ".jpg".toList ≠ [] ∧ (".jpg".toList).length ≤ p.length := by
    refine ⟨by decide, ?_⟩
    have : (".jpg".toList).length = 4 := by decide
    omega
  rw [if_pos hcond, if_neg hne]
  have he : endsWith "hero-banner.jpg".toList ".jpg".toList = true := by decide
  simp only [he, if_true]
  decide

/-! ## Sets and maps -/

theorem mem_setAdd_self (s : List Str) (x : Str) : x ∈ setAdd s x := by
  unfold setAdd
  split
  · assumption
  · simp

theorem mem_setAdd_of_mem {s : List Str} {x y : Str} (h : x ∈ s) : x ∈ setAdd s y := by
  unfold setAdd
  split
  · exact h
  · simp [h]

theorem mapGet_mapSet_self (m : List (Str × Bool)) (k : Str) (v : Bool) :
    mapGet (mapSet m k v) k = some v := by
  induction m with
  | nil => simp [mapSet, mapGet]
  | cons e m ih =>
    unfold mapSet
    split
    · simp [mapGet]
    · rename_i hne
      have hb : (e.1 == k) = false := by simpa using hne
      simp only [mapGet, List.find?_cons, hb] at ih ⊢
      exact ih

theorem mapGet_mapSet_ne (m : List (Str × Bool)) (k k2 : Str) (v : Bool) (h : k ≠ k2) :
    mapGet (mapSet m k2 v) k = mapGet m k := by
  induction m with
  | nil =>
    have hb : (k2 == k) = false := by simpa using h.symm
    simp [mapSet, mapGet, hb]
  | cons e m ih =>
    unfold mapSet
    split
    · rename_i he
      have hb : (k2 == k) = false := by simpa using h.symm
      have hb2 : (e.1 == k) = false := by rw [he]; exact hb
      simp only [mapGet, List.find?_cons, hb, hb2]
    · simp only [mapGet, List.find?_cons] at ih ⊢
      cases hb : (e.1 == k) with
      | true => rfl
      | false => exact ih

/-! ## Normalizing and querying -/

theorem Checker.normalize_outside (ck : Checker) (p : Str) (habs : Path.isAbsolute p = true)
    (hout : ck.IsOutsideApp p) : (ck.normalizePathForWhitelist p).1 = [] := by
  have hp : p ≠ [] := by
    rintro rfl
    simp [Path.isAbsolute] at habs
  unfold Checker.normalizePathForWhitelist
  rw [if_neg hp]
  simp only [habs, if_true]
  have hout2 : (startsWith (backslashesToSlashes (Path.relative ck.cwd ck.appDir p)) ['.', '.', '/'] ||
      backslashesToSlashes (Path.relative ck.cwd ck.appDir p) == ['.', '.'] ||
      Path.isAbsolute (backslashesToSlashes (Path.relative ck.cwd ck.appDir p))) = true := by
    rcases relative_outside ck.cwd ck.appDir p hout with h | ⟨tl, h⟩
    · rw [h]; decide
    · rw [h]; simp [backslashesToSlashes, startsWith]
  rw [hout2]
  simp only [if_true]
  split <;> rfl

theorem Checker.normalize_outside_snd (ck : Checker) (p : Str) (habs : Path.isAbsolute p = true)
    (hout : ck.IsOutsideApp p) :
    (ck.normalizePathForWhitelist p).2 =
      if p ∈ ck.pathNormalizationWarnings then ck
      else { ck with pathNormalizationWarnings := setAdd ck.pathNormalizationWarnings p,
                     warnLog := ck.warnLog ++ [outsideWarning p] } := by
  have hp : p ≠ [] := by
    rintro rfl
    simp [Path.isAbsolute] at habs
  have hout2 : (startsWith (backslashesToSlashes (Path.relative ck.cwd ck.appDir p)) ['.', '.', '/'] ||
      backslashesToSlashes (Path.relative ck.cwd ck.appDir p) == ['.', '.'] ||
      Path.isAbsolute (backslashesToSlashes (Path.relative ck.cwd ck.appDir p))) = true := by
    rcases relative_outside ck.cwd ck.appDir p hout with h | ⟨tl, h⟩
    · rw [h]; decide
    · rw [h]; simp [backslashesToSlashes, startsWith]
  unfold Checker.normalizePathForWhitelist
  by_cases h4 : p ∈ ck.pathNormalizationWarnings
  · simp only [hp, habs, hout2, h4, if_true, if_false]
  · simp only [hp, habs, hout2, h4, if_true, if_false]

theorem Checker.normalize_snd_of_ne (ck : Checker) (p : Str)
    (h : (ck.normalizePathForWhitelist p).1 ≠ []) : (ck.normalizePathForWhitelist p).2 = ck := by
  unfold Checker.normalizePathForWhitelist at h ⊢
  by_cases h1 : p = []
  · simp [h1]
  · by_cases h2 : Path.isAbsolute p = true
    · by_cases h3 : (startsWith (backslashesToSlashes (Path.relative ck.cwd ck.appDir p)) ['.', '.', '/'] ||
          backslashesToSlashes (Path.relative ck.cwd ck.appDir p) == ['.', '.'] ||
          Path.isAbsolute (backslashesToSlashes (Path.relative ck.cwd ck.appDir p))) = true
      · by_cases h4 : p ∈ ck.pathNormalizationWarnings
        · simp only [h1, h2, h3, h4, if_true, if_false] at h ⊢
        · simp only [h1, h2, h3, h4, if_true, if_false] at h ⊢
          exact absurd rfl h
      · simp only [h1, h2, h3, if_true, if_false]
        simp
    · by_cases h5 : startsWith (backslashesToSlashes p) ['.', '/'] = true
      · simp only [h1, h2, h5, if_true, if_false]
        simp
      · simp only [h1, h2, h5, if_true, if_false]
        simp

theorem Checker.normalize_fst_congr (ck ck2 : Checker) (p : Str) (hc : ck2.cwd = ck.cwd)
    (ha : ck2.appDir = ck.appDir) :
    (ck2.normalizePathForWhitelist p).1 = (ck.normalizePathForWhitelist p).1 := by
  unfold Checker.normalizePathForWhitelist
  rw [hc, ha]
  by_cases h1 : p = []
  · simp [h1]
  · by_cases h2 : Path.isAbsolute p = true
    · by_cases h3 : (startsWith (backslashesToSlashes (Path.relative ck.cwd ck.appDir p)) ['.', '.', '/'] ||
          backslashesToSlashes (Path.relative ck.cwd ck.appDir p) == ['.', '.'] ||
          Path.isAbsolute (backslashesToSlashes (Path.relative ck.cwd ck.appDir p))) = true
      · by_cases h4 : p ∈ ck.pathNormalizationWarnings <;>
          by_cases h6 : p ∈ ck2.pathNormalizationWarnings <;>
          simp only [h1, h2, h3, h4, h6, if_true, if_false]
      · simp only [h1, h2, h3, if_true, if_false]
        simp
    · by_cases h5 : startsWith (backslashesToSlashes p) ['.', '/'] = true
      · simp only [h1, h2, h5, if_true, if_false]
        simp
      · simp only [h1, h2, h5, if_true, if_false]
        simp

theorem Checker.normalize_relative (ck : Checker) (p : Str) (hne : p ≠ [])
    (habs : Path.isAbsolute p = false) (hdot : startsWith (backslashesToSlashes p) ['.', '/'] = false) :
    (ck.normalizePathForWhitelist p).1 = backslashesToSlashes p := by
  unfold Checker.normalizePathForWhitelist
  simp only [hne, habs, hdot, if_false, Bool.false_eq_true]

theorem Checker.normalize_cache (ck : Checker) (p : Str) :
    (ck.normalizePathForWhitelist p).2.whitelistResultCache = ck.whitelistResultCache := by
  unfold Checker.normalizePathForWhitelist
  by_cases h1 : p = []
  · simp [h1]
  · by_cases h2 : Path.isAbsolute p = true
    · by_cases h3 : (startsWith (backslashesToSlashes (Path.relative ck.cwd ck.appDir p)) ['.', '.', '/'] ||
          backslashesToSlashes (Path.relative ck.cwd ck.appDir p) == ['.', '.'] ||
          Path.isAbsolute (backslashesToSlashes (Path.relative ck.cwd ck.appDir p))) = true
      · by_cases h4 : p ∈ ck.pathNormalizationWarnings <;>
          simp only [h1, h2, h3, h4, if_true, if_false]
      · simp only [h1, h2, h3, if_true, if_false]
        simp
    · by_cases h5 : startsWith (backslashesToSlashes p) ['.', '/'] = true
      · simp only [h1, h2, h5, if_true, if_false]
        simp
      · simp only [h1, h2, h5, if_true, if_false]
        simp

theorem Checker.normalize_sameMatchers (ck : Checker) (p : Str) :
    ck.SameMatchers (ck.normalizePathForWhitelist p).2 := by
  unfold Checker.normalizePathForWhitelist Checker.SameMatchers
  by_cases h1 : p = []
  · simp [h1]
  · by_cases h2 : Path.isAbsolute p = true
    · by_cases h3 : (startsWith (backslashesToSlashes (Path.relative ck.cwd ck.appDir p)) ['.', '.', '/'] ||
          backslashesToSlashes (Path.relative ck.cwd ck.appDir p) == ['.', '.'] ||
          Path.isAbsolute (backslashesToSlashes (Path.relative ck.cwd ck.appDir p))) = true
      · by_cases h4 : p ∈ ck.pathNormalizationWarnings <;>
          simp only [h1, h2, h3, h4, if_true, if_false, and_self]
      · simp only [h1, h2, h3, if_true, if_false]
        simp
    · by_cases h5 : startsWith (backslashesToSlashes p) ['.', '/'] = true
      · simp only [h1, h2, h5, if_true, if_false]
        simp
      · simp only [h1, h2, h5, if_true, if_false]
        simp

theorem Checker.isWhitelisted_fast (ck : Checker) (p : Str) (h : ¬ ck.HasMatchers) :
    ck.isWhitelisted p = (false, ck) := by
  unfold Checker.HasMatchers at h
  unfold Checker.isWhitelisted
  rw [if_pos (not_not.1 h)]

theorem Checker.isWhitelisted_outside (ck : Checker) (p : Str)
    (h : (ck.normalizePathForWhitelist p).1 = []) :
    ck.isWhitelisted p =
      (false, if ck.HasMatchers then (ck.normalizePathForWhitelist p).2 else ck) := by
  by_cases hm : ck.HasMatchers
  · rw [if_pos hm]
    unfold Checker.HasMatchers at hm
    unfold Checker.isWhitelisted
    rw [if_neg hm]
    simp only [h, if_true]
  · rw [if_neg hm]
    exact Checker.isWhitelisted_fast ck p hm

/-- What a query that reaches the cache or the matchers returns. -/
theorem Checker.isWhitelisted_inside (ck : Checker) (p : Str) (hm : ck.HasMatchers)
    (h : (ck.normalizePathForWhitelist p).1 ≠ []) :
    ck.isWhitelisted p =
      match mapGet ck.whitelistResultCache (ck.normalizePathForWhitelist p).1 with
      | some verdict => (verdict, ck)
      | none =>
        let v := decide ((ck.normalizePathForWhitelist p).1 ∈ ck.exactPaths) ||
          decide (Path.basename p ∈ ck.exactBasenames) ||
          ck.regexMatchers.any (fun m =>
            m.regex.test (ck.normalizePathForWhitelist p).1 || m.regex.test (Path.basename p))
        (v, { ck with whitelistResultCache :=
                mapSet ck.whitelistResultCache (ck.normalizePathForWhitelist p).1 v }) := by
  have h2 := Checker.normalize_snd_of_ne ck p h
  unfold Checker.HasMatchers at hm
  unfold Checker.isWhitelisted
  rw [if_neg hm]
  simp only [h, if_false, h2]
  cases hc : mapGet ck.whitelistResultCache (ck.normalizePathForWhitelist p).1 with
  | some v => rfl
  | none =>
    simp only
    by_cases h3 : (ck.normalizePathForWhitelist p).1 ∈ ck.exactPaths
    · simp [h3]
    · by_cases h4 : Path.basename p ∈ ck.exactBasenames
      · simp [h3, h4]
      · by_cases h5 : (ck.regexMatchers.any (fun m =>
            m.regex.test (ck.normalizePathForWhitelist p).1 || m.regex.test (Path.basename p))) = true
        · simp only [h3, h4, h5, if_true, if_false]
          simp
        · simp only [h3, h4, h5, if_true, if_false]
          simp only [Bool.not_eq_true] at h5
          simp [h5]

theorem Checker.isWhitelisted_cached (ck : Checker) (q k : Str) (v : Bool) (hm : ck.HasMatchers)
    (hn : (ck.normalizePathForWhitelist q).1 = k) (hk : k ≠ [])
    (hc : mapGet ck.whitelistResultCache k = some v) : ck.isWhitelisted q = (v, ck) := by
  subst hn
  rw [Checker.isWhitelisted_inside ck q hm hk, hc]

theorem Checker.isWhitelisted_after_set (ck : Checker) (q k : Str) (v : Bool) (hm : ck.HasMatchers)
    (hn : (ck.normalizePathForWhitelist q).1 = k) (hk : k ≠ []) :
    (Checker.isWhitelisted { ck with whitelistResultCache := mapSet ck.whitelistResultCache k v } q).1
      = v := by
  have hn2 := (Checker.normalize_fst_congr ck
    { ck with whitelistResultCache := mapSet ck.whitelistResultCache k v } q rfl rfl).trans hn
  have h := Checker.isWhitelisted_cached
    { ck with whitelistResultCache := mapSet ck.whitelistResultCache k v } q k v hm
    hn2 hk (mapGet_mapSet_self _ _ _)
  rw [h]

theorem Checker.isWhitelisted_then (ck : Checker) (p q : Str)
    (heq : (ck.normalizePathForWhitelist p).1 = (ck.normalizePathForWhitelist q).1)
    (hne : (ck.normalizePathForWhitelist p).1 ≠ []) :
    ((ck.isWhitelisted p).2.isWhitelisted q).1 = (ck.isWhitelisted p).1 := by
  by_cases hm : ck.HasMatchers
  · rw [Checker.isWhitelisted_inside ck p hm hne]
    cases hc : mapGet ck.whitelistResultCache (ck.normalizePathForWhitelist p).1 with
    | some v =>
      simp only
      rw [Checker.isWhitelisted_cached ck q _ v hm heq.symm hne hc]
    | none =>
      simp only
      exact Checker.isWhitelisted_after_set ck q _ _ hm heq.symm hne
  · simp only [Checker.isWhitelisted_fast ck _ hm]

theorem Checker.queryRepeatedly_warned (ck : Checker) (p : Str) (habs : Path.isAbsolute p = true)
    (hout : ck.IsOutsideApp p) (hw : p ∈ ck.pathNormalizationWarnings) (n : Nat) :
    ck.queryRepeatedly p n = (List.replicate n false, ck) := by
  induction n with
  | zero => rfl
  | succ n ih =>
    have h1 := Checker.isWhitelisted_outside ck p (Checker.normalize_outside ck p habs hout)
    have h2 := Checker.normalize_outside_snd ck p habs hout
    rw [if_pos hw] at h2
    rw [h2] at h1
    simp only [ite_self] at h1
    simp only [Checker.queryRepeatedly, h1, ih, List.replicate_succ]

theorem Checker.queryRepeatedly_fast (ck : Checker) (p : Str) (hm : ¬ ck.HasMatchers) (n : Nat) :
    ck.queryRepeatedly p n = (List.replicate n false, ck) := by
  induction n with
  | zero => rfl
  | succ n ih =>
    simp only [Checker.queryRepeatedly, Checker.isWhitelisted_fast ck p hm, ih, List.replicate_succ]

theorem Checker.isWhitelisted_sameMatchers (ck : Checker) (p : Str) :
    ck.SameMatchers (ck.isWhitelisted p).2 := by
  by_cases hm : ck.HasMatchers
  · by_cases hn : (ck.normalizePathForWhitelist p).1 = []
    · rw [Checker.isWhitelisted_outside ck p hn, if_pos hm]
      exact Checker.normalize_sameMatchers ck p
    · rw [Checker.isWhitelisted_inside ck p hm hn]
      cases mapGet ck.whitelistResultCache (ck.normalizePathForWhitelist p).1 with
      | some v => exact ⟨rfl, rfl, rfl, rfl, rfl⟩
      | none => exact ⟨rfl, rfl, rfl, rfl, rfl⟩
  · rw [Checker.isWhitelisted_fast ck p hm]
    exact ⟨rfl, rfl, rfl, rfl, rfl⟩

theorem Checker.afterQueries_sameMatchers (qs : List Str) :
    ∀ ck : Checker, ck.SameMatchers (ck.afterQueries qs) := by
  induction qs with
  | nil => intro ck; exact ⟨rfl, rfl, rfl, rfl, rfl⟩
  | cons q qs ih =>
    intro ck
    exact (Checker.isWhitelisted_sameMatchers ck q).trans (ih _)

theorem Checker.SameMatchers.hasMatchers {a b : Checker} (h : a.SameMatchers b) (hm : a.HasMatchers) :
    b.HasMatchers := by
  unfold Checker.HasMatchers at hm ⊢
  rw [← h.2.2.1, ← h.2.2.2.1, ← h.2.2.2.2]
  exact hm

theorem Checker.SameMatchers.normalize_eq {a b : Checker} (h : a.SameMatchers b) (p : Str) :
    (b.normalizePathForWhitelist p).1 = (a.normalizePathForWhitelist p).1 :=
  Checker.normalize_fst_congr a b p h.1.symm h.2.1.symm

theorem Checker.isWhitelisted_cacheSound (ck : Checker) (p : Str) (h : ck.CacheSound) :
    (ck.isWhitelisted p).2.CacheSound := by
  by_cases hm : ck.HasMatchers
  · by_cases hn : (ck.normalizePathForWhitelist p).1 = []
    · rw [Checker.isWhitelisted_outside ck p hn, if_pos hm]
      have hs := Checker.normalize_sameMatchers ck p
      intro k v hk hacc
      rw [Checker.normalize_cache] at hk
      rw [← hs.2.2.1, ← hs.2.2.2.2] at hacc
      exact h k v hk hacc
    · rw [Checker.isWhitelisted_inside ck p hm hn]
      cases hc : mapGet ck.whitelistResultCache (ck.normalizePathForWhitelist p).1 with
      | some v => exact h
      | none =>
        intro k v hk hacc
        simp only at hk hacc
        by_cases hkn : k = (ck.normalizePathForWhitelist p).1
        · subst hkn
          rw [mapGet_mapSet_self] at hk
          simp only [Option.some.injEq] at hk
          rw [← hk]
          rcases hacc with hacc | ⟨m, hm2, ht⟩
          · simp [hacc]
          · have : ck.regexMatchers.any (fun m =>
                m.regex.test (ck.normalizePathForWhitelist p).1 || m.regex.test (Path.basename p)) = true :=
              List.any_eq_true.2 ⟨m, hm2, by simp [ht]⟩
            simp [this]
        · rw [mapGet_mapSet_ne _ _ _ _ hkn] at hk
          exact h k v hk hacc
  · rw [Checker.isWhitelisted_fast ck p hm]
    exact h

theorem Checker.afterQueries_cacheSound (qs : List Str) :
    ∀ ck : Checker, ck.CacheSound → (ck.afterQueries qs).CacheSound := by
  induction qs with
  | nil => intro ck h; exact h
  | cons q qs ih => intro ck h; exact ih _ (Checker.isWhitelisted_cacheSound ck q h)

/-- A path that some compiled regex accepts in normalized form is whitelisted
in every state whose cache is sound. -/
theorem Checker.isWhitelisted_of_regex (ck : Checker) (p : Str) (hs : ck.CacheSound)
    (hn : (ck.normalizePathForWhitelist p).1 ≠ [])
    (hacc : ∃ m ∈ ck.regexMatchers, m.regex.test (ck.normalizePathForWhitelist p).1 = true) :
    (ck.isWhitelisted p).1 = true := by
  obtain ⟨m, hm, ht⟩ := hacc
  have hhas : ck.HasMatchers := by
    unfold Checker.HasMatchers
    intro h
    have h2 := h.2.2
    rw [List.length_eq_zero] at h2
    rw [h2] at hm
    simp at hm
  rw [Checker.isWhitelisted_inside ck p hhas hn]
  cases hc : mapGet ck.whitelistResultCache (ck.normalizePathForWhitelist p).1 with
  | some v => exact hs _ v hc (Or.inr ⟨m, hm, ht⟩)
  | none =>
    have : ck.regexMatchers.any (fun m =>
        m.regex.test (ck.normalizePathForWhitelist p).1 || m.regex.test (Path.basename p)) = true :=
      List.any_eq_true.2 ⟨m, hm, by simp [ht]⟩
    simp [this]

/-! ## Compiling the whitelist -/

theorem foldl_stable {α β : Type} (step : β → α → β) (Q : β → Prop)
    (hs : ∀ c y, Q c → Q (step c y)) : ∀ (l : List α) (init : β), Q init → Q (l.foldl step init) := by
  intro l
  induction l with
  | nil => intro init h; exact h
  | cons y l ih => intro init h; exact ih _ (hs _ _ h)

theorem foldl_establish {α β : Type} (step : β → α → β) (Q : β → Prop) (x : α)
    (hx : ∀ c, Q (step c x)) (hs : ∀ c y, Q c → Q (step c y)) :
    ∀ (l : List α) (init : β), x ∈ l → Q (l.foldl step init) := by
  intro l
  induction l with
  | nil => intro init h; simp at h
  | cons y l ih =>
    intro init h
    rcases List.mem_cons.1 h with rfl | h
    · exact foldl_stable step Q hs l _ (hx init)
    · exact ih _ h

/-- The five ways `processWhitelistPattern` can change the checker. -/
theorem Checker.processWhitelistPattern_cases (ck : Checker) (np : Str) :
    ck.processWhitelistPattern np = { ck with exactPaths := setAdd ck.exactPaths np } ∨
    ck.processWhitelistPattern np = { ck with exactBasenames := setAdd ck.exactBasenames np } ∨
    (buildWhitelistRegex np = .ok none ∧ ck.processWhitelistPattern np = ck) ∨
    (∃ r, buildWhitelistRegex np = .ok (some r) ∧ ck.processWhitelistPattern np =
      { ck with regexMatchers := ck.regexMatchers ++ [{ sourcePattern := np, regex := r }] }) ∨
    (∃ msg, buildWhitelistRegex np = .error msg ∧ ck.processWhitelistPattern np =
      { ck with invalidWhitelistPatterns :=
          ck.invalidWhitelistPatterns ++ [{ pattern := np, reason := msg }] }) := by
  unfold Checker.processWhitelistPattern
  simp only
  split
  · split
    · exact Or.inl rfl
    · exact Or.inr (Or.inl rfl)
  · cases h : buildWhitelistRegex np with
    | error msg => exact Or.inr (Or.inr (Or.inr (Or.inr ⟨msg, rfl, rfl⟩)))
    | ok o =>
      cases o with
      | none => exact Or.inr (Or.inr (Or.inl ⟨rfl, rfl⟩))
      | some r => exact Or.inr (Or.inr (Or.inr (Or.inl ⟨r, rfl, rfl⟩)))

/-- A compile step keeps the directories and only adds matchers and invalid patterns. -/
theorem Checker.compileStep_grows (ck : Checker) (x : Str) :
    (ck.compileStep x).cwd = ck.cwd ∧ (ck.compileStep x).appDir = ck.appDir ∧
    (∀ e ∈ ck.exactPaths, e ∈ (ck.compileStep x).exactPaths) ∧
    (∀ e ∈ ck.exactBasenames, e ∈ (ck.compileStep x).exactBasenames) ∧
    (∀ e ∈ ck.regexMatchers, e ∈ (ck.compileStep x).regexMatchers) ∧
    (∀ e ∈ ck.invalidWhitelistPatterns, e ∈ (ck.compileStep x).invalidWhitelistPatterns) ∧
    (ck.compileStep x).whitelistResultCache = ck.whitelistResultCache := by
  unfold Checker.compileStep
  split
  · simp
  · rcases Checker.processWhitelistPattern_cases ck (backslashesToSlashes (trim x)) with
      h | h | ⟨_, h⟩ | ⟨r, _, h⟩ | ⟨msg, _, h⟩ <;> rw [h]
    · exact ⟨rfl, rfl, fun e he => mem_setAdd_of_mem he, fun e he => he, fun e he => he,
        fun e he => he, rfl⟩
    · exact ⟨rfl, rfl, fun e he => he, fun e he => mem_setAdd_of_mem he, fun e he => he,
        fun e he => he, rfl⟩
    · simp
    · exact ⟨rfl, rfl, fun e he => he, fun e he => he, fun e he => by simp [he],
        fun e he => he, rfl⟩
    · exact ⟨rfl, rfl, fun e he => he, fun e he => he, fun e he => he,
        fun e he => by simp [he], rfl⟩

theorem Checker.compile_cache (ck : Checker) : ck.compileWhitelistMatchers.whitelistResultCache = [] := by
  unfold Checker.compileWhitelistMatchers
  exact foldl_stable Checker.compileStep (fun c => c.whitelistResultCache = [])
    (fun c y h => by
      show (c.compileStep y).whitelistResultCache = []
      rw [(Checker.compileStep_grows c y).2.2.2.2.2.2]; exact h) _ _ rfl

theorem Checker.compile_dirs (ck : Checker) :
    ck.compileWhitelistMatchers.cwd = ck.cwd ∧ ck.compileWhitelistMatchers.appDir = ck.appDir := by
  unfold Checker.compileWhitelistMatchers
  exact foldl_stable Checker.compileStep (fun c => c.cwd = ck.cwd ∧ c.appDir = ck.appDir)
    (fun c y h => by
      show (c.compileStep y).cwd = ck.cwd ∧ (c.compileStep y).appDir = ck.appDir
      rw [(Checker.compileStep_grows c y).1, (Checker.compileStep_grows c y).2.1]; exact h)
    _ _ ⟨rfl, rfl⟩

theorem Checker.compile_cacheSound (ck : Checker) : ck.compileWhitelistMatchers.CacheSound := by
  intro k v hk
  rw [Checker.compile_cache] at hk
  simp [mapGet] at hk

/-- Every compiled regex matcher comes from a pattern that `buildWhitelistRegex` accepts. -/
theorem Checker.compile_matchers_built (ck : Checker) :
    ∀ m ∈ ck.compileWhitelistMatchers.regexMatchers,
      buildWhitelistRegex m.sourcePattern = .ok (some m.regex) := by
  unfold Checker.compileWhitelistMatchers
  refine foldl_stable Checker.compileStep
    (fun c => ∀ m ∈ c.regexMatchers, buildWhitelistRegex m.sourcePattern = .ok (some m.regex))
    ?_ _ _ ?_
  · intro c y h
    show ∀ m ∈ (c.compileStep y).regexMatchers, buildWhitelistRegex m.sourcePattern = .ok (some m.regex)
    unfold Checker.compileStep
    split
    · exact h
    · rcases Checker.processWhitelistPattern_cases c (backslashesToSlashes (trim y)) with
        h2 | h2 | ⟨_, h2⟩ | ⟨r, hr, h2⟩ | ⟨msg, _, h2⟩ <;> rw [h2]
      · exact h
      · exact h
      · exact h
      · intro m hm
        simp only [List.mem_append, List.mem_singleton] at hm
        rcases hm with hm | rfl
        · exact h m hm
        · exact hr
      · exact h
  · intro m hm
    simp [Checker.resetWhitelistMatchers] at hm

theorem IsBasenameLiteral.process {np : Str} (h : IsBasenameLiteral np) (ck : Checker) :
    ck.processWhitelistPattern np = { ck with exactBasenames := setAdd ck.exactBasenames np } := by
  obtain ⟨hch, hre⟩ := h
  have hlit : regexLiteralMatch np = none := by
    cases np with
    | nil => rfl
    | cons c t =>
      have hc := (hch c (by simp)).1
      simp [regexLiteralMatch, hc]
  have hglob : np.any (fun d => d == '*' || d == '?') = false := by
    rw [List.any_eq_false]
    intro d hd
    have := hch d hd
    simp [this.2.1, this.2.2]
  have hfolder : endsWith np ['/'] = false := endsWith_slash_false (fun d hd => (hch d hd).1)
  have hsep : np.contains '/' = false := by
    rw [List.contains_eq_any_beq, List.any_eq_false]
    intro d hd
    have := (hch d hd).1
    intro h2
    exact this (beq_iff_eq.1 h2).symm
  unfold Checker.processWhitelistPattern
  simp only [hre, hlit, hglob, hfolder, hsep, Option.isSome_none, Bool.or_self, Bool.not_false,
    Bool.and_self, if_true, Bool.false_eq_true, if_false]

theorem IsBasenameLiteral.compileStep_adds {b : Str} (hne : b ≠ [])
    (h : IsBasenameLiteral (backslashesToSlashes (trim b))) (ck : Checker) :
    ck.compileStep b =
      { ck with exactBasenames := setAdd ck.exactBasenames (backslashesToSlashes (trim b)) } := by
  have hcomment : startsWith (trim b) ['/', '/'] = false :=
    not_comment_of_head (fun c hc => (h.1 c (List.mem_of_mem_head? hc)).1)
  unfold Checker.compileStep
  rw [hcomment]
  simp only [hne, Bool.false_eq_true, or_self, if_false]
  exact h.process ck

theorem Checker.compile_has_basename (ck : Checker) (b : Str) (hb : b ∈ ck.getAllWhitelistPatterns)
    (hne : b ≠ []) (hlit : IsBasenameLiteral (backslashesToSlashes (trim b))) :
    backslashesToSlashes (trim b) ∈ ck.compileWhitelistMatchers.exactBasenames := by
  unfold Checker.compileWhitelistMatchers
  refine foldl_establish Checker.compileStep
    (fun c => backslashesToSlashes (trim b) ∈ c.exactBasenames) b ?_ ?_ _ _ hb
  · intro c
    show backslashesToSlashes (trim b) ∈ (c.compileStep b).exactBasenames
    rw [IsBasenameLiteral.compileStep_adds hne hlit c]
    exact mem_setAdd_self _ _
  · intro c y h
    exact (Checker.compileStep_grows c y).2.2.2.1 _ h

theorem buildWhitelistRegex_rejected {np body msg : Str} (hs : IsRegexPatternWithBody np body)
    (ht : trim np = np) (hv : validateRegexSafety body = .error msg) :
    buildWhitelistRegex np = .error msg := by
  unfold buildWhitelistRegex
  simp only [ht]
  rcases hs with rfl | ⟨flags, rfl, hf, hb⟩
  · have h1 : ("regex:".toList ++ body) ≠ [] := by simp
    have h2 : startsWith ("regex:".toList ++ body) "regex:".toList = true := by
      simp [startsWith]
    have h3 : ("regex:".toList ++ body).drop 6 = body := by simp
    rw [if_neg h1, h2]
    simp only [if_true, h3, hv]
  · have h1 : ('/' :: body ++ '/' :: flags) ≠ [] := by simp
    have hre : startsWith ('/' :: body ++ '/' :: flags) "regex:".toList = false := by
      simp [startsWith, List.isPrefixOf]
    rw [if_neg h1, hre]
    simp only [Bool.false_eq_true, if_false, regexLiteralMatch_of_parts body flags hf hb, hv]

theorem Checker.processWhitelistPattern_rejected (ck : Checker) {np body msg : Str}
    (hs : IsRegexPatternWithBody np body) (hb : buildWhitelistRegex np = .error msg) :
    ck.processWhitelistPattern np =
      { ck with invalidWhitelistPatterns :=
          ck.invalidWhitelistPatterns ++ [{ pattern := np, reason := msg }] } := by
  have hre : (startsWith np "regex:".toList || (regexLiteralMatch np).isSome) = true := by
    rcases hs with rfl | ⟨flags, rfl, hf, hbody⟩
    · simp [startsWith]
    · rw [regexLiteralMatch_of_parts body flags hf hbody]
      simp
  unfold Checker.processWhitelistPattern
  simp only [hre, Bool.not_true, Bool.false_and, Bool.false_eq_true, if_false, hb]

theorem IsFolderPattern.ne_nil {f : Str} (h : IsFolderPattern f) : f ≠ [] := by
  rintro rfl
  have := h.1
  simp [endsWith] at this

theorem IsFolderPattern.build {f : Str} (h : IsFolderPattern f) (htrim : trim f = f) :
    buildWhitelistRegex f = .ok (some (globRe (f ++ ['*', '*']))) := by
  have hne := h.ne_nil
  obtain ⟨hend, hre, hlit, -, -⟩ := h
  unfold buildWhitelistRegex
  simp only [htrim, hne, if_false, hre, Bool.false_eq_true, hlit, hend, if_true]
  unfold newRegExp
  rw [compile_glob]
  rfl

theorem IsFolderPattern.compileStep_eq {p : Str} (hne : p ≠ [])
    (h : IsFolderPattern (backslashesToSlashes (trim p))) (ck : Checker) :
    ck.compileStep p =
      { ck with regexMatchers :=
          ck.regexMatchers ++ [{ sourcePattern := backslashesToSlashes (trim p),
                                 regex := globRe (backslashesToSlashes (trim p) ++ ['*', '*']) }] } := by
  have hbuild := h.build (trim_normalized p)
  have hcomment : startsWith (trim p) ['/', '/'] = false := by
    apply not_comment_of_head
    intro c hc hslash
    subst hslash
    have habs := h.2.2.2.1
    cases hnp : backslashesToSlashes (trim p) with
    | nil => rw [hnp] at hc; simp at hc
    | cons d t =>
      rw [hnp] at hc habs
      simp only [List.head?_cons, Option.some.injEq] at hc
      subst hc
      simp [Path.isAbsolute] at habs
  unfold Checker.compileStep
  rw [hcomment]
  simp only [hne, Bool.false_eq_true, or_self, if_false]
  unfold Checker.processWhitelistPattern
  simp only [h.1, Bool.not_true, Bool.and_false, Bool.false_eq_true, if_false, hbuild]

theorem Checker.compile_has_folder (ck : Checker) (p : Str) (hp : p ∈ ck.getAllWhitelistPatterns)
    (hne : p ≠ []) (h : IsFolderPattern (backslashesToSlashes (trim p))) :
    ∃ m ∈ ck.compileWhitelistMatchers.regexMatchers,
      m.regex = globRe (backslashesToSlashes (trim p) ++ ['*', '*']) := by
  unfold Checker.compileWhitelistMatchers
  refine foldl_establish Checker.compileStep
    (fun c => ∃ m ∈ c.regexMatchers, m.regex = globRe (backslashesToSlashes (trim p) ++ ['*', '*']))
    p ?_ ?_ _ _ hp
  · intro c
    show ∃ m ∈ (c.compileStep p).regexMatchers,
      m.regex = globRe (backslashesToSlashes (trim p) ++ ['*', '*'])
    rw [IsFolderPattern.compileStep_eq hne h c]
    exact ⟨{ sourcePattern := backslashesToSlashes (trim p),
             regex := globRe (backslashesToSlashes (trim p) ++ ['*', '*']) }, by simp, rfl⟩
  · rintro c y ⟨m, hm, hr⟩
    exact ⟨m, (Checker.compileStep_grows c y).2.2.2.2.1 m hm, hr⟩

theorem IsFolderPattern.normalize_append {f : Str} (h : IsFolderPattern f)
    (hbs : ∀ c ∈ f, c ≠ '\\') (ck : Checker) (rest : Str) :
    (ck.normalizePathForWhitelist (f ++ rest)).1 = f ++ backslashesToSlashes rest := by
  have hne := h.ne_nil
  obtain ⟨hend, -, -, habs, hdot⟩ := h
  obtain ⟨c, t, rfl⟩ := List.exists_cons_of_ne_nil hne
  have hb2s : backslashesToSlashes (c :: t ++ rest) = c :: t ++ backslashesToSlashes rest := by
    rw [backslashesToSlashes_append, backslashesToSlashes_id hbs]
  rw [Checker.normalize_relative ck _ (by simp) (by simpa [Path.isAbsolute] using habs), hb2s]
  rw [hb2s]
  cases t with
  | nil =>
    have hc : c = '/' := by
      have h2 : '/' = c := by simpa [endsWith] using hend
      exact h2.symm
    subst hc
    simp [Path.isAbsolute] at habs
  | cons d t =>
    simp only [startsWith, List.isPrefixOf, Bool.and_true, Bool.and_eq_false_imp, beq_iff_eq,
      List.cons_append] at hdot ⊢
    exact hdot

/-! ## Asset usage -/

/-- For an asset file the path relative to the source directory ends in the
file name. -/
theorem Checker.IsAssetFile.relative_suffix {ck : Checker} {assetPath : Str}
    (h : ck.IsAssetFile assetPath) :
    Path.basename assetPath <:+ Path.relative ck.cwd ck.srcDir assetPath := by
  obtain ⟨segs, rfl, hnorm, hpre, -⟩ := h
  have hne : segs ≠ [] := by
    rintro rfl
    exact hpre List.nil_prefix
  have hneq : ck.srcDir ≠ absPath segs := by
    intro heq
    apply hpre
    rw [heq, resolveSegs_absPath hnorm]
  unfold Path.relative
  rw [if_neg hneq, resolveSegs_absPath hnorm, basename_absPath hnorm hne]
  simp only
  have h2 := dropCommon_snd_ne_nil (Path.resolveSegs ck.cwd ck.srcDir) segs hpre
  have h3 := dropCommon_snd_suffix (Path.resolveSegs ck.cwd ck.srcDir) segs
  generalize (dropCommon (Path.resolveSegs ck.cwd ck.srcDir) segs) = d at h2 h3
  have hl : segs.getLast hne = (d.1.map (fun _ => ['.', '.']) ++ d.2).getLast (by simp [h2]) := by
    have e1 : segs.getLast? = d.2.getLast? := by
      obtain ⟨t, ht⟩ := h3
      rw [← ht]
      exact List.getLast?_append_of_ne_nil t h2
    have e2 : (d.1.map (fun _ => ['.', '.']) ++ d.2).getLast? = d.2.getLast? :=
      List.getLast?_append_of_ne_nil _ h2
    rw [List.getLast?_eq_getLast segs hne] at e1
    rw [List.getLast?_eq_getLast _ (by simp [h2]), ← e1] at e2
    exact (Option.some.inj e2).symm
  rw [hl]
  exact joinSlash_suffix _ _

/-- Every string `isAssetUsed` searches for contains the extension-less name. -/
theorem Checker.IsAssetFile.name_in_patterns {ck : Checker} {assetPath : Str}
    (h : ck.IsAssetFile assetPath) :
    ∀ pat ∈ ck.searchPatterns assetPath,
      Path.basenameExt assetPath (Path.extname assetPath) <:+: pat := by
  have hname : Path.basenameExt assetPath (Path.extname assetPath) <:+: Path.basename assetPath :=
    (basenameExt_extname_initial assetPath).isInfix
  have hrel : Path.basename assetPath <:+ Path.relative ck.cwd ck.srcDir assetPath :=
    h.relative_suffix
  have hnobs : ∀ c ∈ Path.basename assetPath, c ≠ '\\' := by
    obtain ⟨_, _, _, _, hb⟩ := h
    exact hb
  have hnrel : Path.basename assetPath <:+
      backslashesToSlashes (Path.relative ck.cwd ck.srcDir assetPath) := by
    obtain ⟨t, ht⟩ := hrel
    rw [← ht, backslashesToSlashes_append, backslashesToSlashes_id hnobs]
    exact List.suffix_append _ _
  intro pat hpat
  simp only [Checker.searchPatterns, List.mem_cons, List.mem_singleton, List.not_mem_nil,
    or_false] at hpat
  rcases hpat with rfl | rfl | rfl | rfl | rfl | rfl | rfl | rfl
  · exact hname
  · exact List.infix_refl _
  · exact hname.trans hrel.isInfix
  · exact hname.trans hnrel.isInfix
  · exact hname.trans (hnrel.isInfix.trans (List.suffix_append _ _).isInfix)
  · exact hname.trans (hnrel.isInfix.trans (List.suffix_append _ _).isInfix)
  · exact hname.trans (hnrel.isInfix.trans (List.suffix_append _ _).isInfix)
  · exact hname.trans (hnrel.isInfix.trans (List.suffix_append _ _).isInfix)

/-- For an asset file `isAssetUsed` is the substring test for the extension-less name. -/
theorem Checker.isAssetUsed_eq (ck : Checker) (assetPath : Str) (h : ck.IsAssetFile assetPath) :
    ck.isAssetUsed assetPath =
      .ok (ck.sourceContents.any (fun content =>
        includes content (Path.basenameExt assetPath (Path.extname assetPath)))) := by
  unfold Checker.isAssetUsed newRegExp
  simp only [compile_dynamicImport]
  congr 1
  apply congrArg
  funext content
  rw [Bool.eq_iff_iff]
  simp only [Bool.or_eq_true, List.any_eq_true]
  constructor
  · rintro (⟨pat, hpat, hinc⟩ | ht)
    · exact includes_of_infix hinc (h.name_in_patterns pat hpat)
    · exact dynamicImportRe_test ht
  · intro hinc
    exact Or.inl ⟨_, by simp [Checker.searchPatterns], hinc⟩

/-! ## Counting regex evaluations -/

theorem regexLoopCounting_fst (np b : Str) (ms : List RegexMatcher) :
    (regexLoopCounting np b ms).1 = ms.any (fun m => m.regex.test np || m.regex.test b) := by
  induction ms with
  | nil => rfl
  | cons m ms ih =>
    simp only [regexLoopCounting, List.any_cons]
    by_cases h1 : m.regex.test np = true
    · simp [h1]
    · by_cases h2 : m.regex.test b = true
      · simp [h1, h2]
      · simp [h1, h2, ih]

theorem Checker.isWhitelistedCounting_fst (ck : Checker) (p : Str) :
    (ck.isWhitelistedCounting p).1 = ck.isWhitelisted p := by
  unfold Checker.isWhitelistedCounting Checker.isWhitelisted
  split
  · rfl
  · simp only
    split
    · rfl
    · split
      · rfl
      · simp only [regexLoopCounting_fst]
        split
        · rfl
        · split
          · rfl
          · split <;> rfl

theorem Checker.isWhitelistedCounting_fast (ck : Checker) (p : Str) (h : ¬ ck.HasMatchers) :
    (ck.isWhitelistedCounting p).2 = 0 := by
  unfold Checker.isWhitelistedCounting
  rw [if_pos (by unfold Checker.HasMatchers at h; exact not_not.1 h)]

theorem Checker.isWhitelistedCounting_outside (ck : Checker) (p : Str)
    (h : (ck.normalizePathForWhitelist p).1 = []) : (ck.isWhitelistedCounting p).2 = 0 := by
  unfold Checker.isWhitelistedCounting
  split
  · rfl
  · simp only [h, if_true]

theorem Checker.isWhitelistedCounting_cached (ck : Checker) (p : Str) (v : Bool)
    (hc : mapGet (ck.normalizePathForWhitelist p).2.whitelistResultCache
      (ck.normalizePathForWhitelist p).1 = some v) : (ck.isWhitelistedCounting p).2 = 0 := by
  unfold Checker.isWhitelistedCounting
  split
  · rfl
  · simp only
    split
    · rfl
    · rw [hc]


theorem Checker.isWhitelistedCounting_after_set (ck : Checker) (q k : Str) (v : Bool)
    (hn : (ck.normalizePathForWhitelist q).1 = k) (hk : k ≠ []) :
    (Checker.isWhitelistedCounting
      { ck with whitelistResultCache := mapSet ck.whitelistResultCache k v } q).2 = 0 := by
  have hn2 : (Checker.normalizePathForWhitelist
      { ck with whitelistResultCache := mapSet ck.whitelistResultCache k v } q).1 = k :=
    (Checker.normalize_fst_congr ck
      { ck with whitelistResultCache := mapSet ck.whitelistResultCache k v } q rfl rfl).trans hn
  apply Checker.isWhitelistedCounting_cached _ q v
  rw [Checker.normalize_snd_of_ne _ q (by rw [hn2]; exact hk), hn2]
  exact mapGet_mapSet_self _ _ _

theorem Checker.isWhitelisted_repeat_second (ck : Checker) (p : Str) :
    ((ck.isWhitelisted p).2.isWhitelisted p).1 = (ck.isWhitelisted p).1 ∧
      ((ck.isWhitelisted p).2.isWhitelistedCounting p).2 = 0 := by
  by_cases hm : ck.HasMatchers
  · by_cases hn : (ck.normalizePathForWhitelist p).1 = []
    · rw [Checker.isWhitelisted_outside ck p hn, if_pos hm]
      have hs := Checker.normalize_sameMatchers ck p
      have hn2 : ((ck.normalizePathForWhitelist p).2.normalizePathForWhitelist p).1 = [] := by
        rw [hs.normalize_eq p]; exact hn
      refine ⟨?_, Checker.isWhitelistedCounting_outside _ p hn2⟩
      rw [Checker.isWhitelisted_outside _ p hn2]
    · refine ⟨Checker.isWhitelisted_then ck p p rfl hn, ?_⟩
      rw [Checker.isWhitelisted_inside ck p hm hn]
      cases hc : mapGet ck.whitelistResultCache (ck.normalizePathForWhitelist p).1 with
      | some v =>
        simp only
        apply Checker.isWhitelistedCounting_cached ck p v
        rw [Checker.normalize_snd_of_ne ck p hn]
        exact hc
      | none =>
        simp only
        exact Checker.isWhitelistedCounting_after_set ck p _ _ rfl hn
  · simp only [Checker.isWhitelisted_fast ck p hm]
    exact ⟨trivial, Checker.isWhitelistedCounting_fast ck p hm⟩

/-! ## Glob semantics -/

theorem classTest_not_slash (c : Char) : classTest true [.single '/'] c = true ↔ c ≠ '/' := by
  simp [classTest, ClassItem.test]

theorem GlobTok.re_matches_iff (tok : GlobTok) (pre w suf : Str) :
    tok.re.Matches pre w suf ↔ tok.Accepts false w := by
  cases tok with
  | globstar =>
    constructor
    · intro h; exact Or.inr (Re.Matches.star_any_inv h rfl)
    · intro h
      rcases h with h | h
      · cases h
      · exact Re.Matches.star_any w pre suf h
  | star =>
    constructor
    · intro h c hc
      exact (classTest_not_slash c).1 (Re.Matches.star_cls_inv h rfl c hc)
    · intro h
      exact Re.Matches.star_cls _ _ w pre suf (fun c hc => (classTest_not_slash c).2 (h c hc))
  | qmark =>
    constructor
    · intro h
      cases h with
      | cls _ _ c _ _ hc => exact ⟨c, rfl, (classTest_not_slash c).1 hc⟩
    · rintro ⟨c, rfl, hc⟩
      exact .cls _ _ _ _ _ ((classTest_not_slash c).2 hc)
  | lit a =>
    constructor
    · intro h
      cases h
      rfl
    · intro h
      cases h
      exact .chr _ _ _

theorem globTokens_cat_iff (toks : List GlobTok) :
    ∀ pre w suf : Str, (Re.cat (toks.map GlobTok.re ++ [.eol false])).Matches pre w suf ↔
      suf = [] ∧ ∃ pieces : List Str,
        List.Forall₂ (GlobTok.Accepts false) toks pieces ∧ w = pieces.flatten := by
  induction toks with
  | nil =>
    intro pre w suf
    simp only [List.map_nil, List.nil_append, Re.cat]
    constructor
    · intro h
      cases h with
      | eol _ _ _ he =>
        cases suf with
        | nil => exact ⟨rfl, [], .nil, rfl⟩
        | cons c t => simp [atLineEnd] at he
    · rintro ⟨rfl, pieces, hp, rfl⟩
      cases hp
      exact .eol _ _ _ rfl
  | cons tok toks ih =>
    intro pre w suf
    simp only [List.map_cons, List.cons_append]
    constructor
    · intro h
      obtain ⟨w1, w2, rfl, h1, h2⟩ := Re.Matches.cat_cons_inv h
      obtain ⟨hs, pieces, hp, rfl⟩ := (ih _ _ _).1 h2
      exact ⟨hs, w1 :: pieces, .cons ((GlobTok.re_matches_iff tok _ _ _).1 h1) hp, rfl⟩
    · rintro ⟨rfl, pieces, hp, rfl⟩
      cases hp with
      | @cons _ p _ ps h1 h2 =>
        simp only [List.flatten_cons]
        exact Re.Matches.cat_cons p ps.flatten ((GlobTok.re_matches_iff tok _ _ _).2 h1)
          ((ih _ _ _).2 ⟨rfl, ps, h2, rfl⟩)

theorem globRe_test_iff (g s : Str) : (globRe g).test s = true ↔ GlobMatches false g s := by
  rw [Re.test_iff]
  unfold globRe GlobMatches
  constructor
  · rintro ⟨l, w, suf, rfl, h⟩
    obtain ⟨w1, w2, rfl, h1, h2⟩ := Re.Matches.cat_cons_inv h
    cases h1 with
    | bol _ _ _ hb =>
      obtain ⟨rfl, pieces, hp, rfl⟩ := (globTokens_cat_iff _ _ _ _).1 h2
      cases l with
      | nil => exact ⟨pieces, hp, by simp⟩
      | cons c t =>
        exfalso
        cases hr : (c :: t).reverse with
        | nil => simp at hr
        | cons d u =>
          rw [hr] at hb
          simp [atLineStart] at hb
  · rintro ⟨pieces, hp, rfl⟩
    refine ⟨[], pieces.flatten, [], by simp, ?_⟩
    have h2 := (globTokens_cat_iff (globTokens g) [] pieces.flatten []).2 ⟨rfl, pieces, hp, rfl⟩
    have h3 := Re.Matches.cat_cons (a := .bol false) [] pieces.flatten (.bol false [] _ rfl)
      (by simpa using h2)
    simpa using h3

theorem buildWhitelistRegex_glob (g : Str) (hne : g ≠ []) (htrim : trim g = g)
    (hre : startsWith g "regex:".toList = false) (hlit : regexLiteralMatch g = none) :
    buildWhitelistRegex g =
      .ok (some (globRe (if endsWith g ['/'] then g ++ ['*', '*'] else g))) := by
  unfold buildWhitelistRegex
  simp only [htrim, hne, hre, hlit, if_false, Bool.false_eq_true]
  unfold newRegExp
  rw [compile_glob]
  by_cases h : endsWith g ['/'] = true
  · simp [h, Except.map]
  · simp [h, Except.map]

/-! ## Verdicts that depend on the normalized path only -/

theorem any_congr_mem {α : Type} (l : List α) (f g : α → Bool) (h : ∀ x ∈ l, f x = g x) :
    l.any f = l.any g := by
  induction l with
  | nil => rfl
  | cons a t ih =>
    rw [List.any_cons, List.any_cons, h a (by simp), ih (fun x hx => h x (by simp [hx]))]

theorem basename_no_slash (p : Str) : ∀ c ∈ Path.basename p, c ≠ '/' := by
  intro c hc
  unfold Path.basename at hc
  rw [List.mem_reverse] at hc
  have := List.mem_takeWhile_imp hc
  simpa using this

theorem Checker.NoBasenameMatch.of_same {a b : Checker} (h : a.SameMatchers b)
    (hn : a.NoBasenameMatch) : b.NoBasenameMatch := by
  obtain ⟨_, _, _, h4, h5⟩ := h
  unfold Checker.NoBasenameMatch
  rw [← h4, ← h5]
  exact hn

theorem Checker.pathVerdict_same {a b : Checker} (h : a.SameMatchers b) (k : Str) :
    b.pathVerdict k = a.pathVerdict k := by
  obtain ⟨_, _, h3, _, h5⟩ := h
  unfold Checker.pathVerdict
  rw [h3, h5]

theorem Checker.isWhitelisted_exact (ck : Checker) (p : Str) (hm : ck.HasMatchers)
    (hb : ck.NoBasenameMatch) (hc : ck.CacheExact) :
    (ck.isWhitelisted p).1 =
        (decide ((ck.normalizePathForWhitelist p).1 ≠ []) &&
          ck.pathVerdict (ck.normalizePathForWhitelist p).1) ∧
      (ck.isWhitelisted p).2.CacheExact := by
  by_cases hn : (ck.normalizePathForWhitelist p).1 = []
  · rw [Checker.isWhitelisted_outside ck p hn, if_pos hm]
    refine ⟨by simp [hn], ?_⟩
    intro k v hk
    rw [Checker.normalize_cache] at hk
    rw [Checker.pathVerdict_same (Checker.normalize_sameMatchers ck p)]
    exact hc k v hk
  · rw [Checker.isWhitelisted_inside ck p hm hn]
    have hbn : decide (Path.basename p ∈ ck.exactBasenames) = false := by
      rw [hb.1]; simp
    have hany : ck.regexMatchers.any (fun m =>
        m.regex.test (ck.normalizePathForWhitelist p).1 || m.regex.test (Path.basename p)) =
        ck.regexMatchers.any (fun m => m.regex.test (ck.normalizePathForWhitelist p).1) := by
      apply any_congr_mem
      intro m hm2
      rw [hb.2 m hm2 _ (basename_no_slash p)]
      simp
    cases hg : mapGet ck.whitelistResultCache (ck.normalizePathForWhitelist p).1 with
    | some v =>
      simp only
      exact ⟨by rw [hc _ _ hg]; simp [hn], hc⟩
    | none =>
      simp only [hbn, hany, Bool.or_false]
      refine ⟨by simp [hn, Checker.pathVerdict], ?_⟩
      intro k v hk
      simp only at hk
      by_cases hkk : k = (ck.normalizePathForWhitelist p).1
      · subst hkk
        rw [mapGet_mapSet_self] at hk
        cases hk
        rfl
      · rw [mapGet_mapSet_ne _ _ _ _ hkk] at hk
        exact hc k v hk


theorem Checker.afterQueries_exact (qs : List Str) :
    ∀ ck : Checker, ck.HasMatchers → ck.NoBasenameMatch → ck.CacheExact →
      (ck.afterQueries qs).CacheExact := by
  induction qs with
  | nil => intro ck _ _ hc; exact hc
  | cons q qs ih =>
    intro ck hm hb hc
    have hs := Checker.isWhitelisted_sameMatchers ck q
    exact ih _ (hs.hasMatchers hm) (hb.of_same hs) (Checker.isWhitelisted_exact ck q hm hb hc).2

theorem Checker.isWhitelisted_after_exact (ck : Checker) (qs : List Str) (p : Str)
    (hm : ck.HasMatchers) (hb : ck.NoBasenameMatch) (hc : ck.CacheExact) :
    ((ck.afterQueries qs).isWhitelisted p).1 =
      (decide ((ck.normalizePathForWhitelist p).1 ≠ []) &&
        ck.pathVerdict (ck.normalizePathForWhitelist p).1) := by
  have hs := Checker.afterQueries_sameMatchers qs ck
  rw [(Checker.isWhitelisted_exact _ p (hs.hasMatchers hm) (hb.of_same hs)
    (Checker.afterQueries_exact qs ck hm hb hc)).1, hs.normalize_eq p, Checker.pathVerdict_same hs]

theorem IsPathLiteral.process_exact {np : Str} (h : IsPathLiteral np) (ck : Checker) :
    ck.processWhitelistPattern np = { ck with exactPaths := setAdd ck.exactPaths np } := by
  obtain ⟨_, _, _, hsep, hglob, hfold, hre, hlit⟩ := h
  unfold Checker.processWhitelistPattern
  simp only [hre, hlit, hglob, hfold, hsep, Option.isSome_none, Bool.or_self, Bool.not_false,
    Bool.and_self, if_true]

theorem IsPathLiteral.compile_exact {np : Str} (h : IsPathLiteral np) (ck : Checker)
    (hp : ck.getAllWhitelistPatterns = [np]) :
    ck.compileWhitelistMatchers = { ck.resetWhitelistMatchers with exactPaths := [np] } := by
  have hne : np ≠ [] := by
    intro h0
    have := h.2.2.2.1
    rw [h0] at this
    simp at this
  unfold Checker.compileWhitelistMatchers
  rw [hp, List.foldl_cons, List.foldl_nil]
  unfold Checker.compileStep
  rw [h.1, h.2.2.1, backslashesToSlashes_id h.2.1]
  simp only [hne, Bool.false_eq_true, or_self, if_false]
  rw [h.process_exact]
  rfl

/-! ## The pattern `D/**` -/

theorem globTokens_dirGlob (D : Str) (h : ∀ c ∈ D, c ≠ '*' ∧ c ≠ '?' ∧ c ≠ '\\') :
    globTokens (dirGlob D) = D.map GlobTok.lit ++ [.lit '/', .globstar] := by
  unfold dirGlob
  induction D with
  | nil => rfl
  | cons c t ih =>
    have hc := h c (by simp)
    rw [List.cons_append, globTokens_lit c _ hc.1 hc.2.1, ih (fun d hd => h d (by simp [hd]))]
    rfl

theorem forall2_lit_append (D : Str) (toks : List GlobTok) :
    ∀ ps : List Str, List.Forall₂ (GlobTok.Accepts false) (D.map GlobTok.lit ++ toks) ps ↔
      ∃ ps2, ps = D.map (fun c => [c]) ++ ps2 ∧ List.Forall₂ (GlobTok.Accepts false) toks ps2 := by
  induction D with
  | nil =>
    intro ps
    simp
  | cons c t ih =>
    intro ps
    simp only [List.map_cons, List.cons_append]
    constructor
    · intro h
      cases h with
      | @cons _ p _ ps h1 h2 =>
        obtain ⟨ps2, rfl, h3⟩ := (ih ps).1 h2
        have hp : p = [c] := h1
        exact ⟨ps2, by rw [hp], h3⟩
    · rintro ⟨ps2, rfl, h3⟩
      exact .cons rfl ((ih _).2 ⟨ps2, rfl, h3⟩)

theorem flatten_singletons (D : Str) : (D.map (fun c => [c])).flatten = D := by
  induction D with
  | nil => rfl
  | cons c t ih => simp [ih]

theorem dirGlob_test_iff (D s : Str) (h : ∀ c ∈ D, c ≠ '*' ∧ c ≠ '?' ∧ c ≠ '\\') :
    (globRe (dirGlob D)).test s = true ↔
      ∃ rest : Str, s = D ++ '/' :: rest ∧ ∀ c ∈ rest, isLineTerminator c = false := by
  rw [globRe_test_iff]
  unfold GlobMatches
  rw [globTokens_dirGlob D h]
  constructor
  · rintro ⟨pieces, hp, rfl⟩
    obtain ⟨ps2, rfl, h2⟩ := (forall2_lit_append D _ pieces).1 hp
    cases h2 with
    | @cons _ p1 _ r1 ha hb =>
      cases hb with
      | @cons _ p2 _ r2 hc hd =>
        cases hd
        have hp1 : p1 = ['/'] := ha
        have hp2 : ∀ c ∈ p2, isLineTerminator c = false := by
          rcases hc with hc | hc
          · cases hc
          · exact hc
        refine ⟨p2, ?_, hp2⟩
        rw [List.flatten_append, flatten_singletons, hp1]
        simp
  · rintro ⟨rest, rfl, hr⟩
    refine ⟨D.map (fun c => [c]) ++ [['/'], rest], ?_, ?_⟩
    · exact (forall2_lit_append D _ _).2 ⟨_, rfl, .cons rfl (.cons (Or.inr hr) .nil)⟩
    · rw [List.flatten_append, flatten_singletons]
      simp

theorem IsLiteralDir.dir_ne_nil {D : Str} (h : IsLiteralDir D) : D ≠ [] := by
  intro h0
  have := h.2.2.1
  rw [h0] at this
  simp [dirGlob, Path.isAbsolute] at this

theorem IsLiteralDir.compile_regex {D : Str} (h : IsLiteralDir D) (ck : Checker)
    (hp : ck.getAllWhitelistPatterns = [dirGlob D]) :
    ck.compileWhitelistMatchers =
      { ck.resetWhitelistMatchers with
        regexMatchers := [{ sourcePattern := dirGlob D, regex := globRe (dirGlob D) }] } := by
  obtain ⟨c, t, hD⟩ := List.exists_cons_of_ne_nil h.dir_ne_nil
  obtain ⟨hch, htrim, habs, hdot, hre⟩ := h
  have hne : dirGlob D ≠ [] := by simp [dirGlob]
  have hc : c ≠ '/' := by
    intro hc
    rw [hD, hc] at habs
    simp [dirGlob, Path.isAbsolute] at habs
  have hcomment : startsWith (dirGlob D) ['/', '/'] = false := by
    rw [hD]
    simp [dirGlob, startsWith, List.isPrefixOf, hc.symm]
  have hlit : regexLiteralMatch (dirGlob D) = none := by
    rw [hD]
    simp [dirGlob, regexLiteralMatch, hc]
  have hb2s : backslashesToSlashes (dirGlob D) = dirGlob D := by
    apply backslashesToSlashes_id
    intro d hd
    simp only [dirGlob, List.mem_append, List.mem_cons, List.mem_singleton, List.not_mem_nil,
      or_false] at hd
    rcases hd with hd | hd | hd | hd
    · exact (hch d hd).2.2
    all_goals (subst hd; decide)
  have hglob : (dirGlob D).any (fun c => c == '*' || c == '?') = true := by
    simp [dirGlob]
  have hend : endsWith (dirGlob D) ['/'] = false := by
    simp [dirGlob, endsWith, List.isPrefixOf]
  unfold Checker.compileWhitelistMatchers
  rw [hp, List.foldl_cons, List.foldl_nil]
  unfold Checker.compileStep
  rw [htrim, hcomment, hb2s]
  simp only [hne, Bool.false_eq_true, or_self, if_false]
  unfold Checker.processWhitelistPattern
  simp only [hre, hlit, hglob, Option.isSome_none, Bool.or_self, Bool.not_false, Bool.not_true,
    Bool.and_false, Bool.false_and, Bool.false_eq_true, if_false]
  rw [buildWhitelistRegex_glob _ hne htrim hre hlit]
  simp only [hend, Bool.false_eq_true, if_false]
  rfl

theorem IsLiteralDir.normalize_below {D : Str} (h : IsLiteralDir D) (ck : Checker) (tail : Str) :
    (ck.normalizePathForWhitelist (D ++ tail)).1 = D ++ backslashesToSlashes tail := by
  obtain ⟨c, t, hD⟩ := List.exists_cons_of_ne_nil h.dir_ne_nil
  obtain ⟨hch, -, habs, hdot, -⟩ := h
  have hb2s : backslashesToSlashes (D ++ tail) = D ++ backslashesToSlashes tail := by
    rw [backslashesToSlashes_append, backslashesToSlashes_id (fun d hd => (hch d hd).2.2)]
  subst hD
  rw [Checker.normalize_relative ck _ (by simp) (by simpa [Path.isAbsolute, dirGlob] using habs), hb2s]
  rw [hb2s]
  cases t with
  | nil =>
    have hc : c ≠ '.' := by
      intro hc
      subst hc
      simp [dirGlob, startsWith, List.isPrefixOf] at hdot
    simp [startsWith, List.isPrefixOf, hc.symm]
  | cons d t =>
    simp only [dirGlob, startsWith, List.isPrefixOf, Bool.and_true, Bool.and_eq_false_imp, beq_iff_eq,
      List.cons_append] at hdot ⊢
    exact hdot


theorem IsLiteralDir.verdict {D : Str} (h : IsLiteralDir D) (ck : Checker)
    (hp : ck.getAllWhitelistPatterns = [dirGlob D]) (qs : List Str) (p : Str) :
    ((ck.compileWhitelistMatchers.afterQueries qs).isWhitelisted p).1 = true ↔
      ∃ rest : Str, (ck.normalizePathForWhitelist p).1 = D ++ '/' :: rest ∧
        ∀ c ∈ rest, isLineTerminator c = false := by
  have hcomp := h.compile_regex ck hp
  have hch := h.1
  have hm : ck.compileWhitelistMatchers.HasMatchers := by
    rw [hcomp]
    unfold Checker.HasMatchers
    simp
  have hb : ck.compileWhitelistMatchers.NoBasenameMatch := by
    rw [hcomp]
    refine ⟨rfl, ?_⟩
    intro m hm2 b hb2
    simp only [List.mem_singleton] at hm2
    subst hm2
    cases ht : (globRe (dirGlob D)).test b with
    | false => rfl
    | true =>
      obtain ⟨rest, rfl, -⟩ := (dirGlob_test_iff D b hch).1 ht
      exact absurd rfl (hb2 '/' (by simp))
  have hc : ck.compileWhitelistMatchers.CacheExact := by
    intro k v hk
    rw [Checker.compile_cache] at hk
    simp [mapGet] at hk
  rw [Checker.isWhitelisted_after_exact _ qs p hm hb hc]
  have hn : (ck.compileWhitelistMatchers.normalizePathForWhitelist p).1 =
      (ck.normalizePathForWhitelist p).1 :=
    Checker.normalize_fst_congr ck _ p (Checker.compile_dirs ck).1 (Checker.compile_dirs ck).2
  rw [hn, hcomp]
  simp only [Checker.pathVerdict, Checker.resetWhitelistMatchers, List.any_cons, List.any_nil,
    Bool.or_false, List.not_mem_nil, decide_False, Bool.false_or, Bool.and_eq_true,
    decide_eq_true_eq]
  rw [dirGlob_test_iff D _ hch]
  constructor
  · intro h2; exact h2.2
  · rintro ⟨rest, h3, h4⟩
    exact ⟨by rw [h3]; simp, rest, h3, h4⟩

/-! ## Runs -/

theorem AppRun.validateApp_invalid (w : World) (r : AppRun) (h : r.invalidWhitelistPatterns ≠ []) :
    r.validateApp w = false := by
  unfold AppRun.validateApp
  have hl : r.invalidWhitelistPatterns.length > 0 := List.length_pos.2 h
  by_cases h1 : w.existsSync r.appDir = true
  · by_cases h2 : w.existsSync r.srcDir = true
    · simp [h1, h2, hl]
    · simp [h1, h2]
  · simp [h1]

theorem AppRun.runForSingleApp_invalid (w : World) (r : AppRun)
    (h : r.invalidWhitelistPatterns ≠ []) : r.runForSingleApp w = (false, r.resetRun) := by
  unfold AppRun.runForSingleApp
  have hv : r.resetRun.validateApp w = false := AppRun.validateApp_invalid w _ h
  simp [hv]

/-! ## Recompiling -/

theorem mem_setAdd_iff {s : List Str} {x y : Str} : y ∈ setAdd s x ↔ y ∈ s ∨ y = x := by
  unfold setAdd
  split
  · constructor
    · intro h; exact Or.inl h
    · rintro (h | h)
      · exact h
      · subst h; assumption
  · simp

theorem Checker.compileStep_derived (ck : Checker) (pats : List Str) (x : Str)
    (h : ck.DerivedFrom pats) (hx : x ∈ pats) : (ck.compileStep x).DerivedFrom pats := by
  obtain ⟨h1, h2, h3, h4⟩ := h
  unfold Checker.compileStep
  split
  · exact ⟨h1, h2, h3, h4⟩
  · rcases Checker.processWhitelistPattern_cases ck (backslashesToSlashes (trim x)) with
      h | h | ⟨_, h⟩ | ⟨r, _, h⟩ | ⟨msg, _, h⟩ <;> rw [h]
    · refine ⟨?_, h2, h3, h4⟩
      intro y hy
      rcases mem_setAdd_iff.1 hy with hy | hy
      · exact h1 y hy
      · exact ⟨x, hx, hy⟩
    · refine ⟨h1, ?_, h3, h4⟩
      intro y hy
      rcases mem_setAdd_iff.1 hy with hy | hy
      · exact h2 y hy
      · exact ⟨x, hx, hy⟩
    · exact ⟨h1, h2, h3, h4⟩
    · refine ⟨h1, h2, ?_, h4⟩
      intro m hm
      rcases List.mem_append.1 hm with hm | hm
      · exact h3 m hm
      · simp only [List.mem_singleton] at hm
        subst hm
        exact ⟨x, hx, rfl⟩
    · refine ⟨h1, h2, h3, ?_⟩
      intro e he
      rcases List.mem_append.1 he with he | he
      · exact h4 e he
      · simp only [List.mem_singleton] at he
        subst he
        exact ⟨x, hx, rfl⟩

theorem Checker.foldl_compileStep_derived (pats : List Str) :
    ∀ (l : List Str) (init : Checker), init.DerivedFrom pats → (∀ x ∈ l, x ∈ pats) →
      (l.foldl Checker.compileStep init).DerivedFrom pats := by
  intro l
  induction l with
  | nil => intro init h _; exact h
  | cons x l ih =>
    intro init h hl
    exact ih _ (Checker.compileStep_derived init pats x h (hl x (by simp)))
      (fun y hy => hl y (by simp [hy]))

theorem Checker.compile_derived (ck : Checker) :
    ck.compileWhitelistMatchers.DerivedFrom ck.getAllWhitelistPatterns := by
  unfold Checker.compileWhitelistMatchers
  apply Checker.foldl_compileStep_derived _ _ _ _ (fun x hx => hx)
  refine ⟨?_, ?_, ?_, ?_⟩ <;> intro x hx <;> simp [Checker.resetWhitelistMatchers] at hx

theorem Checker.compileStep_matcherState (a b : Checker) (x : Str)
    (h : a.matcherState = b.matcherState) :
    (a.compileStep x).matcherState = (b.compileStep x).matcherState := by
  simp only [Checker.matcherState, Prod.mk.injEq] at h
  obtain ⟨h1, h2, h3, h4, h5⟩ := h
  unfold Checker.compileStep
  split
  · simp only [Checker.matcherState, h1, h2, h3, h4, h5]
  · unfold Checker.processWhitelistPattern
    simp only
    split
    · split
      · simp only [Checker.matcherState, h1, h2, h3, h4, h5]
      · simp only [Checker.matcherState, h1, h2, h3, h4, h5]
    · split
      · simp only [Checker.matcherState, h1, h2, h3, h4, h5]
      · simp only [Checker.matcherState, h1, h2, h3, h4, h5]
      · simp only [Checker.matcherState, h1, h2, h3, h4, h5]

theorem Checker.foldl_compileStep_matcherState :
    ∀ (l : List Str) (a b : Checker), a.matcherState = b.matcherState →
      (l.foldl Checker.compileStep a).matcherState = (l.foldl Checker.compileStep b).matcherState := by
  intro l
  induction l with
  | nil => intro a b h; exact h
  | cons x l ih =>
    intro a b h
    exact ih _ _ (Checker.compileStep_matcherState a b x h)

theorem Checker.compile_matcherState (a b : Checker) (hw : a.whitelist = b.whitelist)
    (hn : a.appName = b.appName) :
    a.compileWhitelistMatchers.matcherState = b.compileWhitelistMatchers.matcherState := by
  unfold Checker.compileWhitelistMatchers
  have hp : a.getAllWhitelistPatterns = b.getAllWhitelistPatterns := by
    unfold Checker.getAllWhitelistPatterns
    rw [hw, hn]
  rw [hp]
  exact Checker.foldl_compileStep_matcherState _ _ _ rfl

/-! ## Whitelist queries inside a run -/

theorem Checker.normalize_snd (ck : Checker) (p : Str) :
    (ck.normalizePathForWhitelist p).2 =
      if ck.warnsFor p then
        { ck with pathNormalizationWarnings := setAdd ck.pathNormalizationWarnings p,
                  warnLog := ck.warnLog ++ [outsideWarning p] }
      else ck := by
  unfold Checker.normalizePathForWhitelist Checker.warnsFor
  by_cases h1 : p = []
  · simp [h1]
  · by_cases h2 : Path.isAbsolute p = true
    · by_cases h3 : (startsWith (backslashesToSlashes (Path.relative ck.cwd ck.appDir p)) ['.', '.', '/'] ||
          backslashesToSlashes (Path.relative ck.cwd ck.appDir p) == ['.', '.'] ||
          Path.isAbsolute (backslashesToSlashes (Path.relative ck.cwd ck.appDir p))) = true
      · by_cases h4 : p ∈ ck.pathNormalizationWarnings
        · simp only [h1, h2, h3, h4, if_true, if_false]
          simp [h1, h4]
        · simp only [h1, h2, h3, h4, if_true, if_false]
          simp [h1, h4]
      · simp only [h1, h2, h3, if_true, if_false]
        simp
    · by_cases h5 : startsWith (backslashesToSlashes p) ['.', '/'] = true
      · simp only [h1, h2, h5, if_true, if_false]
        simp [h2]
      · simp only [h1, h2, h5, if_true, if_false]
        simp [h2]

theorem Checker.SameAnswers.warnsFor {a b : Checker} (h : a.SameAnswers b) (p : Str) :
    b.warnsFor p = a.warnsFor p := by
  obtain ⟨h1, h2, -, -, -, -, h7⟩ := h
  unfold Checker.warnsFor
  rw [h1, h2, h7]

theorem Checker.SameAnswers.sameMatchers {a b : Checker} (h : a.SameAnswers b) :
    a.SameMatchers b :=
  ⟨h.1, h.2.1, h.2.2.1, h.2.2.2.1, h.2.2.2.2.1⟩

theorem Checker.SameAnswers.normalize {a b : Checker} (h : a.SameAnswers b) (p : Str) :
    (a.normalizePathForWhitelist p).1 = (b.normalizePathForWhitelist p).1 ∧
      (a.normalizePathForWhitelist p).2.SameAnswers (b.normalizePathForWhitelist p).2 := by
  refine ⟨(h.sameMatchers.normalize_eq p).symm, ?_⟩
  rw [Checker.normalize_snd a p, Checker.normalize_snd b p, h.warnsFor p]
  obtain ⟨h1, h2, h3, h4, h5, h6, h7⟩ := h
  split
  · exact ⟨h1, h2, h3, h4, h5, h6, by simp only [h7]⟩
  · exact ⟨h1, h2, h3, h4, h5, h6, h7⟩

theorem Checker.SameAnswers.isWhitelisted {a b : Checker} (h : a.SameAnswers b) (p : Str) :
    (a.isWhitelisted p).1 = (b.isWhitelisted p).1 ∧
      (a.isWhitelisted p).2.SameAnswers (b.isWhitelisted p).2 := by
  have hn := h.normalize p
  by_cases hm : a.HasMatchers
  · have hmb : b.HasMatchers := h.sameMatchers.hasMatchers hm
    by_cases hz : (a.normalizePathForWhitelist p).1 = []
    · have hzb : (b.normalizePathForWhitelist p).1 = [] := by rw [← hn.1]; exact hz
      rw [Checker.isWhitelisted_outside a p hz, Checker.isWhitelisted_outside b p hzb, if_pos hm,
        if_pos hmb]
      exact ⟨rfl, hn.2⟩
    · have hzb : (b.normalizePathForWhitelist p).1 ≠ [] := by rw [← hn.1]; exact hz
      rw [Checker.isWhitelisted_inside a p hm hz, Checker.isWhitelisted_inside b p hmb hzb]
      obtain ⟨h1, h2, h3, h4, h5, h6, h7⟩ := h
      rw [← hn.1, ← h3, ← h4, ← h5, ← h6]
      cases mapGet a.whitelistResultCache (a.normalizePathForWhitelist p).1 with
      | some v => exact ⟨rfl, h1, h2, h3, h4, h5, h6, h7⟩
      | none => exact ⟨rfl, h1, h2, rfl, rfl, rfl, rfl, h7⟩
  · have hmb : ¬ b.HasMatchers := fun hb => hm (by
      obtain ⟨_, _, h3, h4, h5, _, _⟩ := h
      unfold Checker.HasMatchers at hb ⊢
      rw [h3, h4, h5]
      exact hb)
    rw [Checker.isWhitelisted_fast a p hm, Checker.isWhitelisted_fast b p hmb]
    exact ⟨rfl, h⟩

theorem Checker.SameAnswers.verdictsFor (qs : List (Option Str)) :
    ∀ {a b : Checker}, a.SameAnswers b → a.verdictsFor qs = b.verdictsFor qs := by
  induction qs with
  | nil => intro a b _; rfl
  | cons q qs ih =>
    intro a b h
    cases q with
    | none => simp only [Checker.verdictsFor, ih h]
    | some p =>
      simp only [Checker.verdictsFor, (h.isWhitelisted p).1, ih (h.isWhitelisted p).2]


theorem Checker.isWhitelisted_sources (ck : Checker) (p : Str) :
    (ck.isWhitelisted p).2.srcDir = ck.srcDir ∧
      (ck.isWhitelisted p).2.sourceContents = ck.sourceContents := by
  have hn : (ck.normalizePathForWhitelist p).2.srcDir = ck.srcDir ∧
      (ck.normalizePathForWhitelist p).2.sourceContents = ck.sourceContents := by
    rw [Checker.normalize_snd]
    split <;> exact ⟨rfl, rfl⟩
  by_cases hm : ck.HasMatchers
  · by_cases hz : (ck.normalizePathForWhitelist p).1 = []
    · rw [Checker.isWhitelisted_outside ck p hz, if_pos hm]
      exact hn
    · rw [Checker.isWhitelisted_inside ck p hm hz]
      cases mapGet ck.whitelistResultCache (ck.normalizePathForWhitelist p).1 with
      | some v => exact ⟨rfl, rfl⟩
      | none => exact ⟨rfl, rfl⟩
  · rw [Checker.isWhitelisted_fast ck p hm]
    exact ⟨rfl, rfl⟩

theorem Checker.isAssetUsed_congr (a b : Checker) (p : Str) (h1 : a.cwd = b.cwd)
    (h2 : a.srcDir = b.srcDir) (h3 : a.sourceContents = b.sourceContents) :
    a.isAssetUsed p = b.isAssetUsed p := by
  unfold Checker.isAssetUsed Checker.searchPatterns
  rw [h1, h2, h3]

theorem AppRun.isAssetUsed_run (w : World) (r : AppRun) (p : Str) :
    r.isAssetUsed w p = (.ok (r.assetUsed w p), r.getSourceFileContents w) := by
  have hc : newRegExp (dynamicImportSource
      (escapeForRegex (Path.basenameExt p (Path.extname p)))) [] =
      .ok (dynamicImportRe (Path.basenameExt p (Path.extname p))) := by
    unfold newRegExp
    rw [compile_dynamicImport]
  have hk : ∀ ck : Checker, ∃ b, ck.isAssetUsed p = .ok b := by
    intro ck
    unfold Checker.isAssetUsed
    simp only [hc]
    exact ⟨_, rfl⟩
  obtain ⟨b, hb⟩ := hk (r.getSourceFileContents w).toChecker
  unfold AppRun.assetUsed AppRun.isAssetUsed
  rw [hc]
  simp only [hb]

theorem AppRun.ScanInv.contents {w : World} {r0 r : AppRun} (h : AppRun.ScanInv w r0 r) :
    (r.getSourceFileContents w).sourceContents = r0.sourceFiles.filterMap w.readFileSync := by
  unfold AppRun.getSourceFileContents
  by_cases hl : r.sourceContentsLoaded = true
  · rw [if_pos hl]
    exact h.2.2.2.2 hl
  · rw [if_neg hl]
    show r.sourceFiles.filterMap w.readFileSync = _
    rw [h.2.2.2.1]

theorem AppRun.ScanInv.load {w : World} {r0 r : AppRun} (h : AppRun.ScanInv w r0 r) :
    AppRun.ScanInv w r0 (r.getSourceFileContents w) := by
  have hc := h.contents
  obtain ⟨h1, h2, h3, h4, h5⟩ := h
  unfold AppRun.getSourceFileContents at hc ⊢
  by_cases hl : r.sourceContentsLoaded = true
  · rw [if_pos hl]
    exact ⟨h1, h2, h3, h4, h5⟩
  · rw [if_neg hl] at hc ⊢
    exact ⟨h1, h2, h3, h4, fun _ => hc⟩

theorem AppRun.getSourceFileContents_frame (w : World) (r : AppRun) :
    (r.getSourceFileContents w).toChecker.SameAnswers r.toChecker ∧
      (r.getSourceFileContents w).unusedAssets = r.unusedAssets := by
  unfold AppRun.getSourceFileContents
  split
  · exact ⟨⟨rfl, rfl, rfl, rfl, rfl, rfl, rfl⟩, rfl⟩
  · exact ⟨⟨rfl, rfl, rfl, rfl, rfl, rfl, rfl⟩, rfl⟩

theorem AppRun.ScanInv.assetUsed {w : World} {r0 r : AppRun} (h : AppRun.ScanInv w r0 r)
    (h0 : AppRun.ScanInv w r0 r0) (p : Str) : r.assetUsed w p = r0.assetUsed w p := by
  have e1 := AppRun.isAssetUsed_run w r p
  have e2 := AppRun.isAssetUsed_run w r0 p
  have hk : (r.getSourceFileContents w).toChecker.isAssetUsed p =
      (r0.getSourceFileContents w).toChecker.isAssetUsed p := by
    apply Checker.isAssetUsed_congr
    · rw [h.load.1, h0.load.1]
    · rw [h.load.2.1, h0.load.2.1]
    · rw [h.contents, h0.contents]
  have hc : newRegExp (dynamicImportSource
      (escapeForRegex (Path.basenameExt p (Path.extname p)))) [] =
      .ok (dynamicImportRe (Path.basenameExt p (Path.extname p))) := by
    unfold newRegExp
    rw [compile_dynamicImport]
  unfold AppRun.assetUsed AppRun.isAssetUsed
  rw [hc]
  simp only [hk]

theorem AppRun.ScanInv.query {w : World} {r0 r : AppRun} (h : AppRun.ScanInv w r0 r) (p : Str) :
    AppRun.ScanInv w r0 { r with toChecker := (r.toChecker.isWhitelisted p).2 } := by
  obtain ⟨h1, h2, h3, h4, h5⟩ := h
  have hs := Checker.isWhitelisted_sameMatchers r.toChecker p
  have hf := Checker.isWhitelisted_sources r.toChecker p
  refine ⟨hs.1.symm.trans h1, hf.1.trans h2, h3, h4, ?_⟩
  intro hl
  exact hf.2.trans (h5 hl)


theorem AppRun.checkUnusedAssetsLoop_cons (w : World) (a : Str) (l : List Str) (r : AppRun) :
    AppRun.checkUnusedAssetsLoop w (a :: l) r =
      if (r.toChecker.isWhitelisted a).1 then
        AppRun.checkUnusedAssetsLoop w l { r with toChecker := (r.toChecker.isWhitelisted a).2 }
      else if AppRun.assetUsed w { r with toChecker := (r.toChecker.isWhitelisted a).2 } a then
        AppRun.checkUnusedAssetsLoop w l
          (AppRun.getSourceFileContents w { r with toChecker := (r.toChecker.isWhitelisted a).2 })
      else
        AppRun.checkUnusedAssetsLoop w l
          { AppRun.getSourceFileContents w { r with toChecker := (r.toChecker.isWhitelisted a).2 } with
            unusedAssets :=
              (AppRun.getSourceFileContents w
                { r with toChecker := (r.toChecker.isWhitelisted a).2 }).unusedAssets ++
                [AppRun.unusedAssetRecord w
                  (AppRun.getSourceFileContents w
                    { r with toChecker := (r.toChecker.isWhitelisted a).2 }) a] } := by
  rw [AppRun.checkUnusedAssetsLoop]
  simp only
  by_cases hv : (r.toChecker.isWhitelisted a).1 = true
  · simp only [hv, if_true]
  · simp only [hv, Bool.false_eq_true, if_false]
    rw [AppRun.isAssetUsed_run]
    cases AppRun.assetUsed w { r with toChecker := (r.toChecker.isWhitelisted a).2 } a with
    | true => simp only [if_true]
    | false => simp only [Bool.false_eq_true, if_false]

theorem AppRun.checkUnusedAssetsLoop_spec (w : World) (r0 : AppRun)
    (h0 : AppRun.ScanInv w r0 r0) :
    ∀ (l : List Str) (r : AppRun), AppRun.ScanInv w r0 r →
      (AppRun.checkUnusedAssetsLoop w l r).1 = none ∧
        (AppRun.checkUnusedAssetsLoop w l r).2.unusedAssets =
          r.unusedAssets ++
            ((l.zip (r.toChecker.verdictsFor (l.map some))).filter
              (fun av => !av.2 && !r0.assetUsed w av.1)).map
              (fun av => r0.unusedAssetRecord w av.1) := by
  intro l
  induction l with
  | nil => intro r _; simp [AppRun.checkUnusedAssetsLoop]
  | cons a l ih =>
    intro r h
    have hq := h.query a
    have hu := hq.assetUsed h0 a
    have hl := hq.load
    have hfr := AppRun.getSourceFileContents_frame w
      { r with toChecker := (r.toChecker.isWhitelisted a).2 }
    have hvs := Checker.SameAnswers.verdictsFor (l.map some) hfr.1
    have hrec : AppRun.unusedAssetRecord w
        (AppRun.getSourceFileContents w { r with toChecker := (r.toChecker.isWhitelisted a).2 }) a =
        r0.unusedAssetRecord w a := by
      unfold AppRun.unusedAssetRecord
      rw [hl.1, hl.2.2.1]
    rw [AppRun.checkUnusedAssetsLoop_cons, hu]
    simp only [List.map_cons, Checker.verdictsFor, List.zip_cons_cons, List.filter_cons]
    generalize hr1 : ({ r with toChecker := (r.toChecker.isWhitelisted a).2 } : AppRun) = r1
      at hq hl hfr hvs hrec ⊢
    have hc1 : r1.toChecker = (r.toChecker.isWhitelisted a).2 := by rw [← hr1]
    have hu1 : r1.unusedAssets = r.unusedAssets := by rw [← hr1]
    rw [← hc1, ← hu1]
    generalize hr2 : AppRun.getSourceFileContents w r1 = r2 at hl hfr hvs hrec ⊢
    by_cases hv : (r.toChecker.isWhitelisted a).1 = true
    · simp only [hv, if_true, Bool.not_true, Bool.false_and, Bool.false_eq_true, if_false]
      exact ih r1 hq
    · simp only [Bool.not_eq_true] at hv
      simp only [hv, Bool.false_eq_true, if_false, Bool.not_false, Bool.true_and]
      cases hb : r0.assetUsed w a with
      | true =>
        simp only [if_true, Bool.not_true, Bool.false_eq_true, if_false]
        have := ih r2 hl
        rw [hvs, hfr.2] at this
        exact this
      | false =>
        simp only [Bool.false_eq_true, if_false, Bool.not_false, if_true, List.map_cons]
        have hinv : AppRun.ScanInv w r0
            { r2 with unusedAssets := r2.unusedAssets ++ [r2.unusedAssetRecord w a] } :=
          ⟨hl.1, hl.2.1, hl.2.2.1, hl.2.2.2.1, hl.2.2.2.2⟩
        have := ih _ hinv
        simp only [hrec, hfr.2] at this
        rw [hvs] at this
        simp only [List.append_assoc, List.singleton_append] at this
        rw [hrec, hfr.2]
        exact this

/-! ## Filtering the analyzer's findings -/

theorem Checker.afterQueries_cons (ck : Checker) (q : Str) (qs : List Str) :
    ck.afterQueries (q :: qs) = (ck.isWhitelisted q).2.afterQueries qs := rfl

theorem Checker.afterQueries_append (qs ps : List Str) (ck : Checker) :
    ck.afterQueries (qs ++ ps) = (ck.afterQueries qs).afterQueries ps := by
  unfold Checker.afterQueries
  rw [List.foldl_append]

theorem Checker.keepKnipItem_eq (ck : Checker) (item : JsVal) :
    ck.keepKnipItem item =
      match knipItemPath item with
      | some p => (!(ck.isWhitelisted p).1, (ck.isWhitelisted p).2)
      | none => (true, ck) := by
  cases item with
  | str s => rfl
  | obj fields =>
    unfold Checker.keepKnipItem knipItemPath
    simp only
    cases hf : objGet fields "file".toList with
    | str f =>
      by_cases he : f = []
      · subst he
        simp [JsVal.truthy]
      · simp [JsVal.truthy, he, Checker.isWhitelistedVal]
    | undefined => simp [JsVal.truthy]
    | null => simp [JsVal.truthy]
    | bool b => cases b <;> simp [JsVal.truthy, Checker.isWhitelistedVal]
    | num n =>
      by_cases hn : n = 0
      · simp [JsVal.truthy, hn]
      · simp [JsVal.truthy, hn, Checker.isWhitelistedVal]
    | arr l => simp [JsVal.truthy, Checker.isWhitelistedVal]
    | obj l => simp [JsVal.truthy, Checker.isWhitelistedVal]
  | undefined => rfl
  | null => rfl
  | bool b => rfl
  | num n => rfl
  | arr l => rfl

theorem Checker.filterKnipPathItems_eq (items : List JsVal) :
    ∀ ck : Checker, ck.filterKnipPathItems items =
      (dropWhitelisted items (ck.verdictsFor (items.map knipItemPath)),
        ck.afterQueries (items.filterMap knipItemPath)) := by
  induction items with
  | nil => intro ck; rfl
  | cons item rest ih =>
    intro ck
    rw [Checker.filterKnipPathItems]
    simp only [Checker.keepKnipItem_eq, ih]
    cases hp : knipItemPath item with
    | none =>
      simp [dropWhitelisted, Checker.verdictsFor, hp]
    | some p =>
      cases hv : (ck.isWhitelisted p).1 <;>
        simp [dropWhitelisted, Checker.verdictsFor, hp, hv, Checker.afterQueries_cons]

/-! ## The analyzer fails -/

theorem AppRun.tryKnipCommands_allFail (w : World) (cwd : Str) :
    ∀ (cmds : List Str) (r : AppRun), (∀ c ∈ cmds, w.execAsync c cwd = none) →
      AppRun.tryKnipCommands w cwd cmds r =
        { r with knipResults :=
            { r.knipResults with error := some "All Knip execution attempts failed".toList } } := by
  intro cmds
  induction cmds with
  | nil => intro r _; rfl
  | cons c cmds ih =>
    intro r h
    rw [AppRun.tryKnipCommands, h c (by simp)]
    exact ih r (fun d hd => h d (by simp [hd]))

theorem AppRun.tryKnipCommands_unparsable (w : World) (cwd : Str) (c : Str) (later : List Str)
    (out : Str × Str) (hc : w.execAsync c cwd = some out) (hp : parseKnipOutput w out.1 = none) :
    ∀ (before : List Str) (r : AppRun), (∀ d ∈ before, w.execAsync d cwd = none) →
      AppRun.tryKnipCommands w cwd (before ++ c :: later) r = r := by
  intro before
  induction before with
  | nil =>
    intro r _
    rw [List.nil_append, AppRun.tryKnipCommands, hc]
    simp only [hp]
    split <;> rfl
  | cons d before ih =>
    intro r h
    rw [List.cons_append, AppRun.tryKnipCommands, h d (by simp)]
    exact ih r (fun e he => h e (by simp [he]))

theorem reportGet_reportSet (m : List (Str × AppReport)) (k : Str) (v : AppReport) :
    reportGet (reportSet m k v) k = some v := by
  induction m with
  | nil => simp [reportSet, reportGet]
  | cons e m ih =>
    unfold reportSet
    by_cases h : e.1 = k
    · simp [h, reportGet]
    · simp only [h, if_false]
      unfold reportGet at ih ⊢
      rw [List.find?_cons]
      have : (e.1 == k) = false := by simpa using h
      rw [this]
      exact ih

theorem Checker.isWhitelisted_appName (ck : Checker) (p : Str) :
    (ck.isWhitelisted p).2.appName = ck.appName := by
  have hn : (ck.normalizePathForWhitelist p).2.appName = ck.appName := by
    rw [Checker.normalize_snd]
    split <;> rfl
  by_cases hm : ck.HasMatchers
  · by_cases hz : (ck.normalizePathForWhitelist p).1 = []
    · rw [Checker.isWhitelisted_outside ck p hz, if_pos hm]
      exact hn
    · rw [Checker.isWhitelisted_inside ck p hm hz]
      cases mapGet ck.whitelistResultCache (ck.normalizePathForWhitelist p).1 with
      | some v => rfl
      | none => rfl
  · rw [Checker.isWhitelisted_fast ck p hm]

theorem AppRun.getSourceFileContents_inputs (w : World) (r : AppRun) :
    (r.getSourceFileContents w).SameReportInputs r := by
  unfold AppRun.getSourceFileContents
  split
  · exact ⟨rfl, rfl, rfl, rfl, rfl⟩
  · exact ⟨rfl, rfl, rfl, rfl, rfl⟩

theorem AppRun.checkUnusedAssetsLoop_inputs (w : World) :
    ∀ (l : List Str) (r : AppRun), (AppRun.checkUnusedAssetsLoop w l r).2.SameReportInputs r := by
  intro l
  induction l with
  | nil => intro r; exact ⟨rfl, rfl, rfl, rfl, rfl⟩
  | cons a l ih =>
    intro r
    have hn := Checker.isWhitelisted_appName r.toChecker a
    have hg := AppRun.getSourceFileContents_inputs w
      { r with toChecker := (r.toChecker.isWhitelisted a).2 }
    rw [AppRun.checkUnusedAssetsLoop_cons]
    split
    · obtain ⟨h1, h2, h3, h4, h5⟩ := ih { r with toChecker := (r.toChecker.isWhitelisted a).2 }
      exact ⟨h1, h2, h3.trans hn, h4, h5⟩
    · split
      · obtain ⟨h1, h2, h3, h4, h5⟩ := ih (AppRun.getSourceFileContents w
          { r with toChecker := (r.toChecker.isWhitelisted a).2 })
        obtain ⟨g1, g2, g3, g4, g5⟩ := hg
        exact ⟨h1.trans g1, h2.trans g2, (h3.trans g3).trans hn, h4.trans g4, h5.trans g5⟩
      · obtain ⟨h1, h2, h3, h4, h5⟩ := ih
          { AppRun.getSourceFileContents w { r with toChecker := (r.toChecker.isWhitelisted a).2 } with
            unusedAssets :=
              (AppRun.getSourceFileContents w
                { r with toChecker := (r.toChecker.isWhitelisted a).2 }).unusedAssets ++
                [AppRun.unusedAssetRecord w
                  (AppRun.getSourceFileContents w
                    { r with toChecker := (r.toChecker.isWhitelisted a).2 }) a] }
        obtain ⟨g1, g2, g3, g4, g5⟩ := hg
        exact ⟨h1.trans g1, h2.trans g2, (h3.trans g3).trans hn, h4.trans g4, h5.trans g5⟩

theorem AppRun.scanAssets_inputs (w : World) (r : AppRun) (hl : r.sourceContentsLoaded = false) :
    (r.scanAssets w).1 = none ∧ (r.scanAssets w).2.SameReportInputs r := by
  unfold AppRun.scanAssets
  split
  · have h0 : AppRun.ScanInv w ((r.collectAssetFiles w).collectSourceFiles w)
        ((r.collectAssetFiles w).collectSourceFiles w) :=
      ⟨rfl, rfl, rfl, rfl, fun h => by
        have : ((r.collectAssetFiles w).collectSourceFiles w).sourceContentsLoaded = false := hl
        rw [this] at h
        cases h⟩
    exact ⟨(AppRun.checkUnusedAssetsLoop_spec w _ h0 _ _ h0).1,
      AppRun.checkUnusedAssetsLoop_inputs w _ _⟩
  · exact ⟨rfl, rfl, rfl, rfl, rfl, rfl⟩


theorem AppRun.runKnipAnalysis_allFail (w : World) (r : AppRun)
    (hen : r.knip.enabled.truthy = true)
    (hpkg : w.existsSync (Path.join [r.appDir, "package.json".toList]) = true)
    (hfail : r.KnipAllFail w) :
    r.runKnipAnalysis w =
      { r with knipResults := { error := some "All Knip execution attempts failed".toList } } := by
  have hne : r.knip.enabled ≠ .bool false := by
    intro h
    rw [h] at hen
    simp [JsVal.truthy] at hen
  unfold AppRun.runKnipAnalysis
  simp only [hne, hpkg, if_false, Bool.not_true, Bool.false_eq_true]
  exact AppRun.tryKnipCommands_allFail w _ _ _ hfail

theorem AppRun.runKnipAnalysis_unparsable (w : World) (r : AppRun)
    (hen : r.knip.enabled.truthy = true)
    (hpkg : w.existsSync (Path.join [r.appDir, "package.json".toList]) = true)
    (hbad : r.KnipUnparsable w) :
    r.runKnipAnalysis w = { r with knipResults := {} } := by
  have hne : r.knip.enabled ≠ .bool false := by
    intro h
    rw [h] at hen
    simp [JsVal.truthy] at hen
  obtain ⟨before, c, later, out, hcmds, hb, hc, hp⟩ := hbad
  unfold AppRun.runKnipAnalysis
  simp only [hne, hpkg, if_false, Bool.not_true, Bool.false_eq_true]
  have hcmds2 : AppRun.knipCommands r = before ++ c :: later := hcmds
  rw [hcmds2]
  exact AppRun.tryKnipCommands_unparsable w _ c later out hc hp before _ hb

theorem AppRun.runForSingleApp_report (w : World) (r : AppRun)
    (hvalid : r.resetRun.validateApp w = true)
    (hl : (r.resetRun.runKnipAnalysis w).sourceContentsLoaded = false)
    (hname : (r.resetRun.runKnipAnalysis w).appName = r.appName)
    (hknip : (r.resetRun.runKnipAnalysis w).knip = r.knip)
    (hthrow : (r.resetRun.runKnipAnalysis w).knipResults.reportThrows w = false) :
    (r.runForSingleApp w).1 = true ∧
      ∃ rep : AppReport,
        reportGet (r.runForSingleApp w).2.aggregatedUnusedData r.appName = some rep ∧
          rep.unused_files = (r.resetRun.runKnipAnalysis w).knipResults.files ∧
          rep.dependencies = (r.resetRun.runKnipAnalysis w).knipResults.dependencies.orEmptyArray ∧
          rep.devDependencies =
            (r.resetRun.runKnipAnalysis w).knipResults.devDependencies.orEmptyArray ∧
          rep.unused_exports = (r.resetRun.runKnipAnalysis w).knipResults.exports ∧
          rep.unused_types = (r.resetRun.runKnipAnalysis w).knipResults.types ∧
          rep.knip_analysis_status =
            (if r.knip.enabled.truthy then
              (if (r.resetRun.runKnipAnalysis w).knipResults.hasError then "failed".toList
               else "success".toList)
             else "skipped".toList) ∧
          rep.unused_assets.files =
            ((r.resetRun.runKnipAnalysis w).scanAssets w).2.unusedAssets.map
              ((r.resetRun.runKnipAnalysis w).scanAssets w).2.reportFile := by
  have hrun : r.runForSingleApp w =
      match (r.resetRun.runKnipAnalysis w).scanAssets w with
      | (some _, r1) => (false, r1)
      | (none, r1) =>
        if r1.outputJson then (true, r1.storeAppData w r1.appName)
        else
          (!((r1.storeAppData w r1.appName).generateReport w).1,
            ((r1.storeAppData w r1.appName).generateReport w).2) := by
    unfold AppRun.runForSingleApp
    simp only [hvalid, Bool.not_true, Bool.false_eq_true, if_false]
  rw [hrun]
  generalize r.resetRun.runKnipAnalysis w = rk at hl hname hknip hthrow ⊢
  obtain ⟨he, h1, h2, h3, h4, h5⟩ := AppRun.scanAssets_inputs w rk hl
  generalize rk.scanAssets w = s at he h1 h2 h3 h4 h5 ⊢
  obtain ⟨e, r1⟩ := s
  simp only at he h1 h2 h3 h4 h5
  subst he
  simp only
  have hn : r1.appName = r.appName := h3.trans hname
  have hrep : ∀ m : List (Str × AppReport), reportGet (reportSet m r.appName (r1.appReport w)) r.appName =
      some (r1.appReport w) := fun m => reportGet_reportSet _ _ _
  have hfields : (r1.appReport w).unused_files = rk.knipResults.files ∧
      (r1.appReport w).dependencies = rk.knipResults.dependencies.orEmptyArray ∧
      (r1.appReport w).devDependencies = rk.knipResults.devDependencies.orEmptyArray ∧
      (r1.appReport w).unused_exports = rk.knipResults.exports ∧
      (r1.appReport w).unused_types = rk.knipResults.types ∧
      (r1.appReport w).knip_analysis_status =
        (if r.knip.enabled.truthy then
          (if rk.knipResults.hasError then "failed".toList else "success".toList)
         else "skipped".toList) ∧
      (r1.appReport w).unused_assets.files = r1.unusedAssets.map r1.reportFile := by
    unfold AppRun.appReport
    simp only [h1, h2, hknip, and_self]
  by_cases hj : r1.outputJson = true
  · simp only [hj, if_true]
    refine ⟨trivial, r1.appReport w, ?_, hfields⟩
    unfold AppRun.storeAppData
    simp only [hn]
    exact hrep _
  · simp only [hj, Bool.false_eq_true, if_false]
    refine ⟨?_, r1.appReport w, ?_, hfields⟩
    · unfold AppRun.generateReport AppRun.storeAppData
      simp only [h1, hthrow, Bool.not_false]
    · unfold AppRun.generateReport AppRun.storeAppData
      simp only [hn]
      exact hrep _


theorem AppRun.runKnipAnalysis_failed (w : World) (r : AppRun)
    (hen : r.knip.enabled.truthy = true)
    (hpkg : w.existsSync (Path.join [r.appDir, "package.json".toList]) = true)
    (hfail : r.KnipAllFail w ∨ r.KnipUnparsable w) :
    (r.runKnipAnalysis w).knipResults =
        { error := if r.KnipAllFail w then some "All Knip execution attempts failed".toList
                   else none } ∧
      (r.runKnipAnalysis w).sourceContentsLoaded = r.sourceContentsLoaded ∧
      (r.runKnipAnalysis w).appName = r.appName ∧ (r.runKnipAnalysis w).knip = r.knip := by
  have hexcl : r.KnipAllFail w → r.KnipUnparsable w → False := by
    rintro ha ⟨before, c, later, out, hcmds, -, hc, -⟩
    have := ha c (by rw [hcmds]; simp)
    rw [this] at hc
    cases hc
  rcases hfail with hf | hf
  · rw [AppRun.runKnipAnalysis_allFail w r hen hpkg hf, if_pos hf]
    exact ⟨rfl, rfl, rfl, rfl⟩
  · rw [AppRun.runKnipAnalysis_unparsable w r hen hpkg hf, if_neg (fun ha => hexcl ha hf)]
    exact ⟨rfl, rfl, rfl, rfl⟩

/-! ## Where a pattern is recorded -/

theorem Checker.processWhitelistPattern_filed (ck : Checker) (np : Str) :
    (isLiteralPattern np = true ∧ np.contains '/' = true ∧
      ck.processWhitelistPattern np = { ck with exactPaths := setAdd ck.exactPaths np }) ∨
    (isLiteralPattern np = true ∧ np.contains '/' = false ∧
      ck.processWhitelistPattern np = { ck with exactBasenames := setAdd ck.exactBasenames np }) ∨
    (isLiteralPattern np = false ∧ buildWhitelistRegex np = .ok none ∧
      ck.processWhitelistPattern np = ck) ∨
    (isLiteralPattern np = false ∧ ∃ r, buildWhitelistRegex np = .ok (some r) ∧
      ck.processWhitelistPattern np =
        { ck with regexMatchers := ck.regexMatchers ++ [{ sourcePattern := np, regex := r }] }) ∨
    (isLiteralPattern np = false ∧ ∃ msg, buildWhitelistRegex np = .error msg ∧
      ck.processWhitelistPattern np =
        { ck with invalidWhitelistPatterns :=
            ck.invalidWhitelistPatterns ++ [{ pattern := np, reason := msg }] }) := by
  unfold Checker.processWhitelistPattern
  simp only
  by_cases hl : isLiteralPattern np = true
  · have hl2 := hl
    unfold isLiteralPattern at hl2
    rw [if_pos hl2]
    by_cases hs : np.contains '/' = true
    · rw [if_pos hs]
      exact Or.inl ⟨hl, hs, rfl⟩
    · rw [if_neg hs]
      simp only [Bool.not_eq_true] at hs
      exact Or.inr (Or.inl ⟨hl, hs, rfl⟩)
  · have hl2 := hl
    unfold isLiteralPattern at hl2
    rw [if_neg hl2]
    simp only [Bool.not_eq_true] at hl
    cases h : buildWhitelistRegex np with
    | error msg => exact Or.inr (Or.inr (Or.inr (Or.inr ⟨hl, msg, rfl, rfl⟩)))
    | ok o =>
      cases o with
      | none => exact Or.inr (Or.inr (Or.inl ⟨hl, rfl, rfl⟩))
      | some r => exact Or.inr (Or.inr (Or.inr (Or.inl ⟨hl, r, rfl, rfl⟩)))

theorem buildWhitelistRegex_null_iff (np : Str) :
    buildWhitelistRegex np = .ok none ↔ trim np = [] := by
  unfold buildWhitelistRegex
  simp only
  by_cases h0 : trim np = []
  · simp [h0]
  · simp only [h0, if_false, iff_false]
    split
    · cases validateRegexSafety ((trim np).drop 6) with
      | error e => simp
      | ok u =>
        simp only
        cases newRegExp ((trim np).drop 6) [] <;> simp [Except.map]
    · split
      · rename_i body flags _
        cases validateRegexSafety body with
        | error e => simp
        | ok u =>
          simp only
          cases newRegExp body flags <;> simp [Except.map]
      · cases newRegExp ('^' :: globToRegex
          (if endsWith (trim np) ['/'] then trim np ++ ['*', '*'] else trim np) ++ ['$']) [] <;>
          simp [Except.map]

theorem isLiteralPattern_nil : isLiteralPattern [] = true := by decide


theorem buildWhitelistRegex_not_null {np : Str} (htrim : trim np = np)
    (hl : isLiteralPattern np = false) : buildWhitelistRegex np ≠ .ok none := by
  intro h
  have h0 := (buildWhitelistRegex_null_iff np).1 h
  rw [htrim] at h0
  rw [h0, isLiteralPattern_nil] at hl
  cases hl

theorem Checker.compileStep_wellFiled (ck : Checker) (x : Str) (h : ck.WellFiled) :
    (ck.compileStep x).WellFiled := by
  obtain ⟨h1, h2, h3, h4⟩ := h
  unfold Checker.compileStep
  split
  · exact ⟨h1, h2, h3, h4⟩
  · rcases Checker.processWhitelistPattern_filed ck (backslashesToSlashes (trim x)) with
      ⟨hl, hs, h⟩ | ⟨hl, hs, h⟩ | ⟨_, _, h⟩ | ⟨hl, r, hb, h⟩ | ⟨hl, msg, hb, h⟩ <;> rw [h]
    · refine ⟨?_, h2, h3, h4⟩
      intro y hy
      rcases mem_setAdd_iff.1 hy with hy | hy
      · exact h1 y hy
      · subst hy; exact ⟨hl, hs⟩
    · refine ⟨h1, ?_, h3, h4⟩
      intro y hy
      rcases mem_setAdd_iff.1 hy with hy | hy
      · exact h2 y hy
      · subst hy; exact ⟨hl, hs⟩
    · exact ⟨h1, h2, h3, h4⟩
    · refine ⟨h1, h2, ?_, h4⟩
      intro m hm
      rcases List.mem_append.1 hm with hm | hm
      · exact h3 m hm
      · simp only [List.mem_singleton] at hm
        subst hm
        exact ⟨hl, hb⟩
    · refine ⟨h1, h2, h3, ?_⟩
      intro e he
      rcases List.mem_append.1 he with he | he
      · exact h4 e he
      · simp only [List.mem_singleton] at he
        subst he
        exact ⟨hl, hb⟩

theorem Checker.compile_wellFiled (ck : Checker) : ck.compileWhitelistMatchers.WellFiled := by
  unfold Checker.compileWhitelistMatchers
  apply foldl_stable Checker.compileStep Checker.WellFiled
    (fun c y h => Checker.compileStep_wellFiled c y h)
  refine ⟨?_, ?_, ?_, ?_⟩ <;> intro x hx <;> simp [Checker.resetWhitelistMatchers] at hx

theorem Checker.compileStep_keeps_record (ck : Checker) (y np : Str) (h : ck.Records np) :
    (ck.compileStep y).Records np := by
  obtain ⟨-, -, g1, g2, g3, g4, -⟩ := Checker.compileStep_grows ck y
  rcases h with h | h | ⟨m, hm, h⟩ | ⟨e, he, h⟩
  · exact Or.inl (g1 _ h)
  · exact Or.inr (Or.inl (g2 _ h))
  · exact Or.inr (Or.inr (Or.inl ⟨m, g3 m hm, h⟩))
  · exact Or.inr (Or.inr (Or.inr ⟨e, g4 e he, h⟩))

theorem Checker.compileStep_records (ck : Checker) (p : Str) (hne : p ≠ [])
    (hcomment : startsWith (trim p) ['/', '/'] = false) :
    (ck.compileStep p).Records (backslashesToSlashes (trim p)) := by
  unfold Checker.compileStep
  rw [hcomment]
  simp only [hne, Bool.false_eq_true, or_self, if_false]
  rcases Checker.processWhitelistPattern_filed ck (backslashesToSlashes (trim p)) with
    ⟨_, _, h⟩ | ⟨_, _, h⟩ | ⟨hl, hb, _⟩ | ⟨_, r, _, h⟩ | ⟨_, msg, _, h⟩
  · rw [h]; exact Or.inl (mem_setAdd_self _ _)
  · rw [h]; exact Or.inr (Or.inl (mem_setAdd_self _ _))
  · exact absurd hb (buildWhitelistRegex_not_null (trim_normalized p) hl)
  · rw [h]
    exact Or.inr (Or.inr (Or.inl
      ⟨{ sourcePattern := backslashesToSlashes (trim p), regex := r }, by simp, rfl⟩))
  · rw [h]
    exact Or.inr (Or.inr (Or.inr
      ⟨{ pattern := backslashesToSlashes (trim p), reason := msg }, by simp, rfl⟩))

theorem Checker.compile_records (ck : Checker) (p : Str) (hp : p ∈ ck.getAllWhitelistPatterns)
    (hne : p ≠ []) (hcomment : startsWith (trim p) ['/', '/'] = false) :
    ck.compileWhitelistMatchers.Records (backslashesToSlashes (trim p)) := by
  unfold Checker.compileWhitelistMatchers
  exact foldl_establish Checker.compileStep
    (fun c => c.Records (backslashesToSlashes (trim p))) p
    (fun c => Checker.compileStep_records c p hne hcomment)
    (fun c y h => Checker.compileStep_keeps_record c y _ h) _ _ hp

theorem Checker.WellFiled.exactlyOne {ck : Checker} (h : ck.WellFiled) {np : Str}
    (hr : ck.Records np) :
    ExactlyOneOf (np ∈ ck.exactPaths) (np ∈ ck.exactBasenames)
      (∃ m ∈ ck.regexMatchers, m.sourcePattern = np)
      (∃ e ∈ ck.invalidWhitelistPatterns, e.pattern = np) := by
  obtain ⟨h1, h2, h3, h4⟩ := h
  have n12 : np ∈ ck.exactPaths → np ∈ ck.exactBasenames → False := fun a b => by
    have := (h1 np a).2
    rw [(h2 np b).2] at this
    cases this
  have n13 : np ∈ ck.exactPaths → (∃ m ∈ ck.regexMatchers, m.sourcePattern = np) → False := by
    rintro a ⟨m, hm, rfl⟩
    have := (h1 _ a).1
    rw [(h3 m hm).1] at this
    cases this
  have n14 : np ∈ ck.exactPaths → (∃ e ∈ ck.invalidWhitelistPatterns, e.pattern = np) → False := by
    rintro a ⟨e, he, rfl⟩
    have := (h1 _ a).1
    rw [(h4 e he).1] at this
    cases this
  have n23 : np ∈ ck.exactBasenames → (∃ m ∈ ck.regexMatchers, m.sourcePattern = np) → False := by
    rintro a ⟨m, hm, rfl⟩
    have := (h2 _ a).1
    rw [(h3 m hm).1] at this
    cases this
  have n24 : np ∈ ck.exactBasenames →
      (∃ e ∈ ck.invalidWhitelistPatterns, e.pattern = np) → False := by
    rintro a ⟨e, he, rfl⟩
    have := (h2 _ a).1
    rw [(h4 e he).1] at this
    cases this
  have n34 : (∃ m ∈ ck.regexMatchers, m.sourcePattern = np) →
      (∃ e ∈ ck.invalidWhitelistPatterns, e.pattern = np) → False := by
    rintro ⟨m, hm, rfl⟩ ⟨e, he, hpe⟩
    have a := (h3 m hm).2
    have b := (h4 e he).2
    rw [hpe, a] at b
    cases b
  rcases hr with a | a | a | a
  · exact Or.inl ⟨a, n12 a, n13 a, n14 a⟩
  · exact Or.inr (Or.inl ⟨fun b => n12 b a, a, n23 a, n24 a⟩)
  · exact Or.inr (Or.inr (Or.inl ⟨fun b => n13 b a, fun b => n23 b a, a, n34 a⟩))
  · exact Or.inr (Or.inr (Or.inr ⟨fun b => n14 b a, fun b => n24 b a, fun b => n34 b a, a⟩))

/-- A pattern in regex syntax whose body the safety gate rejects is recorded
as invalid by `compileWhitelistMatchers` and gets no regex matcher. -/
theorem Checker.compile_gate_rejected (ck : Checker) (p body msg : Str)
    (hp : p ∈ ck.getAllWhitelistPatterns) (hcomment : startsWith (trim p) ['/', '/'] = false)
    (hform : IsRegexPatternWithBody (backslashesToSlashes (trim p)) body)
    (hmsg : validateRegexSafety body = .error msg) :
    ({ pattern := backslashesToSlashes (trim p), reason := msg } : InvalidPattern) ∈
        ck.compileWhitelistMatchers.invalidWhitelistPatterns ∧
      ∀ m ∈ ck.compileWhitelistMatchers.regexMatchers,
        m.sourcePattern ≠ backslashesToSlashes (trim p) := by
  have hbuild := buildWhitelistRegex_rejected hform (trim_normalized p) hmsg
  have hne : p ≠ [] := by
    rintro rfl
    rcases hform with h | ⟨flags, h, -, -⟩
    · simp [trim, trimStart, trimEnd, backslashesToSlashes] at h
    · simp [trim, trimStart, trimEnd, backslashesToSlashes] at h
  constructor
  · unfold Checker.compileWhitelistMatchers
    refine foldl_establish Checker.compileStep
      (fun c => ({ pattern := backslashesToSlashes (trim p), reason := msg } : InvalidPattern) ∈
        c.invalidWhitelistPatterns) p ?_ ?_ _ _ hp
    · intro c
      show _ ∈ (c.compileStep p).invalidWhitelistPatterns
      unfold Checker.compileStep
      rw [if_neg (by simp [hne, hcomment]), Checker.processWhitelistPattern_rejected c hform hbuild]
      simp
    · intro c y h
      exact (Checker.compileStep_grows c y).2.2.2.2.2.1 _ h
  · intro m hm heq
    have := Checker.compile_matchers_built ck m hm
    rw [heq, hbuild] at this
    cases this

/-! ## The claims -/

/-- C1 (amended): a whitelist pattern in regex syntax whose slash-normalized
body contains a group `(x q1 y)` directly followed by `q2`, where `q1` and
`q2` are each `+` or `*`, `q1` stands directly in the group (outside every
inner pair of parentheses) and `x`, `y` are runs of non-parenthesis
characters and of parenthesised runs of such characters (as in `(a+)+`),
gets an InvalidPattern entry from `compileWhitelistMatchers` and no regex
matcher. -/
theorem nested_quantifier_pattern_is_invalid (ck : Checker) (p body : Str)
    (hp : p ∈ ck.getAllWhitelistPatterns) (hcomment : startsWith (trim p) ['/', '/'] = false)
    (hform : IsRegexPatternWithBody (backslashesToSlashes (trim p)) body)
    (hnested : HasNestedQuantifier body) :
    (∃ reason, ({ pattern := backslashesToSlashes (trim p), reason := reason } : InvalidPattern) ∈
        ck.compileWhitelistMatchers.invalidWhitelistPatterns) ∧
      ∀ m ∈ ck.compileWhitelistMatchers.regexMatchers,
        m.sourcePattern ≠ backslashesToSlashes (trim p) := by
  obtain ⟨msg, hmsg⟩ := validateRegexSafety_rejects_nested hnested
  have hbuild := buildWhitelistRegex_rejected hform (trim_normalized p) hmsg
  have hne : p ≠ [] := by
    rintro rfl
    rcases hform with h | ⟨flags, h, -, -⟩
    · simp [trim, trimStart, trimEnd, backslashesToSlashes] at h
    · simp [trim, trimStart, trimEnd, backslashesToSlashes] at h
  constructor
  · refine ⟨msg, ?_⟩
    unfold Checker.compileWhitelistMatchers
    refine foldl_establish Checker.compileStep
      (fun c => ({ pattern := backslashesToSlashes (trim p), reason := msg } : InvalidPattern) ∈
        c.invalidWhitelistPatterns) p ?_ ?_ _ _ hp
    · intro c
      show _ ∈ (c.compileStep p).invalidWhitelistPatterns
      unfold Checker.compileStep
      rw [if_neg (by simp [hne, hcomment]), Checker.processWhitelistPattern_rejected c hform hbuild]
      simp
    · intro c y h
      exact (Checker.compileStep_grows c y).2.2.2.2.2.1 _ h
  · intro m hm heq
    have := Checker.compile_matchers_built ck m hm
    rw [heq, hbuild] at this
    cases this

/-- Evidence for C1 (amended): the pattern `regex:(a+)+`. -/
theorem nested_quantifier_pattern_is_invalid_witness :
    (∃ reason, ({ pattern := backslashesToSlashes (trim "regex:(a+)+".toList), reason := reason } :
          InvalidPattern) ∈
        (Checker.compileWhitelistMatchers
          { whitelist := { patterns := ["regex:(a+)+".toList] } }).invalidWhitelistPatterns) ∧
      ∀ m ∈ (Checker.compileWhitelistMatchers
          { whitelist := { patterns := ["regex:(a+)+".toList] } }).regexMatchers,
        m.sourcePattern ≠ backslashesToSlashes (trim "regex:(a+)+".toList) :=
  nested_quantifier_pattern_is_invalid { whitelist := { patterns := ["regex:(a+)+".toList] } }
    "regex:(a+)+".toList "(a+)+".toList (by decide) (by decide) (Or.inl (by decide))
    ⟨[], ['a'], [], [], '+', '+', by decide, Or.inl rfl, Or.inl rfl,
      ⟨[['a']], rfl, fun pc hpc => Or.inl ⟨'a', by simpa using hpc, by decide, by decide⟩⟩,
      ⟨[], rfl, fun pc hpc => by simp at hpc⟩⟩

/-- C1 (as stated) fails: `regex:((a+))+` wraps a quantified sub-expression in
a quantified group, and `regex:(a)\1` holds a back-reference; both are
compiled into regex matchers and neither gets an InvalidPattern entry (the
back-reference reaches the safety gate as `(a)/1`). -/
theorem nested_or_backreference_pattern_accepted :
    (Checker.compileWhitelistMatchers
        { whitelist := { patterns := ["regex:((a+))+".toList] } }).invalidWhitelistPatterns = [] ∧
      (Checker.compileWhitelistMatchers
        { whitelist := { patterns := ["regex:((a+))+".toList] } }).regexMatchers =
        [{ sourcePattern := "regex:((a+))+".toList, regex := Re.plus (Re.plus (.chr 'a')) }] ∧
      (Checker.compileWhitelistMatchers
        { whitelist := { patterns := ["regex:(a)\\1".toList] } }).invalidWhitelistPatterns = [] ∧
      (Checker.compileWhitelistMatchers
        { whitelist := { patterns := ["regex:(a)\\1".toList] } }).regexMatchers =
        [{ sourcePattern := "regex:(a)/1".toList, regex := Re.cat [.chr 'a', .chr '/', .chr '1'] }] := by
  decide

/-- C2 (amended): when a non-empty pattern `p` is among the effective patterns
and its trimmed, slash-normalized form `f` is a folder pattern (it ends in
`/`, is relative without a leading `./` and is not regex syntax),
`isWhitelisted` returns `true` for the folder path written with its trailing
slash and for every path `f ++ rest` beneath it whose remainder holds no line
terminator, at any depth, from the freshly compiled matcher and after any
queries. -/
theorem folder_pattern_whitelists_nested (ck : Checker) (p rest : Str) (qs : List Str)
    (hp : p ∈ ck.getAllWhitelistPatterns) (hne : p ≠ [])
    (hfolder : IsFolderPattern (backslashesToSlashes (trim p)))
    (hrest : ∀ c ∈ rest, isLineTerminator c = false) :
    ((ck.compileWhitelistMatchers.afterQueries qs).isWhitelisted
      (backslashesToSlashes (trim p) ++ rest)).1 = true := by
  have hsame := Checker.afterQueries_sameMatchers qs ck.compileWhitelistMatchers
  have hsound := Checker.afterQueries_cacheSound qs _ (Checker.compile_cacheSound ck)
  have hn := hfolder.normalize_append (backslashesToSlashes_no_backslash _)
    (ck.compileWhitelistMatchers.afterQueries qs) rest
  obtain ⟨m, hm, hr⟩ := Checker.compile_has_folder ck p hp hne hfolder
  refine Checker.isWhitelisted_of_regex _ _ hsound ?_ ⟨m, hsame.2.2.2.2 ▸ hm, ?_⟩
  · rw [hn]
    have := hfolder.ne_nil
    simp [this]
  · rw [hn, hr]
    exact folder_regex_accepts _ _ hfolder.1 (backslashesToSlashes_noLT hrest)

/-- Evidence for C2 (amended): `assets/` whitelists `assets/icons/sub/x.svg`. -/
theorem folder_pattern_whitelists_nested_witness :
    ((folderChecker.compileWhitelistMatchers.afterQueries ["assets".toList]).isWhitelisted
      (backslashesToSlashes (trim "assets/".toList) ++ "icons/sub/x.svg".toList)).1 = true :=
  folder_pattern_whitelists_nested folderChecker "assets/".toList "icons/sub/x.svg".toList
    ["assets".toList] (by decide) (by decide) (by decide) (by decide)

/-- C2 (as stated) fails: with the pattern `assets/` the folder's own path
`assets` is not whitelisted, nor is a nested path whose name holds a line
feed; and the folder pattern written `./assets/` does not whitelist the path
`./assets/x.png`. -/
theorem folder_pattern_misses :
    (folderChecker.compileWhitelistMatchers.isWhitelisted "assets".toList).1 = false ∧
      (folderChecker.compileWhitelistMatchers.isWhitelisted "assets/a\nb.png".toList).1 = false ∧
      (Checker.isWhitelisted
        (Checker.compileWhitelistMatchers { whitelist := { patterns := ["./assets/".toList] } })
        "./assets/x.png".toList).1 = false := by
  decide

/-- C3 (amended): when a non-empty literal pattern `b` is among the effective
patterns and its trimmed, slash-normalized form holds no separator, no `*` or
`?` and is not regex syntax, every path whose basename equals that form and
whose normalized form is non-empty is whitelisted, from the freshly compiled
matcher and after any queries, as long as no verdict is cached yet for that
normalized form. -/
theorem basename_literal_whitelists (ck : Checker) (b p : Str) (qs : List Str)
    (hb : b ∈ ck.getAllWhitelistPatterns) (hne : b ≠ [])
    (hlit : IsBasenameLiteral (backslashesToSlashes (trim b)))
    (hbase : Path.basename p = backslashesToSlashes (trim b))
    (hnorm : (ck.normalizePathForWhitelist p).1 ≠ [])
    (hcache : mapGet (ck.compileWhitelistMatchers.afterQueries qs).whitelistResultCache
      (ck.normalizePathForWhitelist p).1 = none) :
    ((ck.compileWhitelistMatchers.afterQueries qs).isWhitelisted p).1 = true := by
  have hsame := Checker.afterQueries_sameMatchers qs ck.compileWhitelistMatchers
  have hmem : backslashesToSlashes (trim b) ∈
      (ck.compileWhitelistMatchers.afterQueries qs).exactBasenames := by
    rw [← hsame.2.2.2.1]
    exact Checker.compile_has_basename ck b hb hne hlit
  have hm : (ck.compileWhitelistMatchers.afterQueries qs).HasMatchers := by
    unfold Checker.HasMatchers
    intro h
    have h2 := h.2.1
    rw [List.length_eq_zero] at h2
    rw [h2] at hmem
    simp at hmem
  have hn : ((ck.compileWhitelistMatchers.afterQueries qs).normalizePathForWhitelist p).1 =
      (ck.normalizePathForWhitelist p).1 := by
    rw [hsame.normalize_eq p]
    exact Checker.normalize_fst_congr ck _ p (Checker.compile_dirs ck).1 (Checker.compile_dirs ck).2
  rw [Checker.isWhitelisted_inside _ p hm (hn ▸ hnorm), hn, hcache]
  simp only [hbase, hmem, decide_True, Bool.or_true, Bool.true_or]

/-- Evidence for C3 (amended): a file named `logo.png` below the app, given by
its absolute path, after an unrelated query. -/
theorem basename_literal_whitelists_witness :
    ((sampleChecker.compileWhitelistMatchers.afterQueries ["src/a.png".toList]).isWhitelisted
      "/app/public/img/logo.png".toList).1 = true :=
  basename_literal_whitelists sampleChecker "logo.png".toList "/app/public/img/logo.png".toList
    ["src/a.png".toList] (by decide) (by decide) (by decide) (by decide) (by decide) (by decide)

/-- C3 (as stated) fails: a file named `logo.png` outside the app is not
whitelisted, and a file whose normalized form already has a cached verdict
(left by the backslash spelling, whose basename is the whole string) gets
that verdict. -/
theorem basename_literal_not_everywhere :
    Path.basename "/other/logo.png".toList = "logo.png".toList ∧
      (sampleChecker.compileWhitelistMatchers.isWhitelisted "/other/logo.png".toList).1 = false ∧
      Path.basename "x/logo.png".toList = "logo.png".toList ∧
      ((sampleChecker.compileWhitelistMatchers.afterQueries ["x\\logo.png".toList]).isWhitelisted
        "x/logo.png".toList).1 = false := by
  decide

/-- C4 (amended): an asset file named `hero-banner.jpg` is reported unused
whenever `hero-banner` occurs in no source text; a template string such as
`/assets/${name}-banner.jpg` does not make it used, because the
dynamic-placeholder regex needs the whole extension-less name inside one
`${...}` placeholder. -/
theorem heroBanner_unused_without_full_name (ck : Checker) (assetPath : Str)
    (hfile : ck.IsAssetFile assetPath) (hname : Path.basename assetPath = "hero-banner.jpg".toList)
    (htexts : ∀ t ∈ ck.sourceContents, includes t "hero-banner".toList = false) :
    ck.isAssetUsed assetPath = .ok false := by
  rw [Checker.isAssetUsed_eq ck assetPath hfile, heroBanner_name hname]
  congr 1
  rw [List.any_eq_false]
  intro t ht
  rw [htexts t ht]
  exact Bool.false_ne_true

/-- Evidence for C4 (amended): the template string of the scenario. -/
theorem heroBanner_unused_without_full_name_witness :
    Checker.isAssetUsed
        { cwd := "/app".toList, appDir := "/app".toList, srcDir := "/app/src".toList,
          sourceContents := ["const url = `/assets/$\x7bname\x7d-banner.jpg`;".toList] }
        "/app/src/assets/hero-banner.jpg".toList = .ok false :=
  heroBanner_unused_without_full_name
    { cwd := "/app".toList, appDir := "/app".toList, srcDir := "/app/src".toList,
      sourceContents := ["const url = `/assets/$\x7bname\x7d-banner.jpg`;".toList] }
    "/app/src/assets/hero-banner.jpg".toList
    ⟨["app".toList, "src".toList, "assets".toList, "hero-banner.jpg".toList], by decide, by decide,
      by decide, by decide⟩
    (by decide) (by decide)

/-- C4 (as stated) fails: with the template string as the only reference,
neither a search string nor the dynamic-placeholder regex matches, and
`isAssetUsed` returns `false`. -/
theorem heroBanner_template_not_detected :
    Checker.isAssetUsed
        { cwd := "/app".toList, appDir := "/app".toList, srcDir := "/app/src".toList,
          sourceContents := ["`/assets/$\x7bname\x7d-banner.jpg`".toList] }
        "/app/src/assets/hero-banner.jpg".toList = .ok false ∧
      (dynamicImportRe "hero-banner".toList).test "`/assets/$\x7bname\x7d-banner.jpg`".toList = false ∧
      includes "`/assets/$\x7bname\x7d-banner.jpg`".toList "hero-banner".toList = false := by
  decide

/-- C5 (amended): for an asset file (absolute path in normal form, not the
source directory or an ancestor of it, no backslash in the file name)
`isAssetUsed` returns normally, and returns `true` exactly when the file's
basename without extension occurs as a substring of some source text. -/
theorem isAssetUsed_iff_name_occurs (ck : Checker) (assetPath : Str) (h : ck.IsAssetFile assetPath) :
    ck.isAssetUsed assetPath =
      .ok (ck.sourceContents.any (fun content =>
        includes content (Path.basenameExt assetPath (Path.extname assetPath)))) :=
  Checker.isAssetUsed_eq ck assetPath h

/-- Evidence for C5 (amended): `logo.png` imported by one source file. -/
theorem isAssetUsed_iff_name_occurs_witness :
    Checker.isAssetUsed
        { cwd := "/app".toList, appDir := "/app".toList, srcDir := "/app/src".toList,
          sourceContents := ["import logo from './assets/logo.png';".toList] }
        "/app/src/assets/logo.png".toList =
      .ok (List.any ["import logo from './assets/logo.png';".toList] (fun content =>
        includes content (Path.basenameExt "/app/src/assets/logo.png".toList
          (Path.extname "/app/src/assets/logo.png".toList)))) :=
  isAssetUsed_iff_name_occurs
    { cwd := "/app".toList, appDir := "/app".toList, srcDir := "/app/src".toList,
      sourceContents := ["import logo from './assets/logo.png';".toList] }
    "/app/src/assets/logo.png".toList
    ⟨["app".toList, "src".toList, "assets".toList, "logo.png".toList], by decide, by decide,
      by decide, by decide⟩

/-- C5 (as stated) fails: the file `a\b.png` (a legal POSIX name) counts as
used because the slash-normalized relative path `img/a/b.png` occurs in a
source text, though its extension-less name `a\b` occurs in none. -/
theorem isAssetUsed_without_name_occurrence :
    Checker.isAssetUsed
        { cwd := "/app".toList, appDir := "/app".toList, srcDir := "/app/src".toList,
          sourceContents := ["import x from './img/a/b.png';".toList] }
        "/app/src/img/a\\b.png".toList = .ok true ∧
      Path.basenameExt "/app/src/img/a\\b.png".toList (Path.extname "/app/src/img/a\\b.png".toList) =
        "a\\b".toList ∧
      includes "import x from './img/a/b.png';".toList "a\\b".toList = false := by
  decide

/-- C6 (amended): `validateRegexSafety` throws for every regex body that
contains a look-behind `(?<=X)` or `(?<!X)` whose text `X` up to the next
closing parenthesis is not empty; and a whitelist pattern in regex syntax
whose slash-normalized body is such a body gets an InvalidPattern entry from
`compileWhitelistMatchers` and is never compiled into a regex matcher. -/
theorem validateRegexSafety_rejects_lookbehind (l x r : Str) (q : Char)
    (hq : q = '=' ∨ q = '!') (hx : x ≠ []) (hnc : ')' ∉ x) :
    (∃ msg, validateRegexSafety (l ++ ('(' :: '?' :: '<' :: q :: x ++ [')']) ++ r) = .error msg) ∧
      ∀ (ck : Checker) (p : Str), p ∈ ck.getAllWhitelistPatterns →
        startsWith (trim p) ['/', '/'] = false →
        IsRegexPatternWithBody (backslashesToSlashes (trim p))
          (l ++ ('(' :: '?' :: '<' :: q :: x ++ [')']) ++ r) →
        (∃ reason, ({ pattern := backslashesToSlashes (trim p), reason := reason } : InvalidPattern) ∈
            ck.compileWhitelistMatchers.invalidWhitelistPatterns) ∧
          ∀ m ∈ ck.compileWhitelistMatchers.regexMatchers,
            m.sourcePattern ≠ backslashesToSlashes (trim p) := by
  have hgate : ∃ msg, validateRegexSafety (l ++ ('(' :: '?' :: '<' :: q :: x ++ [')']) ++ r) = .error msg :=
    validateRegexSafety_of_dangerous (p := lookbehind) (by simp [dangerousPatterns])
      (Re.test_of_matches (lookbehind_matches q hq x _ _ hx hnc))
  refine ⟨hgate, fun ck p hp hcomment hform => ?_⟩
  obtain ⟨msg, hmsg⟩ := hgate
  have h := Checker.compile_gate_rejected ck p _ msg hp hcomment hform hmsg
  exact ⟨⟨msg, h.1⟩, h.2⟩

/-- Evidence for C6 (amended): the body `x(?<=a)b` and the pattern
`regex:x(?<=a)b`. -/
theorem validateRegexSafety_rejects_lookbehind_witness :
    (∃ msg, validateRegexSafety "x(?<=a)b".toList = .error msg) ∧
      (∃ reason, ({ pattern := "regex:x(?<=a)b".toList, reason := reason } : InvalidPattern) ∈
          lookbehindChecker.compileWhitelistMatchers.invalidWhitelistPatterns) ∧
        ∀ m ∈ lookbehindChecker.compileWhitelistMatchers.regexMatchers,
          m.sourcePattern ≠ "regex:x(?<=a)b".toList :=
  have h := validateRegexSafety_rejects_lookbehind "x".toList "a".toList "b".toList '=' (Or.inl rfl)
    (by decide) (by decide)
  ⟨h.1, h.2 lookbehindChecker "regex:x(?<=a)b".toList (by decide) (by decide) (Or.inl (by decide))⟩

/-- C6 (as stated) fails: the deny list has no look-ahead shape, and the bodies
`a(?=b)` and `a(?!b)` pass the safety gate. -/
theorem validateRegexSafety_accepts_lookahead :
    validateRegexSafety "a(?=b)".toList = .ok () ∧ validateRegexSafety "a(?!b)".toList = .ok () := by
  decide

/-- C7 fails on the code: the bodies `(a|b)+` and `(a|b)*` pass
`validateRegexSafety`, and the pattern `regex:(a|b)+` is compiled into a
matcher with no invalid-pattern entry. -/
theorem quantified_alternation_is_accepted :
    validateRegexSafety "(a|b)+".toList = .ok () ∧ validateRegexSafety "(a|b)*".toList = .ok () ∧
      (Checker.compileWhitelistMatchers
          { whitelist := { patterns := ["regex:(a|b)+".toList] } }).invalidWhitelistPatterns = [] ∧
      (Checker.compileWhitelistMatchers
          { whitelist := { patterns := ["regex:(a|b)+".toList] } }).regexMatchers =
        [{ sourcePattern := "regex:(a|b)+".toList,
           regex := Re.plus (.alt (.chr 'a') (.chr 'b')) }] := by
  decide

/-- C8: from any checker state, two paths with the same non-empty normalized
form get the same verdict from `isWhitelisted` when queried one after the
other, in either order. -/
theorem isWhitelisted_equal_for_equal_normal_forms (ck : Checker) (p q : Str)
    (heq : (ck.normalizePathForWhitelist p).1 = (ck.normalizePathForWhitelist q).1)
    (hne : (ck.normalizePathForWhitelist p).1 ≠ []) :
    ((ck.isWhitelisted p).2.isWhitelisted q).1 = (ck.isWhitelisted p).1 ∧
      ((ck.isWhitelisted q).2.isWhitelisted p).1 = (ck.isWhitelisted q).1 :=
  ⟨Checker.isWhitelisted_then ck p q heq hne, Checker.isWhitelisted_then ck q p heq.symm (heq ▸ hne)⟩

/-- Evidence for C8: the backslash and the dot-slash spelling of one file. -/
theorem isWhitelisted_equal_for_equal_normal_forms_witness :
    (sampleChecker.compileWhitelistMatchers.normalizePathForWhitelist "src\\assets\\logo.png".toList).1 =
        (sampleChecker.compileWhitelistMatchers.normalizePathForWhitelist "./src/assets/logo.png".toList).1 ∧
      ((sampleChecker.compileWhitelistMatchers.isWhitelisted "src\\assets\\logo.png".toList).2.isWhitelisted
          "./src/assets/logo.png".toList).1 =
        (sampleChecker.compileWhitelistMatchers.isWhitelisted "src\\assets\\logo.png".toList).1 ∧
      ((sampleChecker.compileWhitelistMatchers.isWhitelisted "./src/assets/logo.png".toList).2.isWhitelisted
          "src\\assets\\logo.png".toList).1 =
        (sampleChecker.compileWhitelistMatchers.isWhitelisted "./src/assets/logo.png".toList).1 :=
  ⟨by decide,
    isWhitelisted_equal_for_equal_normal_forms sampleChecker.compileWhitelistMatchers
      "src\\assets\\logo.png".toList "./src/assets/logo.png".toList (by decide) (by decide)⟩

/-- C9 (amended): for an absolute path outside the app that the checker has not
warned about yet, each of `n ≥ 1` successive `isWhitelisted` queries returns
`false`; when at least one matcher is compiled exactly one warning for the
path is appended to the log in total, and when none is compiled (the fast
exit) no warning is logged. -/
theorem outside_path_queries_warn_once (ck : Checker) (p : Str) (n : Nat) (hn : 1 ≤ n)
    (habs : Path.isAbsolute p = true) (hout : ck.IsOutsideApp p)
    (hfresh : p ∉ ck.pathNormalizationWarnings) :
    (ck.queryRepeatedly p n).1 = List.replicate n false ∧
      (ck.queryRepeatedly p n).2.warnLog =
        ck.warnLog ++ (if ck.HasMatchers then [outsideWarning p] else []) := by
  by_cases hm : ck.HasMatchers
  · obtain ⟨m, rfl⟩ : ∃ m, n = m + 1 := ⟨n - 1, by omega⟩
    have h1 := Checker.isWhitelisted_outside ck p (Checker.normalize_outside ck p habs hout)
    have h2 := Checker.normalize_outside_snd ck p habs hout
    rw [if_neg hfresh] at h2
    rw [if_pos hm, h2] at h1
    have h3 := Checker.queryRepeatedly_warned
      { ck with pathNormalizationWarnings := setAdd ck.pathNormalizationWarnings p,
                warnLog := ck.warnLog ++ [outsideWarning p] } p habs hout (mem_setAdd_self _ _) m
    simp only [Checker.queryRepeatedly, h1, h3, List.replicate_succ, if_pos hm, and_self]
  · rw [Checker.queryRepeatedly_fast ck p hm n, if_neg hm]
    simp

/-- Evidence for C9 (amended): one matcher, three queries. -/
theorem outside_path_queries_warn_once_witness :
    (({ appDir := "/app".toList, exactBasenames := ["logo.png".toList] } : Checker).queryRepeatedly
        "/other/logo.png".toList 3).1 = List.replicate 3 false ∧
      (({ appDir := "/app".toList, exactBasenames := ["logo.png".toList] } : Checker).queryRepeatedly
        "/other/logo.png".toList 3).2.warnLog =
        ({ appDir := "/app".toList, exactBasenames := ["logo.png".toList] } : Checker).warnLog ++
          (if ({ appDir := "/app".toList, exactBasenames := ["logo.png".toList] } : Checker).HasMatchers
            then [outsideWarning "/other/logo.png".toList] else []) :=
  outside_path_queries_warn_once _ _ 3 (by decide) (by decide) (by decide) (by decide)

/-- C9 (as stated) fails: with no pattern compiled, queries for an outside path
return `false` but log no warning at all. -/
theorem outside_path_no_warning_without_matchers :
    (({ appDir := "/app".toList } : Checker).compileWhitelistMatchers.queryRepeatedly
        "/other/logo.png".toList 2) =
      ([false, false], ({ appDir := "/app".toList } : Checker)) ∧
    ({ appDir := "/app".toList } : Checker).IsOutsideApp "/other/logo.png".toList ∧
    ({ appDir := "/app".toList } : Checker).warnLog = [] := by
  decide

/-- C10 (amended): for every absolute path that resolves outside the app
directory `normalizePathForWhitelist` returns the empty no-match signal and
`isWhitelisted` returns `false`; a relative path is not checked against the
boundary and comes back slash-normalized with a leading `./` removed. -/
theorem normalizePathForWhitelist_rejects_outside_absolute (ck : Checker) (p : Str)
    (habs : Path.isAbsolute p = true) (hout : ck.IsOutsideApp p) :
    (ck.normalizePathForWhitelist p).1 = [] ∧ (ck.isWhitelisted p).1 = false ∧
      ∀ r : Str, Path.isAbsolute r = false →
        (ck.normalizePathForWhitelist r).1 =
          if startsWith (backslashesToSlashes r) ['.', '/'] then (backslashesToSlashes r).drop 2
          else backslashesToSlashes r := by
  have h := Checker.normalize_outside ck p habs hout
  refine ⟨h, by rw [Checker.isWhitelisted_outside ck p h], ?_⟩
  intro r hr
  unfold Checker.normalizePathForWhitelist
  by_cases h1 : r = []
  · subst h1; simp [backslashesToSlashes, startsWith]
  · by_cases h5 : startsWith (backslashesToSlashes r) ['.', '/'] = true
    · simp only [h1, hr, h5, if_true, if_false]
      simp
    · simp only [h1, hr, h5, if_true, if_false]
      simp

/-- Evidence for C10 (amended). -/
theorem normalizePathForWhitelist_rejects_outside_absolute_witness :
    (({ appDir := "/app".toList } : Checker).normalizePathForWhitelist "/other/logo.png".toList).1 = [] ∧
      (({ appDir := "/app".toList } : Checker).isWhitelisted "/other/logo.png".toList).1 = false ∧
      ∀ r : Str, Path.isAbsolute r = false →
        (({ appDir := "/app".toList } : Checker).normalizePathForWhitelist r).1 =
          if startsWith (backslashesToSlashes r) ['.', '/'] then (backslashesToSlashes r).drop 2
          else backslashesToSlashes r :=
  normalizePathForWhitelist_rejects_outside_absolute _ _ (by decide) (by decide)

/-- C10 (as stated) fails: the relative path `../other/logo.png` climbs out of
the app, yet it is not normalized to the empty string and a basename pattern
whitelists it. -/
theorem normalizePathForWhitelist_keeps_climbing_relative :
    (({ appDir := "/app".toList, cwd := "/app".toList,
        whitelist := { patterns := ["logo.png".toList] } } : Checker).compileWhitelistMatchers.normalizePathForWhitelist
        "../other/logo.png".toList).1 = "../other/logo.png".toList ∧
    (({ appDir := "/app".toList, cwd := "/app".toList,
        whitelist := { patterns := ["logo.png".toList] } } : Checker).compileWhitelistMatchers.isWhitelisted
        "../other/logo.png".toList).1 = true ∧
    ({ appDir := "/app".toList, cwd := "/app".toList } : Checker).IsOutsideApp "../other/logo.png".toList := by
  decide

/-- C14: for every path `p` and every checker state, the second of two
successive calls `isWhitelisted(p)` returns the verdict of the first and makes
no call of `regex.test` (the counting variant returns the same verdict and
state as `isWhitelisted` and counts the calls). -/
theorem isWhitelisted_twice_same_verdict_no_regex (ck : Checker) (p : Str) :
    (ck.isWhitelistedCounting p).1 = ck.isWhitelisted p ∧
      ((ck.isWhitelisted p).2.isWhitelistedCounting p).1 = (ck.isWhitelisted p).2.isWhitelisted p ∧
      ((ck.isWhitelisted p).2.isWhitelisted p).1 = (ck.isWhitelisted p).1 ∧
      ((ck.isWhitelisted p).2.isWhitelistedCounting p).2 = 0 :=
  ⟨Checker.isWhitelistedCounting_fst ck p, Checker.isWhitelistedCounting_fst _ p,
    (Checker.isWhitelisted_repeat_second ck p).1, (Checker.isWhitelisted_repeat_second ck p).2⟩

/-- C16 (amended): for every trimmed glob pattern `g` (containing `*` or `?`,
not in regex syntax) `buildWhitelistRegex` compiles a regex that accepts a
string `s` of characters of the Basic Multilingual Plane (each one UTF-16
code unit) exactly when the whole of `s` matches the pattern under glob
semantics in which `**` matches any string without a line terminator, a lone
`*` any run of characters other than `/`, `?` one character other than `/`
and every other character only itself; a pattern ending in `/` is matched as
if `**` followed it. -/
theorem glob_regex_accepts_iff_glob_match (g : Str)
    (hglob : g.any (fun c => c == '*' || c == '?') = true) (htrim : trim g = g)
    (hre : startsWith g "regex:".toList = false) (hlit : regexLiteralMatch g = none) :
    ∃ r : Re, buildWhitelistRegex g = .ok (some r) ∧
      ∀ s : Str, IsBmp s → (r.test s = true ↔
        GlobMatches false (if endsWith g ['/'] then g ++ ['*', '*'] else g) s) := by
  have hne : g ≠ [] := by
    intro h
    subst h
    simp at hglob
  exact ⟨_, buildWhitelistRegex_glob g hne htrim hre hlit, fun s _ => globRe_test_iff _ s⟩

/-- Evidence for C16 (amended): the pattern `src/*.p?g`. -/
theorem glob_regex_accepts_iff_glob_match_witness :
    ∃ r : Re, buildWhitelistRegex "src/*.p?g".toList = .ok (some r) ∧
      ∀ s : Str, IsBmp s → (r.test s = true ↔
        GlobMatches false (if endsWith "src/*.p?g".toList ['/'] then "src/*.p?g".toList ++ ['*', '*']
          else "src/*.p?g".toList) s) :=
  glob_regex_accepts_iff_glob_match _ (by decide) (by decide) (by decide) (by decide)

/-- C16 (as stated) fails: with `**` read as "any string" the text `a`, line
feed, `b` matches the glob `**`, but the regex compiled for `**` is `^.*$`
and rejects it, because `.` does not match a line terminator. -/
theorem globstar_regex_rejects_line_feed :
    buildWhitelistRegex "**".toList = .ok (some (globRe "**".toList)) ∧
      (globRe "**".toList).test "a\nb".toList = false ∧
      GlobMatches true "**".toList "a\nb".toList := by
  refine ⟨by decide, by decide, ["a\nb".toList], ?_, rfl⟩
  rw [show globTokens "**".toList = [.globstar] from rfl]
  exact .cons (Or.inl rfl) .nil

/-- C18 (amended): when the path literal `P`, written trimmed, without a
backslash and not starting with `//` (it contains a `/`, no `*` or `?`, does
not end in `/` and is not in regex syntax), is the only effective pattern,
then after compiling, and after any queries made since, `isWhitelisted(p)` is true exactly when the normalized
form of `p` equals `P`; the pattern is stored in the exact-path set and no
regex is compiled for it. -/
theorem path_literal_whitelists_exactly (ck : Checker) (P p : Str) (qs : List Str)
    (hlit : IsPathLiteral P) (honly : ck.getAllWhitelistPatterns = [P]) :
    (((ck.compileWhitelistMatchers.afterQueries qs).isWhitelisted p).1 = true ↔
        (ck.normalizePathForWhitelist p).1 = P) ∧
      ck.compileWhitelistMatchers.exactPaths = [P] ∧
      ck.compileWhitelistMatchers.regexMatchers = [] ∧
      ck.compileWhitelistMatchers.invalidWhitelistPatterns = [] := by
  have hcomp := hlit.compile_exact ck honly
  have hne : P ≠ [] := by
    intro h0
    have := hlit.2.2.2.1
    rw [h0] at this
    simp at this
  refine ⟨?_, by rw [hcomp], by rw [hcomp]; rfl, by rw [hcomp]; rfl⟩
  have hm : ck.compileWhitelistMatchers.HasMatchers := by
    rw [hcomp]
    unfold Checker.HasMatchers
    simp
  have hb : ck.compileWhitelistMatchers.NoBasenameMatch := by
    rw [hcomp]
    exact ⟨rfl, fun m hm2 => by simp [Checker.resetWhitelistMatchers] at hm2⟩
  have hc : ck.compileWhitelistMatchers.CacheExact := by
    intro k v hk
    rw [Checker.compile_cache] at hk
    simp [mapGet] at hk
  rw [Checker.isWhitelisted_after_exact _ qs p hm hb hc]
  have hn : (ck.compileWhitelistMatchers.normalizePathForWhitelist p).1 =
      (ck.normalizePathForWhitelist p).1 :=
    Checker.normalize_fst_congr ck _ p (Checker.compile_dirs ck).1 (Checker.compile_dirs ck).2
  rw [hn, hcomp]
  simp only [Checker.pathVerdict, Checker.resetWhitelistMatchers, List.any_nil, Bool.or_false,
    List.mem_singleton, Bool.and_eq_true, decide_eq_true_eq]
  constructor
  · intro h; exact h.2
  · intro h; exact ⟨by rw [h]; exact hne, h⟩

/-- Evidence for C18 (amended): the pattern `src/assets/logo.png`, queried for
`other/logo.png` after a first query of `./src/assets/logo.png`. -/
theorem path_literal_whitelists_exactly_witness :
    (((literalChecker.compileWhitelistMatchers.afterQueries ["./src/assets/logo.png".toList]).isWhitelisted
          "other/logo.png".toList).1 = true ↔
        (literalChecker.normalizePathForWhitelist "other/logo.png".toList).1 =
          "src/assets/logo.png".toList) ∧
      literalChecker.compileWhitelistMatchers.exactPaths = ["src/assets/logo.png".toList] ∧
      literalChecker.compileWhitelistMatchers.regexMatchers = [] ∧
      literalChecker.compileWhitelistMatchers.invalidWhitelistPatterns = [] :=
  path_literal_whitelists_exactly literalChecker _ _ _ (by decide) (by decide)

/-- C18 (as stated) fails for a literal that is not written in the form the
matcher stores.  The only pattern `src\assets\logo.png` whitelists the path
`src/assets/logo.png`, whose normalized form is not the pattern; so does the
only pattern ` src/assets/logo.png` with a leading blank.  The only pattern
`//cdn/logo.png` is skipped as a comment line, and the path
`.///cdn/logo.png`, whose normalized form is the pattern, is not whitelisted. -/
theorem path_literal_is_rewritten_or_skipped :
    (((onlyPatternChecker "src\\assets\\logo.png".toList).compileWhitelistMatchers.isWhitelisted
          "src/assets/logo.png".toList).1 = true ∧
        ((onlyPatternChecker "src\\assets\\logo.png".toList).normalizePathForWhitelist
          "src/assets/logo.png".toList).1 ≠ "src\\assets\\logo.png".toList) ∧
      (((onlyPatternChecker " src/assets/logo.png".toList).compileWhitelistMatchers.isWhitelisted
          "src/assets/logo.png".toList).1 = true ∧
        ((onlyPatternChecker " src/assets/logo.png".toList).normalizePathForWhitelist
          "src/assets/logo.png".toList).1 ≠ " src/assets/logo.png".toList) ∧
      (((onlyPatternChecker "//cdn/logo.png".toList).compileWhitelistMatchers.isWhitelisted
          ".///cdn/logo.png".toList).1 = false ∧
        ((onlyPatternChecker "//cdn/logo.png".toList).normalizePathForWhitelist
          ".///cdn/logo.png".toList).1 = "//cdn/logo.png".toList) := by
  refine ⟨⟨by decide, by decide⟩, ⟨by decide, by decide⟩, by decide, by decide⟩

/-- C17 (amended): when `D/**`, for a relative directory prefix `D` of literal
path characters, is the only effective pattern, then after compiling and any
queries made since, `isWhitelisted(p)` is true exactly when the normalized
form of `p` is `D/` followed by a remainder without line terminator; so every
relative path `D/rest`, at any depth, is whitelisted unless `rest` holds a
line terminator, and no path `D` + `tail` is whitelisted whose `tail`, with
backslashes read as slashes, does not start with `/`. -/
theorem dir_globstar_whitelists_subtree (ck : Checker) (D p : Str) (qs : List Str)
    (hD : IsLiteralDir D) (honly : ck.getAllWhitelistPatterns = [dirGlob D]) :
    (((ck.compileWhitelistMatchers.afterQueries qs).isWhitelisted p).1 = true ↔
        ∃ rest : Str, (ck.normalizePathForWhitelist p).1 = D ++ '/' :: rest ∧
          ∀ c ∈ rest, isLineTerminator c = false) ∧
      (∀ rest : Str, (∀ c ∈ rest, isLineTerminator c = false) →
        ((ck.compileWhitelistMatchers.afterQueries qs).isWhitelisted (D ++ '/' :: rest)).1 = true) ∧
      (∀ tail : Str, (∀ r, backslashesToSlashes tail ≠ '/' :: r) →
        ((ck.compileWhitelistMatchers.afterQueries qs).isWhitelisted (D ++ tail)).1 = false) := by
  refine ⟨hD.verdict ck honly qs p, ?_, ?_⟩
  · intro rest hr
    rw [hD.verdict ck honly qs, hD.normalize_below ck]
    exact ⟨backslashesToSlashes rest, by simp [backslashesToSlashes], backslashesToSlashes_noLT hr⟩
  · intro tail ht
    cases hv : ((ck.compileWhitelistMatchers.afterQueries qs).isWhitelisted (D ++ tail)).1 with
    | false => rfl
    | true =>
      obtain ⟨rest, h1, -⟩ := (hD.verdict ck honly qs _).1 hv
      rw [hD.normalize_below ck] at h1
      exact absurd (List.append_cancel_left h1) (ht rest)

/-- Evidence for C17 (amended): the pattern `src/assets/icons/**`. -/
theorem dir_globstar_whitelists_subtree_witness :
    (((iconsChecker.compileWhitelistMatchers.afterQueries []).isWhitelisted
          "src/assets/icons/sub/x.svg".toList).1 = true ↔
        ∃ rest : Str, (iconsChecker.normalizePathForWhitelist "src/assets/icons/sub/x.svg".toList).1 =
            "src/assets/icons".toList ++ '/' :: rest ∧
          ∀ c ∈ rest, isLineTerminator c = false) ∧
      (∀ rest : Str, (∀ c ∈ rest, isLineTerminator c = false) →
        ((iconsChecker.compileWhitelistMatchers.afterQueries []).isWhitelisted
          ("src/assets/icons".toList ++ '/' :: rest)).1 = true) ∧
      (∀ tail : Str, (∀ r, backslashesToSlashes tail ≠ '/' :: r) →
        ((iconsChecker.compileWhitelistMatchers.afterQueries []).isWhitelisted
          ("src/assets/icons".toList ++ tail)).1 = false) :=
  dir_globstar_whitelists_subtree iconsChecker "src/assets/icons".toList _ [] (by decide) (by decide)

/-- C17 (as stated) fails: with the only pattern `src/assets/icons/**` the
relative path `src/assets/icons/a`, line feed, `b.svg` begins with
`src/assets/icons/` and is not whitelisted, while `src/assets/icons\x.svg`,
which has no `/` after the prefix, is. -/
theorem dir_globstar_misses_line_feed :
    (iconsChecker.compileWhitelistMatchers.isWhitelisted "src/assets/icons/a\nb.svg".toList).1 = false ∧
      (iconsChecker.compileWhitelistMatchers.isWhitelisted "src/assets/icons\\x.svg".toList).1 = true := by
  decide

/-- C11: when the compiled matcher state holds at least one invalid pattern,
then in every world `validateApp` returns `false` and `runForSingleApp`
returns `false` right after resetting the run: no asset or source file is
collected, no unused-asset record is produced and the stored reports are
unchanged; the loop of `runForAllApps` does not store a report for such an
app either. -/
theorem invalid_pattern_stops_run (w : World) (r : AppRun)
    (hinv : r.invalidWhitelistPatterns ≠ []) :
    r.validateApp w = false ∧ r.runForSingleApp w = (false, r.resetRun) ∧
      (r.runForSingleApp w).2.assetFiles = [] ∧ (r.runForSingleApp w).2.sourceFiles = [] ∧
      (r.runForSingleApp w).2.unusedAssets = [] ∧
      (r.runForSingleApp w).2.aggregatedUnusedData = r.aggregatedUnusedData ∧
      ∀ (r0 : AppRun) (app : Str), r0.selectApp app = r →
        (r0.runApp w app).1 = false ∧
          (r0.runApp w app).2.aggregatedUnusedData = r0.aggregatedUnusedData := by
  have h1 := AppRun.runForSingleApp_invalid w r hinv
  refine ⟨AppRun.validateApp_invalid w r hinv, h1, by rw [h1]; rfl, by rw [h1]; rfl,
    by rw [h1]; rfl, by rw [h1]; rfl, ?_⟩
  intro r0 app hsel
  unfold AppRun.runApp
  simp only [hsel, h1, Bool.false_eq_true, if_false]
  refine ⟨trivial, ?_⟩
  rw [← hsel]
  rfl

/-- Evidence for C11: the app `web` with the whitelist pattern `regex:(a+)+`. -/
theorem invalid_pattern_stops_run_witness :
    (unsafePatternRun.selectApp "web".toList).validateApp emptyWorld = false ∧
      (unsafePatternRun.selectApp "web".toList).runForSingleApp emptyWorld =
        (false, (unsafePatternRun.selectApp "web".toList).resetRun) ∧
      ((unsafePatternRun.selectApp "web".toList).runForSingleApp emptyWorld).2.assetFiles = [] ∧
      ((unsafePatternRun.selectApp "web".toList).runForSingleApp emptyWorld).2.sourceFiles = [] ∧
      ((unsafePatternRun.selectApp "web".toList).runForSingleApp emptyWorld).2.unusedAssets = [] ∧
      ((unsafePatternRun.selectApp "web".toList).runForSingleApp emptyWorld).2.aggregatedUnusedData =
        (unsafePatternRun.selectApp "web".toList).aggregatedUnusedData ∧
      ∀ (r0 : AppRun) (app : Str), r0.selectApp app = unsafePatternRun.selectApp "web".toList →
        (r0.runApp emptyWorld app).1 = false ∧
          (r0.runApp emptyWorld app).2.aggregatedUnusedData = r0.aggregatedUnusedData :=
  invalid_pattern_stops_run emptyWorld _ (by decide)

/-- C20: after `compileWhitelistMatchers` the result cache is empty, every
entry of the exact-path set, the exact-basename set, the regex list and the
invalid-pattern list is the trimmed, slash-normalized form of one of the
current effective patterns, and the whole matcher state equals the one a
checker that never compiled or answered anything gets for the same whitelist
and app; so it is when `runForAllApps` switches to the next app, whatever the
run held before. -/
theorem compile_rebuilds_matcher_state (ck : Checker) :
    ck.compileWhitelistMatchers.whitelistResultCache = [] ∧
      ck.compileWhitelistMatchers.DerivedFrom ck.getAllWhitelistPatterns ∧
      ck.compileWhitelistMatchers.matcherState =
        (freshChecker ck.whitelist ck.appName).compileWhitelistMatchers.matcherState ∧
      ∀ (r : AppRun) (app : Str),
        (r.selectApp app).whitelistResultCache = [] ∧
          (r.selectApp app).toChecker.DerivedFrom
            (r.whitelist.patterns ++
              ((r.whitelist.products.find? (fun e => e.1 == app)).map (fun e => e.2)).getD []) ∧
          (r.selectApp app).toChecker.matcherState =
            (freshChecker r.whitelist app).compileWhitelistMatchers.matcherState := by
  refine ⟨Checker.compile_cache ck, Checker.compile_derived ck,
    Checker.compile_matcherState _ _ rfl rfl, ?_⟩
  intro r app
  exact ⟨Checker.compile_cache _, Checker.compile_derived _, Checker.compile_matcherState _ _ rfl rfl⟩

/-- C19: when `checkUnusedAssets` runs on a run whose `unusedAssets` is empty
and whose source texts are not loaded yet, no exception ends it and
`unusedAssets` afterwards holds, in the order of the collected asset files,
one record (path below the root, the absolute path, size, formatted size) for
exactly those files for which the call of `isWhitelisted` made in their turn
returned `false` and `isAssetUsed` returns `false`. -/
theorem checkUnusedAssets_records_unused (w : World) (r : AppRun) (hnew : r.unusedAssets = [])
    (hload : r.sourceContentsLoaded = false) :
    (r.checkUnusedAssets w).1 = none ∧
      (r.checkUnusedAssets w).2.unusedAssets =
        ((r.assetFiles.zip (r.toChecker.verdictsFor (r.assetFiles.map some))).filter
          (fun av => !av.2 && !r.assetUsed w av.1)).map
          (fun av =>
            { path := Path.relative r.cwd r.rootDir av.1, fullPath := av.1,
              size := getFileSize w av.1,
              formattedSize := formatFileSize w (getFileSize w av.1) }) := by
  have h0 : AppRun.ScanInv w r r := ⟨rfl, rfl, rfl, rfl, fun h => by rw [hload] at h; cases h⟩
  have h := AppRun.checkUnusedAssetsLoop_spec w r h0 r.assetFiles r h0
  rw [hnew, List.nil_append] at h
  exact h

/-- Evidence for C19: of two collected assets the one no source file mentions
gets the only record. -/
theorem checkUnusedAssets_records_unused_witness :
    (assetRun.checkUnusedAssets assetWorld).1 = none ∧
      (assetRun.checkUnusedAssets assetWorld).2.unusedAssets =
        ((assetRun.assetFiles.zip
            (assetRun.toChecker.verdictsFor (assetRun.assetFiles.map some))).filter
          (fun av => !av.2 && !assetRun.assetUsed assetWorld av.1)).map
          (fun av =>
            { path := Path.relative assetRun.cwd assetRun.rootDir av.1, fullPath := av.1,
              size := getFileSize assetWorld av.1,
              formattedSize := formatFileSize assetWorld (getFileSize assetWorld av.1) }) :=
  checkUnusedAssets_records_unused assetWorld assetRun (by decide) (by decide)

/-- C15: for analyzer results without an error `applyWhitelistToKnipResults`
leaves in `files`, `exports` and `types`, in the original order, exactly the
items for which the call of `isWhitelisted` made in their turn on their path
(the string item, or the `file` field of a record item) did not return
`true`; items without a path stay. `dependencies`, `devDependencies` and the
error are unchanged, and the checker afterwards is the one that answered the
paths of `files`, `exports` and `types`, in this order, and nothing else. -/
theorem applyWhitelist_filters_path_findings (r : AppRun) (herr : r.knipResults.hasError = false) :
    r.applyWhitelistToKnipResults.knipResults.files =
        dropWhitelisted r.knipResults.files
          (r.toChecker.verdictsFor (r.knipResults.files.map knipItemPath)) ∧
      r.applyWhitelistToKnipResults.knipResults.exports =
        dropWhitelisted r.knipResults.exports
          ((r.toChecker.afterQueries (r.knipResults.files.filterMap knipItemPath)).verdictsFor
            (r.knipResults.exports.map knipItemPath)) ∧
      r.applyWhitelistToKnipResults.knipResults.types =
        dropWhitelisted r.knipResults.types
          ((r.toChecker.afterQueries (r.knipResults.files.filterMap knipItemPath ++
              r.knipResults.exports.filterMap knipItemPath)).verdictsFor
            (r.knipResults.types.map knipItemPath)) ∧
      r.applyWhitelistToKnipResults.knipResults.dependencies = r.knipResults.dependencies ∧
      r.applyWhitelistToKnipResults.knipResults.devDependencies = r.knipResults.devDependencies ∧
      r.applyWhitelistToKnipResults.knipResults.error = r.knipResults.error ∧
      r.applyWhitelistToKnipResults.toChecker =
        r.toChecker.afterQueries (r.knipResults.files.filterMap knipItemPath ++
          r.knipResults.exports.filterMap knipItemPath ++
          r.knipResults.types.filterMap knipItemPath) := by
  unfold AppRun.applyWhitelistToKnipResults
  simp only [herr, Bool.false_eq_true, if_false, Checker.filterKnipPathItems_eq,
    Checker.afterQueries_append, and_self]

/-- Evidence for C15: a whitelisted file and a whitelisted export are removed,
the dependency of the same name stays. -/
theorem applyWhitelist_filters_path_findings_witness :
    knipRun.applyWhitelistToKnipResults.knipResults.files =
        dropWhitelisted knipRun.knipResults.files
          (knipRun.toChecker.verdictsFor (knipRun.knipResults.files.map knipItemPath)) ∧
      knipRun.applyWhitelistToKnipResults.knipResults.exports =
        dropWhitelisted knipRun.knipResults.exports
          ((knipRun.toChecker.afterQueries
              (knipRun.knipResults.files.filterMap knipItemPath)).verdictsFor
            (knipRun.knipResults.exports.map knipItemPath)) ∧
      knipRun.applyWhitelistToKnipResults.knipResults.types =
        dropWhitelisted knipRun.knipResults.types
          ((knipRun.toChecker.afterQueries (knipRun.knipResults.files.filterMap knipItemPath ++
              knipRun.knipResults.exports.filterMap knipItemPath)).verdictsFor
            (knipRun.knipResults.types.map knipItemPath)) ∧
      knipRun.applyWhitelistToKnipResults.knipResults.dependencies =
        knipRun.knipResults.dependencies ∧
      knipRun.applyWhitelistToKnipResults.knipResults.devDependencies =
        knipRun.knipResults.devDependencies ∧
      knipRun.applyWhitelistToKnipResults.knipResults.error = knipRun.knipResults.error ∧
      knipRun.applyWhitelistToKnipResults.toChecker =
        knipRun.toChecker.afterQueries (knipRun.knipResults.files.filterMap knipItemPath ++
          knipRun.knipResults.exports.filterMap knipItemPath ++
          knipRun.knipResults.types.filterMap knipItemPath) :=
  applyWhitelist_filters_path_findings knipRun (by decide)

/-- C13 (amended): when the app passes validation, the analyzer is enabled and
`package.json` exists, and either every command fails or the first command
that runs prints output `parseKnipOutput` cannot parse, `runForSingleApp`
returns `true` and stores a report for the app whose lists of external
findings are empty and whose unused assets are those the asset scan found;
the status is `failed` when every command failed, but `success` when the
output could not be parsed. -/
theorem analyzer_failure_keeps_asset_report (w : World) (r : AppRun)
    (hvalid : r.resetRun.validateApp w = true) (hen : r.knip.enabled.truthy = true)
    (hpkg : w.existsSync (Path.join [r.appDir, "package.json".toList]) = true)
    (hfail : r.KnipAllFail w ∨ r.KnipUnparsable w) :
    (r.runForSingleApp w).1 = true ∧
      ∃ rep : AppReport,
        reportGet (r.runForSingleApp w).2.aggregatedUnusedData r.appName = some rep ∧
          rep.unused_files = [] ∧ rep.dependencies = .arr [] ∧ rep.devDependencies = .arr [] ∧
          rep.unused_exports = [] ∧ rep.unused_types = [] ∧
          rep.knip_analysis_status =
            (if r.KnipAllFail w then "failed".toList else "success".toList) ∧
          rep.unused_assets.files =
            ((r.resetRun.runKnipAnalysis w).scanAssets w).2.unusedAssets.map
              ((r.resetRun.runKnipAnalysis w).scanAssets w).2.reportFile := by
  obtain ⟨hres, hl, hname, hknip⟩ := AppRun.runKnipAnalysis_failed w r.resetRun hen hpkg hfail
  have hthrow : (r.resetRun.runKnipAnalysis w).knipResults.reportThrows w = false := by
    rw [hres]
    split <;> simp [KnipResults.reportThrows, KnipResults.hasError, printItemsThrows, hasItems]
  obtain ⟨h1, rep, h2, h3, h4, h5, h6, h7, h8, h9⟩ :=
    AppRun.runForSingleApp_report w r hvalid hl hname hknip hthrow
  rw [hres] at h3 h4 h5 h6 h7 h8
  refine ⟨h1, rep, h2, h3, h4, h5, h6, h7, ?_, h9⟩
  rw [h8, hen, if_pos rfl]
  have hsame : AppRun.KnipAllFail w r.resetRun ↔ AppRun.KnipAllFail w r := Iff.rfl
  by_cases ha : AppRun.KnipAllFail w r
  · rw [if_pos (hsame.2 ha), if_pos ha]
    simp [KnipResults.hasError]
  · rw [if_neg (fun h => ha (hsame.1 h)), if_neg ha]
    simp [KnipResults.hasError]

/-- Evidence for C13 (amended): no analyzer command can be run. -/
theorem analyzer_failure_keeps_asset_report_witness :
    (knipEnabledRun.runForSingleApp assetWorld).1 = true ∧
      ∃ rep : AppReport,
        reportGet (knipEnabledRun.runForSingleApp assetWorld).2.aggregatedUnusedData
            knipEnabledRun.appName = some rep ∧
          rep.unused_files = [] ∧ rep.dependencies = .arr [] ∧ rep.devDependencies = .arr [] ∧
          rep.unused_exports = [] ∧ rep.unused_types = [] ∧
          rep.knip_analysis_status =
            (if knipEnabledRun.KnipAllFail assetWorld then "failed".toList else "success".toList) ∧
          rep.unused_assets.files =
            ((knipEnabledRun.resetRun.runKnipAnalysis assetWorld).scanAssets assetWorld).2.unusedAssets.map
              ((knipEnabledRun.resetRun.runKnipAnalysis assetWorld).scanAssets assetWorld).2.reportFile :=
  analyzer_failure_keeps_asset_report assetWorld knipEnabledRun (by decide) (by decide) (by decide)
    (Or.inl (by decide))

/-- C13 (as stated) fails: with the analyzer enabled and a command that runs
but prints text that is not JSON, the stored report has empty lists of
external findings and the unused asset, yet its status is `success`, neither
`failed` nor `skipped`. -/
theorem unparsable_output_reported_as_success :
    knipEnabledRun.knip.enabled = .bool true ∧
      parseKnipOutput garbledWorld "knip: command output".toList = none ∧
      (reportGet (knipEnabledRun.runForSingleApp garbledWorld).2.aggregatedUnusedData
          "web".toList).map (fun rep => (rep.knip_analysis_status, rep.knip_error, rep.unused_files,
            rep.unused_assets.files.map (fun f => f.path))) =
        some ("success".toList, none, [], ["src/assets/logo.png".toList]) := by
  decide

/-- C12 (code differs from its documentation): when `srcDir` is set to `a` in
`sweep.config.js` and to `b` in the `sweep` field of `package.json`,
`loadConfig` returns `b`, the value from `package.json`: the configuration
file is merged over the defaults first and `package.json` over the result. -/
theorem loadConfig_package_json_overrides_config_file (a b : Str) :
    (loadConfig "/repo".toList "/repo".toList
        (some (.obj [("srcDir".toList, .str a)]))
        (some (.obj [("sweep".toList, .obj [("srcDir".toList, .str b)])]))).map
      (fun config => objGet config "srcDir".toList) = some (.str b) := by
  rfl

/-- C21: after `compileWhitelistMatchers` every effective pattern that is not
skipped as empty or as a `//` comment is recorded, in its trimmed,
slash-normalized form, in exactly one of four places: the exact-path set, the
exact-basename set, the regex list (as the source pattern of a matcher, with
the regex `buildWhitelistRegex` returns for it) or the invalid-pattern list
(with the message `buildWhitelistRegex` throws for it); and
`buildWhitelistRegex` does not return `null` for a pattern that
`processWhitelistPattern` passes to it. -/
theorem every_pattern_recorded_in_one_place (ck : Checker) (p : Str)
    (hp : p ∈ ck.getAllWhitelistPatterns) (hne : p ≠ [])
    (hcomment : startsWith (trim p) ['/', '/'] = false) :
    ExactlyOneOf
        (backslashesToSlashes (trim p) ∈ ck.compileWhitelistMatchers.exactPaths)
        (backslashesToSlashes (trim p) ∈ ck.compileWhitelistMatchers.exactBasenames)
        (∃ m ∈ ck.compileWhitelistMatchers.regexMatchers,
          m.sourcePattern = backslashesToSlashes (trim p))
        (∃ e ∈ ck.compileWhitelistMatchers.invalidWhitelistPatterns,
          e.pattern = backslashesToSlashes (trim p)) ∧
      (∀ m ∈ ck.compileWhitelistMatchers.regexMatchers,
        buildWhitelistRegex m.sourcePattern = .ok (some m.regex)) ∧
      (∀ e ∈ ck.compileWhitelistMatchers.invalidWhitelistPatterns,
        buildWhitelistRegex e.pattern = .error e.reason) ∧
      (isLiteralPattern (backslashesToSlashes (trim p)) = false →
        buildWhitelistRegex (backslashesToSlashes (trim p)) ≠ .ok none) :=
  ⟨(Checker.compile_wellFiled ck).exactlyOne (Checker.compile_records ck p hp hne hcomment),
    fun m hm => ((Checker.compile_wellFiled ck).2.2.1 m hm).2,
    fun e he => ((Checker.compile_wellFiled ck).2.2.2 e he).2,
    buildWhitelistRegex_not_null (trim_normalized p)⟩

/-- Evidence for C21: the folder pattern written ` assets\icons/ ` among
patterns of every kind. -/
theorem every_pattern_recorded_in_one_place_witness :
    ExactlyOneOf
        (backslashesToSlashes (trim " assets\\icons/ ".toList) ∈
          mixedChecker.compileWhitelistMatchers.exactPaths)
        (backslashesToSlashes (trim " assets\\icons/ ".toList) ∈
          mixedChecker.compileWhitelistMatchers.exactBasenames)
        (∃ m ∈ mixedChecker.compileWhitelistMatchers.regexMatchers,
          m.sourcePattern = backslashesToSlashes (trim " assets\\icons/ ".toList))
        (∃ e ∈ mixedChecker.compileWhitelistMatchers.invalidWhitelistPatterns,
          e.pattern = backslashesToSlashes (trim " assets\\icons/ ".toList)) ∧
      (∀ m ∈ mixedChecker.compileWhitelistMatchers.regexMatchers,
        buildWhitelistRegex m.sourcePattern = .ok (some m.regex)) ∧
      (∀ e ∈ mixedChecker.compileWhitelistMatchers.invalidWhitelistPatterns,
        buildWhitelistRegex e.pattern = .error e.reason) ∧
      (isLiteralPattern (backslashesToSlashes (trim " assets\\icons/ ".toList)) = false →
        buildWhitelistRegex (backslashesToSlashes (trim " assets\\icons/ ".toList)) ≠ .ok none) :=
  every_pattern_recorded_in_one_place mixedChecker " assets\\icons/ ".toList (by decide) (by decide)
    (by decide)

end Sweep
